import Mathlib

/-!
# Thumb2 code generation (`src/compiler/codegen/arm/Thumb2/Gen.cc`)

A shallow embedding of the Thumb2 instruction-selection routines of `Gen.cc`.

* The code generator is embedded as state-passing functions over a
  `CompilationUnit`; `LOG(FATAL)` and dereferencing a null pointer are the
  `none` result.
* The LIR stream is a list; a `LIR*` returned by an emission routine is the
  index of the instruction in that list.
* The emitted instructions are given their ARM meaning by `execInsn` / `run`,
  over 32-bit words represented as integers in `[0, 2^32)`.
-/

namespace Art

/-! ## 32-bit machine words -/

/-- Reduce an integer to a 32-bit word, `0 ≤ w < 2^32`. -/
def wrap32 (x : Int) : Int := x % 4294967296

/-- Two's-complement reading of a 32-bit word. -/
def signed32 (w : Int) : Int :=
  if w % 4294967296 < 2147483648 then w % 4294967296 else w % 4294967296 - 4294967296

/-- Shift amount of an immediate shift: the ARM encoding reads amount 0 of an
`asr`/`lsr` as 32. -/
def shiftAmount (amount : Int) : Nat :=
  if amount % 32 = 0 then 32 else (amount % 32).toNat

/-- Arithmetic shift right of a 32-bit word. -/
def asr32 (w : Int) (amount : Int) : Int :=
  wrap32 (signed32 w / 2 ^ shiftAmount amount)

/-! ## Enumerations declared in the code generator's headers -/

/-- Where a value lives (`RegLocationType`). -/
inductive RegLocationType where
  | kLocDalvikFrame
  | kLocPhysReg
  | kLocInvalid
  deriving DecidableEq, Repr

/-- Register class requested from the value-materialisation helpers. -/
inductive RegisterClass where
  | kCoreReg
  | kFPReg
  | kAnyReg
  deriving DecidableEq, Repr

/-- Target-independent operation kinds passed to the `opReg*` helpers. -/
inductive OpKind where
  | kOpAdd
  | kOpSub
  | kOpRsub
  | kOpAsr
  | kOpLsl
  | kOpAnd
  | kOpCmp
  | kOpNeg
  | kOpBlx
  deriving DecidableEq, Repr

/-- Target-independent condition codes (`ConditionCode`). -/
inductive ConditionCode where
  | kCondEq
  | kCondNe
  | kCondCs
  | kCondCc
  | kCondMi
  | kCondPl
  | kCondVs
  | kCondVc
  | kCondHi
  | kCondLs
  | kCondGe
  | kCondLt
  | kCondGt
  | kCondLe
  | kCondAl
  | kCondNv
  deriving DecidableEq, Repr

/-- ARM condition codes (`ArmConditionCode`), numbered as the architecture
encodes them. -/
inductive ArmConditionCode where
  | kArmCondEq
  | kArmCondNe
  | kArmCondCs
  | kArmCondCc
  | kArmCondMi
  | kArmCondPl
  | kArmCondVs
  | kArmCondVc
  | kArmCondHi
  | kArmCondLs
  | kArmCondGe
  | kArmCondLt
  | kArmCondGt
  | kArmCondLe
  | kArmCondAl
  | kArmCondNv
  deriving DecidableEq, Repr

/-- The 4-bit encoding of an ARM condition code. -/
def ArmConditionCode.toNat : ArmConditionCode → Nat
  | .kArmCondEq => 0
  | .kArmCondNe => 1
  | .kArmCondCs => 2
  | .kArmCondCc => 3
  | .kArmCondMi => 4
  | .kArmCondPl => 5
  | .kArmCondVs => 6
  | .kArmCondVc => 7
  | .kArmCondHi => 8
  | .kArmCondLs => 9
  | .kArmCondGe => 10
  | .kArmCondLt => 11
  | .kArmCondGt => 12
  | .kArmCondLe => 13
  | .kArmCondAl => 14
  | .kArmCondNv => 15

/-- Modelled from the spec: `oatArmConditionEncoding` is defined outside this
file; it maps each target-independent condition to the ARM condition of the
same name ("signed `<` becomes unsigned-lower `Cc`" names the ARM codes). -/
def oatArmConditionEncoding : ConditionCode → ArmConditionCode
  | .kCondEq => .kArmCondEq
  | .kCondNe => .kArmCondNe
  | .kCondCs => .kArmCondCs
  | .kCondCc => .kArmCondCc
  | .kCondMi => .kArmCondMi
  | .kCondPl => .kArmCondPl
  | .kCondVs => .kArmCondVs
  | .kCondVc => .kArmCondVc
  | .kCondHi => .kArmCondHi
  | .kCondLs => .kArmCondLs
  | .kCondGe => .kArmCondGe
  | .kCondLt => .kArmCondLt
  | .kCondGt => .kArmCondGt
  | .kCondLe => .kArmCondLe
  | .kCondAl => .kArmCondAl
  | .kCondNv => .kArmCondNv

/-- Shift kinds of a shifted register operand (`ArmShiftEncodings`). -/
inductive ArmShiftEncodings where
  | kArmLsl
  | kArmLsr
  | kArmAsr
  | kArmRor
  deriving DecidableEq, Repr

/-- A shifted-register operand descriptor, as built by `encodeShift`. -/
structure Shift where
  code : ArmShiftEncodings
  amount : Int
  deriving DecidableEq, Repr

/-- Modelled from the spec: `encodeShift` is defined outside this file; it
packs a shift kind and an amount into one operand ("a final
arithmetic-shift-right by the table's shift amount"). -/
def encodeShift (code : ArmShiftEncodings) (amount : Int) : Shift :=
  { code := code, amount := amount }

/-- Operand sizes (`OpSize`). -/
inductive OpSize where
  | kWord
  | kLong
  | kSingle
  | kDouble
  | kUnsignedHalf
  | kSignedHalf
  | kUnsignedByte
  | kSignedByte
  deriving DecidableEq, Repr

/-- Opcodes that `Gen.cc` names when it builds an instruction itself
(`newLIR0` .. `newLIR4`, `rawLIR`). -/
inductive ArmOpcode where
  | kPseudoTargetLabel
  | kPseudoSSARep
  | kThumbBx
  | kThumb2It
  | kThumb2Adr
  | kThumb2AddPCR
  | kThumb2MovImmShift
  | kThumb2Smull
  | kThumbMovRR
  | kThumbMovRR_H2H
  | kThumbMovRR_H2L
  | kThumbMovRR_L2H
  | kThumb2Fmdrr
  | kThumb2Fmrrd
  | kThumb2Ldrex
  | kThumb2Strex
  | kThumb2Bfi
  | kThumb2Bfc
  | kThumb2Cbz
  | kThumb2Cbnz
  | kThumbCmpRI8
  | kThumb2CmpRI8
  | kThumbBCond
  | kThumb2LdmiaWB
  | kThumb2SubsRRI12
  deriving DecidableEq, Repr

/-- Value of `LIR::target`: unset, another instruction of the stream (by its
index), or the label of a basic block (`&labelList[id]`). -/
inductive Target where
  | null
  | lir (index : Nat)
  | block (id : Int)
  deriving DecidableEq, Repr

/-- Describes where one SSA value lives (`RegLocation`). -/
structure RegLocation where
  location : RegLocationType
  wide : Bool
  sRegLow : Int
  lowReg : Int
  highReg : Int
  deriving DecidableEq, Repr

/-- The instruction forms that reach the LIR stream. `raw` is an instruction
built in this file from an explicit opcode; every other constructor is the
instruction (or instruction group) appended by the helper of the same name,
which is defined outside this file. -/
inductive Insn where
  | raw (opcode : ArmOpcode) (operands : List Int)
  | loadConstant (rDest : Int) (value : Int)
  | opRegReg (op : OpKind) (rDestSrc1 : Int) (rSrc2 : Int)
  | opRegImm (op : OpKind) (rDestSrc1 : Int) (value : Int)
  | opRegRegImm (op : OpKind) (rDest : Int) (rSrc1 : Int) (value : Int)
  | opRegRegReg (op : OpKind) (rDest : Int) (rSrc1 : Int) (rSrc2 : Int)
  | opRegRegRegShift (op : OpKind) (rDest : Int) (rSrc1 : Int) (rSrc2 : Int) (shift : Shift)
  | opCondBranch (cc : ConditionCode)
  | loadWordDisp (rBase : Int) (displacement : Int) (rDest : Int)
  | loadBaseIndexed (rBase : Int) (rIndex : Int) (rDest : Int) (scale : Int) (size : OpSize)
  | markBoundary (offset : Int)
  | genBarrier
  | fpRegCopy (rDest : Int) (rSrc : Int)
  | loadValue (rDest : Int) (sReg : Int)
  | loadValueWide (rDestLo : Int) (rDestHi : Int) (sReg : Int)
  | storeValue (sReg : Int) (rSrc : Int)
  | storeValueWide (sReg : Int) (rSrcLo : Int) (rSrcHi : Int)
  | genIGet (fieldIdx : Int) (optFlags : Nat) (size : OpSize) (rlDest : RegLocation)
      (rlObj : RegLocation) (isLongOrDouble : Bool) (isObject : Bool)
  | genIPut (fieldIdx : Int) (optFlags : Nat) (size : OpSize) (rlSrc : RegLocation)
      (rlObj : RegLocation) (isLongOrDouble : Bool) (isObject : Bool)
  | storeWordDisp (rBase : Int) (displacement : Int) (rSrc : Int)
  | opReg (op : OpKind) (rDestSrc : Int)
  | loadValueDirectFixed (rlSrc : RegLocation) (rDest : Int)
  | genNullCheck (sReg : Int) (mReg : Int)
  | flushAllRegs
  | markSafepointPC (inst : Nat)
  | genMemBarrier (kind : Nat)
  deriving DecidableEq, Repr

/-- One element of the LIR stream. -/
structure LIR where
  insn : Insn
  isNop : Bool
  target : Target
  deriving DecidableEq, Repr

/-! ## ARM meaning of the emitted instructions -/

/-- Condition flags. -/
structure Flags where
  n : Bool
  z : Bool
  c : Bool
  v : Bool
  deriving DecidableEq, Repr

/-- What the emitted code does to the world outside its registers: a plain
store, a store-conditional with the status it reports, a call through a
register, a memory barrier. -/
inductive Event where
  | store (addr : Int) (value : Int)
  | storeExclusive (addr : Int) (value : Int) (status : Int)
  | call (target : Int)
  | barrier
  deriving DecidableEq, Repr

/-- Machine state observed by the emitted code. `flags = none` after an
instruction whose effect on the flags is not modelled; a conditional
instruction executed in that state faults. `frame` holds the home location of
every SSA value, `tableAddr` the address the assembler gives each switch-table
record, `trace` the stores, calls and barriers done so far, `strexFails`
whether a store-conditional finds that exclusive access was lost. -/
structure Machine where
  regs : Int → Int
  flags : Option Flags
  itstate : Nat
  mem : Int → Int
  frame : Int → Int
  tableAddr : Int → Int
  trace : List Event := []
  strexFails : Bool := false

/-- Write a register. -/
def Machine.setReg (m : Machine) (r : Int) (v : Int) : Machine :=
  { m with regs := fun x => if x = r then v else m.regs x }

/-- Write the home location of an SSA value. -/
def Machine.setFrame (m : Machine) (s : Int) (v : Int) : Machine :=
  { m with frame := fun x => if x = s then v else m.frame x }

/-- Write a word of memory. -/
def Machine.setMem (m : Machine) (a : Int) (v : Int) : Machine :=
  { m with mem := fun x => if x = a then v else m.mem x }

/-- Append an event to the trace. -/
def Machine.record (m : Machine) (e : Event) : Machine :=
  { m with trace := m.trace ++ [e] }

/-- Write the condition flags. -/
def Machine.setFlags (m : Machine) (f : Option Flags) : Machine := { m with flags := f }

/-- Write ITSTATE. -/
def Machine.setIT (m : Machine) (s : Nat) : Machine := { m with itstate := s }

/-- Flags produced by the subtraction `a - b` of two 32-bit words. -/
def subFlags (a b : Int) : Flags :=
  { n := decide (2147483648 ≤ wrap32 (wrap32 a - wrap32 b))
    z := decide (wrap32 (wrap32 a - wrap32 b) = 0)
    c := decide (wrap32 b ≤ wrap32 a)
    v := decide (signed32 a - signed32 b < -2147483648 ∨ 2147483648 ≤ signed32 a - signed32 b) }

/-- ARM `ConditionPassed` for a 4-bit condition: EQ, NE, CS, CC, MI, PL, VS,
VC, HI, LS, GE, LT, GT, LE, and the two "always" encodings. -/
def conditionPassed (cond : Nat) (f : Flags) : Bool :=
  match cond with
  | 0 => f.z
  | 1 => !f.z
  | 2 => f.c
  | 3 => !f.c
  | 4 => f.n
  | 5 => !f.n
  | 6 => f.v
  | 7 => !f.v
  | 8 => f.c && !f.z
  | 9 => !(f.c && !f.z)
  | 10 => f.n == f.v
  | 11 => !(f.n == f.v)
  | 12 => (f.n == f.v) && !f.z
  | 13 => !((f.n == f.v) && !f.z)
  | _ => true

/-- ARM `ITAdvance` on the 8-bit ITSTATE (`firstcond:mask`). -/
def itAdvance (s : Nat) : Nat :=
  if s % 8 = 0 then 0 else (s / 32) * 32 + (s * 2) % 32

/-- Whether an IT block is active. -/
def inITBlock (s : Nat) : Bool := decide (s % 16 ≠ 0)

/-- Result of executing one instruction. -/
inductive Step where
  | next (m : Machine)
  | branch (t : Target) (m : Machine)
  | indirect (disp : Int) (m : Machine)
  | ret (m : Machine)
  | fault

/-- Flags after a data-processing instruction whose flag-setting form is not
fixed by this file: kept inside an IT block (where the 16-bit encodings do not
set flags), not known outside. -/
def Machine.clobberFlags (m : Machine) (wasInIT : Bool) : Machine :=
  if wasInIT then m else m.setFlags none

/-- ARM `ThumbExpandImm`: the word a 12-bit modified immediate stands for.
With the top two bits clear the low byte is used as it is, in both halfwords,
in the upper byte of both halfwords, or in all four bytes; otherwise the
byte `1bcdefgh` is rotated right by the top five bits. -/
def thumbExpandImm (imm12 : Int) : Int :=
  let n := (wrap32 imm12).toNat % 4096
  let b := n % 256
  if n / 1024 = 0 then
    match n / 256 % 4 with
    | 0 => (b : Int)
    | 1 => ((b * 65536 + b : Nat) : Int)
    | 2 => ((b * 16777216 + b * 256 : Nat) : Int)
    | _ => ((b * 16777216 + b * 65536 + b * 256 + b : Nat) : Int)
  else
    let unrotated := 128 + n % 128
    let rot := n / 128
    (((unrotated * 2 ^ (32 - rot)) % 4294967296 + unrotated / 2 ^ rot : Nat) : Int)

/-- Modelled from the spec: the macro `LOWREG` is declared outside this file;
it tells the "compact low-register class" (r0..r7) from the "extended
high-register class". -/
def LOWREG (x : Int) : Bool := decide (0 ≤ x ∧ x ≤ 7)

/-- Bitwise AND of two 32-bit words. -/
def and32 (a b : Int) : Int := (((wrap32 a).toNat &&& (wrap32 b).toNat : Nat) : Int)

/-- ARM `BFC`: the word `w` with the `width` bits from bit `lsb` upwards
cleared. -/
def bitFieldClear (w : Int) (lsb width : Nat) : Int :=
  w - (w / 2 ^ lsb % 2 ^ width) * 2 ^ lsb

/-- ARM `BFI`: the word `d` with the `width` bits from bit `lsb` upwards
replaced by the low `width` bits of `s`. -/
def bitFieldInsert (d s : Int) (lsb width : Nat) : Int :=
  bitFieldClear d lsb width + (s % 2 ^ width) * 2 ^ lsb

/-- The value of a shifted register operand. -/
def shiftedValue (w : Int) (s : Shift) : Option Int :=
  match s.code with
  | .kArmAsr => some (asr32 w s.amount)
  | _ => none

/-- Meaning of an instruction built from an explicit opcode. The operands of
`kThumb2Bfi` are (rd, rn, lsb, width), those of `kThumb2Bfc` (rd, lsb, width),
those of `kThumb2Ldrex` (rt, rn, imm8) and of `kThumb2Strex` (rd, rt, rn,
imm8), the immediate counting words. -/
def execRaw (opcode : ArmOpcode) (operands : List Int) (m : Machine) : Step :=
  match opcode, operands with
  | .kPseudoTargetLabel, _ => .next m
  | .kPseudoSSARep, _ => .next m
  | .kThumbBx, _ => .ret m
  | .kThumb2It, [code, mask] =>
      .next (m.setIT ((wrap32 code).toNat % 16 * 16 + (wrap32 mask).toNat % 16))
  | .kThumb2Adr, [rd, _, tabRec] => .next (m.setReg rd (wrap32 (m.tableAddr tabRec)))
  | .kThumb2AddPCR, [rm] => .indirect (m.regs rm) m
  | .kThumb2MovImmShift, [rd, imm] => .next (m.setReg rd (thumbExpandImm imm))
  | .kThumb2Smull, [rLo, rHi, rn, rm] =>
      .next ((m.setReg rLo (wrap32 (signed32 (m.regs rn) * signed32 (m.regs rm)))).setReg rHi
        (wrap32 (signed32 (m.regs rn) * signed32 (m.regs rm) / 4294967296)))
  | .kThumbMovRR, [rd, rs] => .next (m.setReg rd (m.regs rs))
  | .kThumbMovRR_H2H, [rd, rs] => .next (m.setReg rd (m.regs rs))
  | .kThumbMovRR_H2L, [rd, rs] => .next (m.setReg rd (m.regs rs))
  | .kThumbMovRR_L2H, [rd, rs] => .next (m.setReg rd (m.regs rs))
  | .kThumb2Ldrex, [rt, rn, imm] =>
      .next (m.setReg rt (wrap32 (m.mem (wrap32 (m.regs rn + imm * 4)))))
  | .kThumb2Strex, [rd, rt, rn, imm] =>
      .next
        (if m.strexFails then
          (m.record (.storeExclusive (wrap32 (m.regs rn + imm * 4)) (m.regs rt) 1)).setReg rd 1
         else
          ((m.setMem (wrap32 (m.regs rn + imm * 4)) (m.regs rt)).record
            (.storeExclusive (wrap32 (m.regs rn + imm * 4)) (m.regs rt) 0)).setReg rd 0)
  | .kThumb2Bfi, [rd, rn, lsb, width] =>
      .next (m.setReg rd (bitFieldInsert (m.regs rd) (m.regs rn) lsb.toNat width.toNat))
  | .kThumb2Bfc, [rd, lsb, width] =>
      .next (m.setReg rd (bitFieldClear (m.regs rd) lsb.toNat width.toNat))
  | _, _ => .fault

/-- Meaning of `opRegReg`: `cmp`, `add`, `sub`, `neg`. The `sub` of two low
registers is the 16-bit `subs`, which sets the flags outside an IT block (the
monitor-exit sequence predicates on them). -/
def execOpRegReg (op : OpKind) (r1 r2 : Int) (inIT : Bool) (m : Machine) : Step :=
  match op with
  | .kOpCmp => .next (m.setFlags (some (subFlags (m.regs r1) (m.regs r2))))
  | .kOpAdd => .next ((m.setReg r1 (wrap32 (m.regs r1 + m.regs r2))).clobberFlags inIT)
  | .kOpSub =>
      .next
        (if !inIT && LOWREG r1 && LOWREG r2 then
          (m.setReg r1 (wrap32 (m.regs r1 - m.regs r2))).setFlags
            (some (subFlags (m.regs r1) (m.regs r2)))
         else (m.setReg r1 (wrap32 (m.regs r1 - m.regs r2))).clobberFlags inIT)
  | .kOpNeg => .next ((m.setReg r1 (wrap32 (0 - m.regs r2))).clobberFlags inIT)
  | _ => .fault

/-- Meaning of `opRegImm`: `cmp` with an immediate, shift left by an
immediate. -/
def execOpRegImm (op : OpKind) (r : Int) (v : Int) (inIT : Bool) (m : Machine) : Step :=
  match op with
  | .kOpCmp => .next (m.setFlags (some (subFlags (m.regs r) (wrap32 v))))
  | .kOpLsl => .next ((m.setReg r (wrap32 (m.regs r * 2 ^ v.toNat))).clobberFlags inIT)
  | _ => .fault

/-- Meaning of `opRegRegImm`: `asr`, `sub`, `add`, `and` with an immediate. -/
def execOpRegRegImm (op : OpKind) (rd rs : Int) (v : Int) (inIT : Bool) (m : Machine) : Step :=
  match op with
  | .kOpAsr => .next ((m.setReg rd (asr32 (m.regs rs) v)).clobberFlags inIT)
  | .kOpSub => .next ((m.setReg rd (wrap32 (m.regs rs - v))).clobberFlags inIT)
  | .kOpAdd => .next ((m.setReg rd (wrap32 (m.regs rs + v))).clobberFlags inIT)
  | .kOpAnd => .next ((m.setReg rd (and32 (m.regs rs) v)).clobberFlags inIT)
  | _ => .fault

/-- Meaning of `opRegRegReg`: the flag-setting `sub` ("unsigned-subtract low
words, result 0 on equality, else ±1 per unsigned-high flag"). -/
def execOpRegRegReg (op : OpKind) (rd r1 r2 : Int) (m : Machine) : Step :=
  match op with
  | .kOpSub =>
      .next ((m.setReg rd (wrap32 (m.regs r1 - m.regs r2))).setFlags
        (some (subFlags (m.regs r1) (m.regs r2))))
  | _ => .fault

/-- Meaning of `opRegRegRegShift`: `sub` and `rsb` with a shifted last
operand. -/
def execOpRegRegRegShift (op : OpKind) (rd r1 r2 : Int) (s : Shift) (inIT : Bool)
    (m : Machine) : Step :=
  match shiftedValue (m.regs r2) s with
  | none => .fault
  | some x =>
      match op with
      | .kOpSub => .next ((m.setReg rd (wrap32 (m.regs r1 - x))).clobberFlags inIT)
      | .kOpRsub => .next ((m.setReg rd (wrap32 (x - m.regs r1))).clobberFlags inIT)
      | _ => .fault

/-- Meaning of a conditional branch. -/
def execCondBranch (cc : ConditionCode) (target : Target) (m : Machine) : Step :=
  match m.flags with
  | some f =>
      if conditionPassed (oatArmConditionEncoding cc).toNat f then .branch target m else .next m
  | none => .fault

/-- Meaning of one instruction form. `inIT` tells whether the instruction sits
in an IT block. A call through a register is recorded and the code goes on
behind it with the flags unknown; a null check that finds null leaves the
sequence for the throw path, which is not modelled. -/
def execInsn (i : LIR) (inIT : Bool) (m : Machine) : Step :=
  match i.insn with
  | .raw opcode operands => execRaw opcode operands m
  | .markBoundary _ => .next m
  | .genBarrier => .next m
  | .loadConstant rd v => .next ((m.setReg rd (wrap32 v)).clobberFlags inIT)
  | .opRegReg op r1 r2 => execOpRegReg op r1 r2 inIT m
  | .opRegImm op r v => execOpRegImm op r v inIT m
  | .opRegRegImm op rd rs v => execOpRegRegImm op rd rs v inIT m
  | .opRegRegReg op rd r1 r2 => execOpRegRegReg op rd r1 r2 m
  | .opRegRegRegShift op rd r1 r2 s => execOpRegRegRegShift op rd r1 r2 s inIT m
  | .opCondBranch cc => execCondBranch cc i.target m
  | .loadWordDisp rb d rd => .next (m.setReg rd (wrap32 (m.mem (wrap32 (m.regs rb + d)))))
  | .loadBaseIndexed rb ri rd scale _ =>
      .next (m.setReg rd (wrap32 (m.mem (wrap32 (m.regs rb + m.regs ri * 2 ^ scale.toNat)))))
  | .loadValue rd s => .next (m.setReg rd (wrap32 (m.frame s)))
  | .loadValueWide rl rh s =>
      .next ((m.setReg rl (wrap32 (m.frame s))).setReg rh (wrap32 (m.frame (s + 1))))
  | .storeValue s r => .next (m.setFrame s (m.regs r))
  | .storeValueWide s rl rh => .next ((m.setFrame s (m.regs rl)).setFrame (s + 1) (m.regs rh))
  | .storeWordDisp rb d rs =>
      .next ((m.setMem (wrap32 (m.regs rb + d)) (m.regs rs)).record
        (.store (wrap32 (m.regs rb + d)) (m.regs rs)))
  | .opReg op r =>
      match op with
      | .kOpBlx => .next ((m.record (.call (m.regs r))).setFlags none)
      | _ => .fault
  | .loadValueDirectFixed rlSrc rd =>
      .next (m.setReg rd
        (if rlSrc.location = .kLocPhysReg then m.regs rlSrc.lowReg
         else wrap32 (m.frame rlSrc.sRegLow)))
  | .genNullCheck _ r => if m.regs r = 0 then .fault else .next m
  | .flushAllRegs => .next m
  | .markSafepointPC _ => .next m
  | .genMemBarrier _ => .next (m.record .barrier)
  | _ => .fault

/-- Pseudo instructions occupy no slot of an IT block. -/
def Insn.isPseudo : Insn → Bool
  | .raw .kPseudoTargetLabel _ => true
  | .raw .kPseudoSSARep _ => true
  | .markBoundary _ => true
  | .genBarrier => true
  | .markSafepointPC _ => true
  | _ => false

/-- One step of the machine on the instruction `i`: an instruction flagged as
a no-op is dropped, an instruction inside an IT block is executed only if its
condition passes. -/
def stepLIR (i : LIR) (m : Machine) : Step :=
  if i.isNop then .next m
  else if inITBlock m.itstate && !i.insn.isPseudo then
    match m.flags with
    | none => .fault
    | some f =>
        if conditionPassed (m.itstate / 16) f then
          execInsn i true (m.setIT (itAdvance m.itstate))
        else .next (m.setIT (itAdvance m.itstate))
  else execInsn i false m

/-- How a run of emitted code ends. -/
inductive Outcome where
  | fellThrough (m : Machine)
  | toBlock (id : Int) (m : Machine)
  | indirectBranch (disp : Int) (m : Machine)
  | returned (m : Machine)
  | fault
  | outOfFuel

/-- Run the stream `code` from index `pc`. A branch to an instruction of the
stream continues there; a branch to a block label, an indirect branch, a
return, or running past the last instruction ends the run. -/
def run (code : List LIR) : Nat → Nat → Machine → Outcome
  | 0, _, _ => .outOfFuel
  | fuel + 1, pc, m =>
      match code[pc]? with
      | none => .fellThrough m
      | some i =>
          match stepLIR i m with
          | .next m1 => run code fuel (pc + 1) m1
          | .branch (.lir idx) m1 => run code fuel idx m1
          | .branch (.block id) m1 => .toBlock id m1
          | .branch .null _ => .fault
          | .indirect d m1 => .indirectBranch d m1
          | .ret m1 => .returned m1
          | .fault => .fault

/-! ## Compile-time state -/

/-- Modelled from the spec: the temp-register pool belongs to the allocator,
which is outside this file ("acquire/free a scratch register", "lock a
specific register so generic allocation will not reassign it", "reset the
entire pool"). `temps` lists the scratch registers in allocation order,
`inUse` the registers currently reserved. -/
structure RegisterPool where
  temps : List Int
  inUse : List Int
  deriving DecidableEq, Repr

/-- Scratch registers that can still be handed out. -/
def RegisterPool.free (p : RegisterPool) : List Int :=
  p.temps.filter (fun r => decide (r ∉ p.inUse))

/-- Hand out the first free scratch register and reserve it. -/
def RegisterPool.alloc (p : RegisterPool) : Option (Int × RegisterPool) :=
  match p.free with
  | [] => none
  | r :: _ => some (r, { p with inUse := r :: p.inUse })

/-- Dalvik opcodes this file tests for (`Instruction::Code`). -/
inductive Code where
  | RETURN_VOID
  | DIV_INT_LIT8
  | REM_INT_LIT8
  | other (opcode : Nat)
  deriving DecidableEq, Repr

/-- One mid-level instruction (`MIR`): bytecode offset, decoded operands,
optimization flags, SSA uses (`ssaRep`, which may be null) and the `next`
link. -/
inductive MIR where
  | mk (offset : Int) (opcode : Code) (vB : Int) (vC : Int) (arg0 : Int)
      (optimizationFlags : Nat) (ssaRep : Option (List Int)) (next : Option MIR)

/-- Field `offset`. -/
def MIR.offset : MIR → Int
  | .mk o _ _ _ _ _ _ _ => o

/-- Field `dalvikInsn.opcode`. -/
def MIR.opcode : MIR → Code
  | .mk _ c _ _ _ _ _ _ => c

/-- Field `dalvikInsn.vB`. -/
def MIR.vB : MIR → Int
  | .mk _ _ b _ _ _ _ _ => b

/-- Field `dalvikInsn.vC`. -/
def MIR.vC : MIR → Int
  | .mk _ _ _ c _ _ _ _ => c

/-- Field `dalvikInsn.arg[0]`. -/
def MIR.arg0 : MIR → Int
  | .mk _ _ _ _ a _ _ _ => a

/-- Field `optimizationFlags`. -/
def MIR.optimizationFlags : MIR → Nat
  | .mk _ _ _ _ _ f _ _ => f

/-- Field `ssaRep`: the `uses` array (`numUses` is its length). -/
def MIR.ssaRep : MIR → Option (List Int)
  | .mk _ _ _ _ _ _ s _ => s

/-- Field `next`. -/
def MIR.next : MIR → Option MIR
  | .mk _ _ _ _ _ _ _ n => n

/-- A basic block (`BasicBlock`): its id, its first MIR, and the successor
links this file follows. -/
inductive BasicBlock where
  | mk (id : Int) (firstMIRInsn : Option MIR) (fallThrough : Option BasicBlock)
      (taken : Option BasicBlock)

/-- Field `id`. -/
def BasicBlock.id : BasicBlock → Int
  | .mk i _ _ _ => i

/-- Field `firstMIRInsn`. -/
def BasicBlock.firstMIRInsn : BasicBlock → Option MIR
  | .mk _ f _ _ => f

/-- Field `fallThrough`. -/
def BasicBlock.fallThrough : BasicBlock → Option BasicBlock
  | .mk _ _ f _ => f

/-- Field `taken`. -/
def BasicBlock.taken : BasicBlock → Option BasicBlock
  | .mk _ _ _ t => t

/-- A deferred switch-table record (`SwitchTable`): position of the raw table
in the bytecode, originating offset, number of targets, and the anchor
instruction. -/
structure SwitchTable where
  table : Int
  vaddr : Int
  numTargets : Int
  anchor : Option Nat
  deriving DecidableEq, Repr

/-- Per-method compile state (`CompilationUnit`), restricted to what this file
reads and writes. `ssaToDalvik` stands for `SRegToVReg`, `regLocation` for the
SSA location table, `fastInstance` for field resolution, `insns` for the
method's 16-bit code units; `lir` is the instruction stream. -/
structure CompilationUnit where
  numRegs : Int
  ssaToDalvik : Int → Int
  regLocation : Int → RegLocation
  fastInstance : Int → Bool × Int × Bool
  insns : Int → Int
  printMe : Bool
  disableOpt : Nat
  currentDalvikOffset : Int
  lir : List LIR
  regPool : RegisterPool
  switchTables : List SwitchTable
  coreSpillMask : Int
  numCoreSpills : Int
  fpSpillMask : Int
  numFPSpills : Int
  frameSize : Int
  coreVmapTable : List Int
  fpVmapTable : List Int

/-- Code generation: a state transformer over the compilation unit; `none` is
a fatal error (`LOG(FATAL)`) or a null dereference. -/
def Gen (α : Type) : Type := CompilationUnit → Option (α × CompilationUnit)

/-- Return a value without touching the state. -/
@[noinline]
def Gen.pure {α : Type} (a : α) : Gen α := fun c => some (a, c)

/-- Sequence two code-generation steps; a fatal error in the first ends the
whole computation. -/
@[noinline]
def Gen.bind {α β : Type} (x : Gen α) (f : α → Gen β) : Gen β :=
  fun c =>
    match x c with
    | none => none
    | some (a, c1) => f a c1

instance : Monad Gen where
  pure := Gen.pure
  bind := Gen.bind

/-- Abort code generation (`LOG(FATAL)`). -/
def fatal {α : Type} : Gen α := fun _ => none

/-! ## Collaborators: emission and register bookkeeping -/

/-- Append one instruction to the stream (`oatAppendLIR`) and return the
pointer to it, that is its index. -/
def oatAppendLIR (l : LIR) : Gen Nat :=
  fun c => some (c.lir.length, { c with lir := c.lir ++ [l] })

/-- Build an instruction without appending it (`rawLIR`). -/
def rawLIR (opcode : ArmOpcode) (operands : List Int) : LIR :=
  { insn := .raw opcode operands, isNop := false, target := .null }

/-- Emit a helper-built instruction that has no target yet. -/
def emit (i : Insn) : Gen Nat :=
  oatAppendLIR { insn := i, isNop := false, target := .null }

/-- Emit `opcode` with no operand. -/
def newLIR0 (opcode : ArmOpcode) : Gen Nat := oatAppendLIR (rawLIR opcode [])

/-- Emit `opcode` with one operand. -/
def newLIR1 (opcode : ArmOpcode) (dest : Int) : Gen Nat := oatAppendLIR (rawLIR opcode [dest])

/-- Emit `opcode` with two operands. -/
def newLIR2 (opcode : ArmOpcode) (dest src1 : Int) : Gen Nat :=
  oatAppendLIR (rawLIR opcode [dest, src1])

/-- Emit `opcode` with three operands. -/
def newLIR3 (opcode : ArmOpcode) (dest src1 src2 : Int) : Gen Nat :=
  oatAppendLIR (rawLIR opcode [dest, src1, src2])

/-- Emit `opcode` with four operands. -/
def newLIR4 (opcode : ArmOpcode) (dest src1 src2 info : Int) : Gen Nat :=
  oatAppendLIR (rawLIR opcode [dest, src1, src2, info])

/-- Assignment `branch->target = t` on an instruction of the stream. -/
def setTarget (branch : Nat) (t : Target) : Gen Unit :=
  fun c =>
    match c.lir[branch]? with
    | none => none
    | some l => some ((), { c with lir := c.lir.set branch { l with target := t } })

/-- Emit a conditional branch to `target` (`opCondBranch`). -/
def opCondBranch (cc : ConditionCode) (target : Target) : Gen Nat :=
  oatAppendLIR { insn := .opCondBranch cc, isNop := false, target := target }

/-- Modelled from the spec: `oatAllocTemp` belongs to the allocator ("acquire
a scratch register"); running out of scratch registers is fatal. -/
def oatAllocTemp : Gen Int :=
  fun c =>
    match c.regPool.alloc with
    | none => none
    | some (r, p) => some (r, { c with regPool := p })

/-- Modelled from the spec: `oatFreeTemp` belongs to the allocator ("free a
scratch register"). -/
def oatFreeTemp (r : Int) : Gen Unit :=
  fun c =>
    some ((), { c with regPool :=
      { c.regPool with inUse := c.regPool.inUse.filter (fun x => decide (x ≠ r)) } })

/-- Modelled from the spec: `oatLockTemp` belongs to the allocator ("lock a
specific register so generic allocation will not reassign it"). -/
def oatLockTemp (r : Int) : Gen Unit :=
  fun c => some ((), { c with regPool := { c.regPool with inUse := r :: c.regPool.inUse } })

/-- Modelled from the spec: `oatResetRegPool` belongs to the allocator ("reset
the entire pool"). -/
def oatResetRegPool : Gen Unit :=
  fun c => some ((), { c with regPool := { c.regPool with inUse := [] } })

/-- Modelled from the spec: `loadValue` belongs to the value-materialisation
collaborator ("load an SSA value into a register ... respecting a requested
register class"): a value already in a register stays there, any other value
is loaded from its home location into a fresh scratch register. -/
def loadValue (rlSrc : RegLocation) (_opKind : RegisterClass) : Gen RegLocation := do
  if rlSrc.location = .kLocPhysReg then
    pure rlSrc
  else
    let r ← oatAllocTemp
    let _ ← emit (.loadValue r rlSrc.sRegLow)
    pure { rlSrc with location := .kLocPhysReg, lowReg := r }

/-- Modelled from the spec: `loadValueWide` is `loadValue` for a 64-bit value
("scalar or wide"), held in a register pair. -/
def loadValueWide (rlSrc : RegLocation) (_opKind : RegisterClass) : Gen RegLocation := do
  if rlSrc.location = .kLocPhysReg then
    pure rlSrc
  else
    let rl ← oatAllocTemp
    let rh ← oatAllocTemp
    let _ ← emit (.loadValueWide rl rh rlSrc.sRegLow)
    pure { rlSrc with location := .kLocPhysReg, lowReg := rl, highReg := rh }

/-- Modelled from the spec: `oatEvalLoc` belongs to the allocator ("evaluate a
destination location into a concrete register"): a destination without a
register gets a fresh scratch register. -/
def oatEvalLoc (rlDest : RegLocation) (_regClass : RegisterClass) (_update : Bool) :
    Gen RegLocation := do
  if rlDest.location = .kLocPhysReg then
    pure rlDest
  else
    let r ← oatAllocTemp
    pure { rlDest with location := .kLocPhysReg, lowReg := r }

/-- Modelled from the spec: `storeValue` belongs to the value-materialisation
collaborator ("store a computed value back to its destination location"). -/
def storeValue (rlDest rlSrc : RegLocation) : Gen Unit := do
  let _ ← emit (.storeValue rlDest.sRegLow rlSrc.lowReg)

/-- Modelled from the spec: `storeValueWide` is `storeValue` for a register
pair. -/
def storeValueWide (rlDest rlSrc : RegLocation) : Gen Unit := do
  let _ ← emit (.storeValueWide rlDest.sRegLow rlSrc.lowReg rlSrc.highReg)

/-- Emit the load of a constant into a register (`loadConstant`). -/
def loadConstant (rDest : Int) (value : Int) : Gen Nat := emit (.loadConstant rDest value)

/-- Emit a two-register operation (`opRegReg`). -/
def opRegReg (op : OpKind) (rDestSrc1 rSrc2 : Int) : Gen Nat := emit (.opRegReg op rDestSrc1 rSrc2)

/-- Emit a register-immediate operation (`opRegImm`). -/
def opRegImm (op : OpKind) (rDestSrc1 value : Int) : Gen Nat := emit (.opRegImm op rDestSrc1 value)

/-- Emit a register-register-immediate operation (`opRegRegImm`). -/
def opRegRegImm (op : OpKind) (rDest rSrc1 value : Int) : Gen Nat :=
  emit (.opRegRegImm op rDest rSrc1 value)

/-- Emit a three-register operation (`opRegRegReg`). -/
def opRegRegReg (op : OpKind) (rDest rSrc1 rSrc2 : Int) : Gen Nat :=
  emit (.opRegRegReg op rDest rSrc1 rSrc2)

/-- Emit a three-register operation with a shifted last operand
(`opRegRegRegShift`). -/
def opRegRegRegShift (op : OpKind) (rDest rSrc1 rSrc2 : Int) (shift : Shift) : Gen Nat :=
  emit (.opRegRegRegShift op rDest rSrc1 rSrc2 shift)

/-- Emit a word load from `rBase + displacement` (`loadWordDisp`). -/
def loadWordDisp (rBase displacement rDest : Int) : Gen Nat :=
  emit (.loadWordDisp rBase displacement rDest)

/-! ## Magic-number division (`smallLiteralDivide`) -/

/-- Division patterns (`DividePattern`). -/
inductive DividePattern where
  | DivideNone
  | Divide3
  | Divide5
  | Divide7
  deriving DecidableEq, Repr

/-- One row of the table of magic divisors (`MagicTable`). -/
structure MagicTable where
  magic : Int
  shift : Int
  pattern : DividePattern
  deriving DecidableEq, Repr

/-- The table of magic divisors, indexed by the literal. -/
def magicTable : List MagicTable :=
  [ ⟨0, 0, .DivideNone⟩,          -- 0
    ⟨0, 0, .DivideNone⟩,          -- 1
    ⟨0, 0, .DivideNone⟩,          -- 2
    ⟨0x55555556, 0, .Divide3⟩,    -- 3
    ⟨0, 0, .DivideNone⟩,          -- 4
    ⟨0x66666667, 1, .Divide5⟩,    -- 5
    ⟨0x2AAAAAAB, 0, .Divide3⟩,    -- 6
    ⟨0x92492493, 2, .Divide7⟩,    -- 7
    ⟨0, 0, .DivideNone⟩,          -- 8
    ⟨0x38E38E39, 1, .Divide5⟩,    -- 9
    ⟨0x66666667, 2, .Divide5⟩,    -- 10
    ⟨0x2E8BA2E9, 1, .Divide5⟩,    -- 11
    ⟨0x2AAAAAAB, 1, .Divide5⟩,    -- 12
    ⟨0x4EC4EC4F, 2, .Divide5⟩,    -- 13
    ⟨0x92492493, 3, .Divide7⟩,    -- 14
    ⟨0x88888889, 3, .Divide7⟩ ]   -- 15

/-- The row `magicTable[lit]`. -/
def magicEntry (lit : Int) : MagicTable :=
  magicTable.getD lit.toNat ⟨0, 0, .DivideNone⟩

/-- Integer division by a constant via reciprocal multiply
(`smallLiteralDivide`). -/
def smallLiteralDivide (dalvikOpcode : Code) (rlSrc rlDest : RegLocation) (lit : Int) :
    Gen Bool := do
  if lit < 0 ∨ lit ≥ (magicTable.length : Int) then
    pure false
  else
    let pattern := (magicEntry lit).pattern
    if pattern = .DivideNone then
      pure false
    -- Tuning: add rem patterns
    else if dalvikOpcode ≠ .DIV_INT_LIT8 then
      pure false
    else
      let rMagic ← oatAllocTemp
      let _ ← loadConstant rMagic (magicEntry lit).magic
      let rlSrc ← loadValue rlSrc .kCoreReg
      let rlResult ← oatEvalLoc rlDest .kCoreReg true
      let rHi ← oatAllocTemp
      let rLo ← oatAllocTemp
      let _ ← newLIR4 .kThumb2Smull rLo rHi rMagic rlSrc.lowReg
      match pattern with
      | .Divide3 =>
          let _ ← opRegRegRegShift .kOpSub rlResult.lowReg rHi rlSrc.lowReg
            (encodeShift .kArmAsr 31)
          storeValue rlDest rlResult
          pure true
      | .Divide5 =>
          let _ ← opRegRegImm .kOpAsr rLo rlSrc.lowReg 31
          let _ ← opRegRegRegShift .kOpRsub rlResult.lowReg rLo rHi
            (encodeShift .kArmAsr (magicEntry lit).shift)
          storeValue rlDest rlResult
          pure true
      | .Divide7 =>
          let _ ← opRegReg .kOpAdd rHi rlSrc.lowReg
          let _ ← opRegRegImm .kOpAsr rLo rlSrc.lowReg 31
          let _ ← opRegRegRegShift .kOpRsub rlResult.lowReg rLo rHi
            (encodeShift .kArmAsr (magicEntry lit).shift)
          storeValue rlDest rlResult
          pure true
      | .DivideNone => fatal

/-! ## Running emitted code -/

/-- Run the instructions that were appended to the stream between the
compilation states `c` and `c1`, starting at the first of them. Every
sequence studied here only branches forward, so one unit of fuel per
appended instruction (plus one to leave the stream) is enough. -/
def runEmitted (c c1 : CompilationUnit) (m : Machine) : Outcome :=
  run c1.lir (c1.lir.length - c.lir.length + 1) c.lir.length m

/-- The 32-bit word a location denotes in a machine state: the register for a
value held in a register, the home location otherwise. -/
def valueAt (m : Machine) (loc : RegLocation) : Int :=
  if loc.location = .kLocPhysReg then m.regs loc.lowReg else wrap32 (m.frame loc.sRegLow)

/-- Move a branch target by `k` instructions. -/
def shiftTarget (k : Nat) : Target → Target
  | .lir i => .lir (k + i)
  | t => t

/-- Move the target of an instruction by `k` instructions. -/
def shiftLIR (k : Nat) (l : LIR) : LIR :=
  { l with target := shiftTarget k l.target }

/-- Move the target of a step by `k` instructions. -/
def shiftStep (k : Nat) : Step → Step
  | .branch t m => .branch (shiftTarget k t) m
  | s => s

/-- Inverse of `shiftTarget`. -/
def unshiftTarget (k : Nat) : Target → Target
  | .lir i => .lir (i - k)
  | t => t

/-- Inverse of `shiftLIR`. -/
def unshiftLIR (k : Nat) (l : LIR) : LIR :=
  { l with target := unshiftTarget k l.target }

/-! ## Observations used by the statements -/

/-- The high word of the widening multiply, in the words of the claim: "high
32 bits of the signed 64-bit product of n and the magic number (read as a
signed 32-bit number)". -/
def hiWord (magic n : Int) : Int :=
  wrap32 (signed32 (wrap32 magic) * signed32 (wrap32 n) / 4294967296)

/-- The value of the division sequence, in the words of the claim: "Divide3:
hi - (n asr 31); Divide5: (hi asr shift) - (n asr 31); Divide7: ((hi + n) asr
shift) - (n asr 31), with 32-bit wrap-around arithmetic". -/
def quotient (e : MagicTable) (n : Int) : Int :=
  match e.pattern with
  | .Divide3 => wrap32 (hiWord e.magic n - asr32 (wrap32 n) 31)
  | .Divide5 => wrap32 (asr32 (hiWord e.magic n) e.shift - asr32 (wrap32 n) 31)
  | .Divide7 =>
      wrap32 (asr32 (wrap32 (hiWord e.magic n + wrap32 n)) e.shift - asr32 (wrap32 n) 31)
  | .DivideNone => 0

/-- What the division sequence leaves in the destination: emit it with
`smallLiteralDivide`, run the emitted instructions, and read the destination's
home location. -/
def emittedQuotient (c : CompilationUnit) (rlSrc rlDest : RegLocation) (lit : Int)
    (m : Machine) : Option Int :=
  match smallLiteralDivide .DIV_INT_LIT8 rlSrc rlDest lit c with
  | some (true, c1) =>
      match runEmitted c c1 m with
      | .fellThrough m1 => some (m1.frame rlDest.sRegLow)
      | _ => none
  | _ => none

/-! ## Concrete inputs -/

/-- Compilation state used to exercise the generators on concrete input. -/
def witnessUnit : CompilationUnit :=
  { numRegs := 4
    ssaToDalvik := fun s => s
    regLocation := fun s => ⟨.kLocDalvikFrame, false, s, -1, -1⟩
    fastInstance := fun _ => (true, 8, false)
    insns := fun _ => 0
    printMe := false
    disableOpt := 0
    currentDalvikOffset := 0
    lir := []
    regPool := ⟨[0, 1, 2, 3, 12], []⟩
    switchTables := []
    coreSpillMask := 16384
    numCoreSpills := 1
    fpSpillMask := 0
    numFPSpills := 0
    frameSize := 16
    coreVmapTable := [5]
    fpVmapTable := [] }

/-- Machine state in which every home location holds the word `v`. -/
def witnessMachine (v : Int) : Machine :=
  { regs := fun _ => 0
    flags := none
    itstate := 0
    mem := fun _ => 0
    frame := fun _ => wrap32 v
    tableAddr := fun _ => 0 }

/-! ## Conditional execution (`opIT`) -/

/-- Generate a Thumb2 IT instruction (`opIT`). The guide is the C string
`guide`; `strlen` is its length. The `switch` falls through from case 3 to
case 1, so `mask1` is set for length 3, `mask2` for lengths 3 and 2, `mask3`
for lengths 3, 2 and 1; any other length but 0 is fatal. -/
def opIT (code : ArmConditionCode) (guide : String) : Gen Nat := do
  let condBit := code.toNat &&& 1
  let altBit := condBit ^^^ 1
  let strlen := guide.data.length
  -- Note: case fallthroughs intentional
  if strlen > 3 then
    fatal
  else
    let mask1 :=
      if strlen = 3 then (if guide.data.getD 2 (Char.ofNat 0) = 'T' then condBit else altBit)
      else 0
    let mask2 :=
      if strlen = 3 ∨ strlen = 2 then
        (if guide.data.getD 1 (Char.ofNat 0) = 'T' then condBit else altBit)
      else 0
    let mask3 :=
      if strlen = 3 ∨ strlen = 2 ∨ strlen = 1 then
        (if guide.data.getD 0 (Char.ofNat 0) = 'T' then condBit else altBit)
      else 0
    let mask := (mask3 <<< 3) ||| (mask2 <<< 2) ||| (mask1 <<< 1) ||| (1 <<< (3 - strlen))
    newLIR2 .kThumb2It code.toNat mask

/-- The mask operand of the IT instruction that `opIT` appends to the stream. -/
def itMask (c : CompilationUnit) (code : ArmConditionCode) (guide : String) : Option Nat :=
  match opIT code guide c with
  | some (_, c1) =>
      match c1.lir.getLast? with
      | some ⟨.raw .kThumb2It [_, mask], _, _⟩ => some mask.toNat
      | _ => none
  | none => none

/-- Decoding of an IT mask in the words of the spec: read the mask "bit-by-bit
from most significant to least" down to the terminating 1-bit (the lowest set
bit); a bit equal to the condition's bit 0 reads `T`, the opposite bit `E`. -/
def decodeIT (condBit : Nat) (mask : Nat) : List Char :=
  let ch (k : Nat) : Char := if (mask / 2 ^ k) % 2 = condBit % 2 then 'T' else 'E'
  if mask % 2 = 1 then [ch 3, ch 2, ch 1]
  else if (mask / 2) % 2 = 1 then [ch 3, ch 2]
  else if (mask / 4) % 2 = 1 then [ch 3]
  else []

/-! ## Registers and constants declared in the target headers -/

/-- Modelled from the spec: the register names are declared outside this file;
the spec speaks of "argument register `ARG1 + position`" under "a fixed
3-register calling convention", which on ARM is r1..r3 after the method
pointer in r0. -/
def rARG1 : Int := 1

/-- Modelled from the spec: the return register ("load immediate into return
register"), r0 on ARM; declared outside this file. -/
def rRET0 : Int := 0

/-- Modelled from the spec: second half of the wide return location, r1 on
ARM; declared outside this file. -/
def rRET1 : Int := 1

/-- Modelled from the spec: the stack pointer ("relative to the stack
pointer"), r13 on ARM; declared outside this file. -/
def rSP : Int := 13

/-- Modelled from the spec: the link register used by the return `bx lr`, r14
on ARM; declared outside this file. -/
def rLR : Int := 14

/-- Modelled from the spec: `INVALID_REG`, the value of an unused register
field; declared outside this file. -/
def INVALID_REG : Int := 255

/-- Modelled from the spec: `INVALID_SREG`, the value of an unused SSA-register
field; declared outside this file. -/
def INVALID_SREG : Int := -1

/-- Modelled from the spec: the optimization flag "null-check already proven
unnecessary" (`MIR_IGNORE_NULL_CHECK`); declared outside this file. -/
def MIR_IGNORE_NULL_CHECK : Nat := 1

/-- Modelled from the spec: `LOC_C_RETURN`, the scalar return location (a
physical register, the return register); declared outside this file. -/
def LOC_C_RETURN : RegLocation :=
  { location := .kLocPhysReg, wide := false, sRegLow := INVALID_SREG, lowReg := rRET0,
    highReg := INVALID_REG }

/-- Modelled from the spec: `LOC_C_RETURN_WIDE`, the wide return location (the
return register pair); declared outside this file. -/
def LOC_C_RETURN_WIDE : RegLocation :=
  { location := .kLocPhysReg, wide := true, sRegLow := INVALID_SREG, lowReg := rRET0,
    highReg := rRET1 }

/-- The fast-path shapes (`SpecialCaseHandler`). -/
inductive SpecialCaseHandler where
  | kNoHandler
  | kNullMethod
  | kConstFunction
  | kIGet
  | kIGetBoolean
  | kIGetObject
  | kIGetByte
  | kIGetChar
  | kIGetShort
  | kIGetWide
  | kIPut
  | kIPutBoolean
  | kIPutObject
  | kIPutByte
  | kIPutChar
  | kIPutShort
  | kIPutWide
  | kIdentity
  deriving DecidableEq, Repr

/-! ## Argument location (`inPosition`, `argLoc`, `loadArg`, `lockLiveArgs`) -/

/-- Read the compilation unit. -/
def getUnit : Gen CompilationUnit := fun c => some (c, c)

/-- Return the position of an ssa name within the argument list
(`inPosition`). -/
def inPosition (cUnit : CompilationUnit) (sReg : Int) : Int :=
  let vReg := cUnit.ssaToDalvik sReg
  vReg - cUnit.numRegs

/-- Describe an argument. If it's already in an arg register, just leave it
there (`argLoc`). -/
def argLoc (cUnit : CompilationUnit) (loc : RegLocation) : RegLocation :=
  let argNum := inPosition cUnit loc.sRegLow
  if loc.wide then
    if argNum = 2 then
      -- Bad case - half in register, half in frame.  Just punt
      { loc with location := .kLocInvalid }
    else if argNum < 2 then
      { loc with lowReg := rARG1 + argNum, highReg := rARG1 + argNum + 1,
                 location := .kLocPhysReg }
    else
      { loc with location := .kLocDalvikFrame }
  else
    if argNum < 3 then
      { loc with lowReg := rARG1 + argNum, location := .kLocPhysReg }
    else
      { loc with location := .kLocDalvikFrame }

/-- Load an argument. If already in a register, just return. If in the
frame, load it with an explicit stack-pointer-relative load (`loadArg`). -/
def loadArg (loc : RegLocation) : Gen RegLocation := do
  if loc.location = .kLocDalvikFrame then
    let cUnit ← getUnit
    let start := (inPosition cUnit loc.sRegLow + 1) * 4
    let lowReg ← oatAllocTemp
    let _ ← loadWordDisp rSP start lowReg
    if loc.wide then
      let highReg ← oatAllocTemp
      let _ ← loadWordDisp rSP (start + 4) highReg
      pure { loc with lowReg := lowReg, highReg := highReg, location := .kLocPhysReg }
    else
      pure { loc with lowReg := lowReg, location := .kLocPhysReg }
  else
    pure loc

/-- The loop of `lockLiveArgs` over the uses of the instruction. -/
def lockLiveArgsLoop (firstIn : Int) : List Int → Gen Unit
  | [] => pure ()
  | use :: rest => do
      let cUnit ← getUnit
      let vReg := cUnit.ssaToDalvik use
      let inPosition := vReg - firstIn
      if inPosition < 3 then
        oatLockTemp (rARG1 + inPosition)
        lockLiveArgsLoop firstIn rest
      else
        lockLiveArgsLoop firstIn rest

/-- Lock any referenced arguments that arrive in registers
(`lockLiveArgs`). -/
def lockLiveArgs (mir : MIR) : Gen Unit := do
  let cUnit ← getUnit
  let firstIn := cUnit.numRegs
  match mir.ssaRep with
  | none => fatal
  | some uses => lockLiveArgsLoop firstIn uses

/-! ## Traversal and labels (`getNextMir`, `genPrintLabel`) -/

/-- The `while (bb != NULL)` loop of `getNextMir` once the current block is
exhausted (`mir == NULL`): follow `fallThrough` to the first block that has a
MIR. The second component is the final value of `*pBb`. -/
def getNextMirWalk (origMir : MIR) : BasicBlock → MIR × Option BasicBlock
  | .mk _ _ fallThrough _ =>
      match fallThrough with
      | some b =>
          match b.firstMIRInsn with
          | some m => (m, some b)
          | none => getNextMirWalk origMir b
      | none => (origMir, none)

/-- Find the next MIR, which may be in a following basic block
(`getNextMir`); returns the MIR and the new value of `*pBb`. -/
def getNextMir (pBb : Option BasicBlock) (mir : MIR) : MIR × Option BasicBlock :=
  match pBb with
  | none => (mir, none)
  | some bb =>
      match mir.next with
      | some m => (m, some bb)
      | none => getNextMirWalk mir bb

/-- Modelled from the spec: `markBoundary` belongs to the emission collaborator
("mark an instruction-boundary/diagnostic label"); it appends a boundary
marker for the given bytecode offset. -/
def markBoundary (offset : Int) : Gen Nat := emit (.markBoundary offset)

/-- Used for the "printMe" listing (`genPrintLabel`). -/
def genPrintLabel (mir : MIR) : Gen Unit := do
  let cUnit ← getUnit
  -- Mark the beginning of a Dalvik instruction for line tracking
  let _ ← markBoundary mir.offset
  -- Don't generate the SSA annotation unless verbose mode is on
  if cUnit.printMe ∧ mir.ssaRep.isSome then
    let _ ← newLIR1 .kPseudoSSARep 0
    pure ()
  else
    pure ()

/-! ## Leaf-method fast paths -/

/-- Modelled from the spec: `oatGetSrc` belongs to the value-materialisation
collaborator; it gives the current location of the `num`-th SSA use of the
instruction. Indexing outside the uses is an error. -/
def oatGetSrc (mir : MIR) (num : Nat) : Gen RegLocation := do
  let cUnit ← getUnit
  match mir.ssaRep with
  | none => fatal
  | some uses =>
      match uses[num]? with
      | none => fatal
      | some s => pure (cUnit.regLocation s)

/-- Modelled from the spec: `oatGetSrcWide` is `oatGetSrc` for a wide value,
named by its low SSA use. -/
def oatGetSrcWide (mir : MIR) (low : Nat) : Gen RegLocation := oatGetSrc mir low

/-- Modelled from the spec: `oatGetReturn` belongs to the allocator; it gives
the scalar "return location" and reserves its register. -/
def oatGetReturn (_isFloat : Bool) : Gen RegLocation := do
  oatLockTemp LOC_C_RETURN.lowReg
  pure LOC_C_RETURN

/-- Modelled from the spec: `oatGetReturnWide` belongs to the allocator; it
gives the wide "return location" and reserves its registers. -/
def oatGetReturnWide (_isDouble : Bool) : Gen RegLocation := do
  oatLockTemp LOC_C_RETURN_WIDE.lowReg
  oatLockTemp LOC_C_RETURN_WIDE.highReg
  pure LOC_C_RETURN_WIDE

/-- Modelled from the spec: `genIGet` belongs to the field-access collaborator
("emit the field read at resolved offset"); its instructions are one entry of
the stream. -/
def genIGet (fieldIdx : Int) (optFlags : Nat) (size : OpSize) (rlDest rlObj : RegLocation)
    (isLongOrDouble isObject : Bool) : Gen Unit := do
  let _ ← emit (.genIGet fieldIdx optFlags size rlDest rlObj isLongOrDouble isObject)

/-- Modelled from the spec: `genIPut` belongs to the field-access collaborator
("emit field write"); its instructions are one entry of the stream. -/
def genIPut (fieldIdx : Int) (optFlags : Nat) (size : OpSize) (rlSrc rlObj : RegLocation)
    (isLongOrDouble isObject : Bool) : Gen Unit := do
  let _ ← emit (.genIPut fieldIdx optFlags size rlSrc rlObj isLongOrDouble isObject)

/-- Fast path for an instance-field get (`specialIGet`); `none` is the NULL
result. The first component of `fastInstance` is its boolean result. -/
def specialIGet (bb : Option BasicBlock) (mir : MIR) (size : OpSize)
    (longOrDouble isObject : Bool) : Gen (Option MIR × Option BasicBlock) := do
  let cUnit ← getUnit
  let fieldIdx := mir.vC
  let fastPath := (cUnit.fastInstance fieldIdx).1
  if !fastPath || (mir.optimizationFlags &&& MIR_IGNORE_NULL_CHECK == 0) then
    pure (none, bb)
  else
    let rlObj ← oatGetSrc mir 0
    lockLiveArgs mir
    let cUnit ← getUnit
    let rlObj := argLoc cUnit rlObj
    let rlDest ← if longOrDouble then oatGetReturnWide false else oatGetReturn false
    -- Point of no return - no aborts after this
    genPrintLabel mir
    let rlObj ← loadArg rlObj
    genIGet fieldIdx mir.optimizationFlags size rlDest rlObj longOrDouble isObject
    let next := getNextMir bb mir
    pure (some next.1, next.2)

/-- Fast path for an instance-field put (`specialIPut`); `none` is the NULL
result. -/
def specialIPut (bb : Option BasicBlock) (mir : MIR) (size : OpSize)
    (longOrDouble isObject : Bool) : Gen (Option MIR × Option BasicBlock) := do
  let cUnit ← getUnit
  let fieldIdx := mir.vC
  let fastPath := (cUnit.fastInstance fieldIdx).1
  if !fastPath || (mir.optimizationFlags &&& MIR_IGNORE_NULL_CHECK == 0) then
    pure (none, bb)
  else
    lockLiveArgs mir
    let rlSrc ← if longOrDouble then oatGetSrcWide mir 0 else oatGetSrc mir 0
    let rlObj ← if longOrDouble then oatGetSrc mir 2 else oatGetSrc mir 1
    let cUnit ← getUnit
    let rlSrc := argLoc cUnit rlSrc
    let rlObj := argLoc cUnit rlObj
    -- Reject if source is split across registers & frame
    if rlObj.location = .kLocInvalid then
      oatResetRegPool
      pure (none, bb)
    else
      -- Point of no return - no aborts after this
      genPrintLabel mir
      let rlObj ← loadArg rlObj
      let rlSrc ← loadArg rlSrc
      genIPut fieldIdx mir.optimizationFlags size rlSrc rlObj longOrDouble isObject
      let next := getNextMir bb mir
      pure (some next.1, next.2)

/-- Fast path for an identity method (`specialIdentity`); `none` is the NULL
result. -/
def specialIdentity (mir : MIR) : Gen (Option MIR) := do
  match mir.ssaRep with
  | none => fatal
  | some uses =>
      let wide := decide (uses.length = 2)
      let rlSrc ← if wide then oatGetSrcWide mir 0 else oatGetSrc mir 0
      let rlDest ← if wide then oatGetReturnWide false else oatGetReturn false
      lockLiveArgs mir
      let cUnit ← getUnit
      let rlSrc := argLoc cUnit rlSrc
      if rlSrc.location = .kLocInvalid then
        oatResetRegPool
        pure none
      else
        -- Point of no return - no aborts after this
        genPrintLabel mir
        let rlSrc ← loadArg rlSrc
        if wide then
          storeValueWide rlDest rlSrc
          pure (some mir)
        else
          storeValue rlDest rlSrc
          pure (some mir)

/-- Set `cUnit->currentDalvikOffset`. -/
def setCurrentDalvikOffset (offset : Int) : Gen Unit :=
  fun c => some ((), { c with currentDalvikOffset := offset })

/-- The `switch` of `genSpecialCase`: run the handler selected by
`specialCase`. The result is `nextMir` and the block pointer; the outer `none`
is the `default: return`. -/
def specialCaseHandler (bb : Option BasicBlock) (mir : MIR) (specialCase : SpecialCaseHandler) :
    Gen (Option (Option MIR × Option BasicBlock)) := do
  match specialCase with
  | .kNullMethod => pure (some (some mir, bb))
  | .kConstFunction =>
      genPrintLabel mir
      let _ ← loadConstant rRET0 mir.vB
      let next := getNextMir bb mir
      pure (some (some next.1, next.2))
  | .kIGet => do let r ← specialIGet bb mir .kWord false false; pure (some r)
  | .kIGetBoolean => do let r ← specialIGet bb mir .kUnsignedByte false false; pure (some r)
  | .kIGetByte => do let r ← specialIGet bb mir .kUnsignedByte false false; pure (some r)
  | .kIGetObject => do let r ← specialIGet bb mir .kWord false true; pure (some r)
  | .kIGetChar => do let r ← specialIGet bb mir .kUnsignedHalf false false; pure (some r)
  | .kIGetShort => do let r ← specialIGet bb mir .kSignedHalf false false; pure (some r)
  | .kIGetWide => do let r ← specialIGet bb mir .kLong true false; pure (some r)
  | .kIPut => do let r ← specialIPut bb mir .kWord false false; pure (some r)
  | .kIPutBoolean => do let r ← specialIPut bb mir .kUnsignedByte false false; pure (some r)
  | .kIPutByte => do let r ← specialIPut bb mir .kUnsignedByte false false; pure (some r)
  | .kIPutObject => do let r ← specialIPut bb mir .kWord false true; pure (some r)
  | .kIPutChar => do let r ← specialIPut bb mir .kUnsignedHalf false false; pure (some r)
  | .kIPutShort => do let r ← specialIPut bb mir .kSignedHalf false false; pure (some r)
  | .kIPutWide => do let r ← specialIPut bb mir .kLong true false; pure (some r)
  | .kIdentity => do let r ← specialIdentity mir; pure (some (r, bb))
  | .kNoHandler => pure none

/-- The frame-shape update that ends a successful fast path: zero the spill
masks, spill counts and frame size, clear both vmap tables. -/
def clearFrameShape : Gen Unit :=
  fun c => some ((), { c with coreSpillMask := 0, numCoreSpills := 0, fpSpillMask := 0,
                              numFPSpills := 0, frameSize := 0, coreVmapTable := [],
                              fpVmapTable := [] })

/-- Special-case code generation for simple non-throwing leaf methods
(`genSpecialCase`). -/
def genSpecialCase (bb : Option BasicBlock) (mir : MIR) (specialCase : SpecialCaseHandler) :
    Gen Unit := do
  setCurrentDalvikOffset mir.offset
  match (← specialCaseHandler bb mir specialCase) with
  | none => pure ()
  | some (nextMir, _) =>
      match nextMir with
      | some nextMir =>
          setCurrentDalvikOffset nextMir.offset
          if specialCase ≠ .kIdentity then
            genPrintLabel nextMir
            let _ ← newLIR1 .kThumbBx rLR
            clearFrameShape
          else
            let _ ← newLIR1 .kThumbBx rLR
            clearFrameShape
      | none => pure ()

/-! ## Register copies (`opRegCopyNoInsert`, `opRegCopy`, `opRegCopyWide`) -/

/-- Modelled from the spec: the macro `FPREG` is declared outside this file;
it tells the "floating-point" registers from the "general" ones. Register
numbers with bit 5 set are floating-point registers. -/
def FPREG (x : Int) : Bool := decide ((x / 32) % 2 = 1)

/-- Modelled from the spec: the macro `S2D` is declared outside this file; it
names the double-precision register made of a "floating-point-register pair"
by setting bit 6 of the low register's number. -/
def S2D (x _y : Int) : Int := if (x / 64) % 2 = 1 then x else x + 64

/-- Modelled from the spec: the enumerator `kSafeOptimizations` of the
`disableOpt` bit vector ("unless safety optimizations are disabled") is
declared outside this file. -/
def kSafeOptimizations : Nat := 7

/-- Modelled from the spec: `fpRegCopy` is defined outside this file; it builds,
without appending it, the "dedicated float-register-pair move". -/
def fpRegCopy (_cUnit : CompilationUnit) (rDest rSrc : Int) : LIR :=
  { insn := .fpRegCopy rDest rSrc, isNop := false, target := .null }

/-- Build a register-to-register move without appending it
(`opRegCopyNoInsert`). -/
def opRegCopyNoInsert (cUnit : CompilationUnit) (rDest rSrc : Int) : LIR :=
  if FPREG rDest || FPREG rSrc then
    fpRegCopy cUnit rDest rSrc
  else
    let opcode : ArmOpcode :=
      if LOWREG rDest && LOWREG rSrc then .kThumbMovRR
      else if !LOWREG rDest && !LOWREG rSrc then .kThumbMovRR_H2H
      else if LOWREG rDest then .kThumbMovRR_H2L
      else .kThumbMovRR_L2H
    let res := rawLIR opcode [rDest, rSrc]
    if !(cUnit.disableOpt &&& (1 <<< kSafeOptimizations) != 0) && rDest == rSrc then
      { res with isNop := true }
    else
      res

/-- Build a register-to-register move and append it (`opRegCopy`). -/
def opRegCopy (rDest rSrc : Int) : Gen Nat := do
  let cUnit ← getUnit
  let res := opRegCopyNoInsert cUnit rDest rSrc
  oatAppendLIR res

/-- Copy a register pair (`opRegCopyWide`). -/
def opRegCopyWide (destLo destHi srcLo srcHi : Int) : Gen Unit := do
  let destFP := FPREG destLo && FPREG destHi
  let srcFP := FPREG srcLo && FPREG srcHi
  if destFP then
    if srcFP then
      let _ ← opRegCopy (S2D destLo destHi) (S2D srcLo srcHi)
    else
      let _ ← newLIR3 .kThumb2Fmdrr (S2D destLo destHi) srcLo srcHi
  else
    if srcFP then
      let _ ← newLIR3 .kThumb2Fmrrd destLo destHi (S2D srcLo srcHi)
    else
      -- Handle overlap
      if srcHi = destLo then
        let _ ← opRegCopy destHi srcHi
        let _ ← opRegCopy destLo srcLo
      else
        let _ ← opRegCopy destLo srcLo
        let _ ← opRegCopy destHi srcHi

/-- What a wide copy leaves in the destination pair: emit it with
`opRegCopyWide`, run the emitted moves, and read `(destLo, destHi)`. -/
def copiedPair (c : CompilationUnit) (destLo destHi srcLo srcHi : Int) (m : Machine) :
    Option (Int × Int) :=
  match opRegCopyWide destLo destHi srcLo srcHi c with
  | some (_, c1) =>
      match runEmitted c c1 m with
      | .fellThrough m1 => some (m1.regs destLo, m1.regs destHi)
      | _ => none
  | none => none

/-- Machine state with r0 = 10 and r1 = 20. -/
def pairMachine : Machine :=
  { regs := fun r => if r = 0 then 10 else if r = 1 then 20 else 0
    flags := none
    itstate := 0
    mem := fun _ => 0
    frame := fun _ => 0
    tableAddr := fun _ => 0 }

/-! ## Fused long compare-and-branch (`genFusedLongCmpBranch`) -/

/-- The cast `static_cast<ConditionCode>(mir->dalvikInsn.arg[0])`: the
enumerators in declaration order; a number outside the enumeration names no
condition. -/
def ConditionCode.ofInt (n : Int) : Option ConditionCode :=
  match n with
  | 0 => some .kCondEq
  | 1 => some .kCondNe
  | 2 => some .kCondCs
  | 3 => some .kCondCc
  | 4 => some .kCondMi
  | 5 => some .kCondPl
  | 6 => some .kCondVs
  | 7 => some .kCondVc
  | 8 => some .kCondHi
  | 9 => some .kCondLs
  | 10 => some .kCondGe
  | 11 => some .kCondLt
  | 12 => some .kCondGt
  | 13 => some .kCondLe
  | 14 => some .kCondAl
  | 15 => some .kCondNv
  | _ => none

/-- The label of a successor block, `&labelList[bb->id]`; following a null
successor is an error. -/
def blockLabel (b : Option BasicBlock) : Gen Target :=
  match b with
  | some blk => pure (.block blk.id)
  | none => fatal

/-- The `switch (ccode)` of `genFusedLongCmpBranch`: emit the high-word
branches and give the condition of the low-word branch; any other condition
is fatal. -/
def fusedHighBranches (ccode : Option ConditionCode) (taken notTaken : Target) :
    Gen ConditionCode :=
  match ccode with
  | some .kCondEq => do
      let _ ← opCondBranch .kCondNe notTaken
      pure ConditionCode.kCondEq
  | some .kCondNe => do
      let _ ← opCondBranch .kCondNe taken
      pure ConditionCode.kCondNe
  | some .kCondLt => do
      let _ ← opCondBranch .kCondLt taken
      let _ ← opCondBranch .kCondGt notTaken
      pure ConditionCode.kCondCc
  | some .kCondLe => do
      let _ ← opCondBranch .kCondLt taken
      let _ ← opCondBranch .kCondGt notTaken
      pure ConditionCode.kCondLs
  | some .kCondGt => do
      let _ ← opCondBranch .kCondGt taken
      let _ ← opCondBranch .kCondLt notTaken
      pure ConditionCode.kCondHi
  | some .kCondGe => do
      let _ ← opCondBranch .kCondGt taken
      let _ ← opCondBranch .kCondLt notTaken
      pure ConditionCode.kCondCs
  | _ => fatal

/-- Compare two 64-bit values and branch (`genFusedLongCmpBranch`). -/
def genFusedLongCmpBranch (bb : BasicBlock) (mir : MIR) : Gen Unit := do
  let taken ← blockLabel bb.taken
  let notTaken ← blockLabel bb.fallThrough
  let rlSrc1 ← oatGetSrcWide mir 0
  let rlSrc2 ← oatGetSrcWide mir 2
  let rlSrc1 ← loadValueWide rlSrc1 .kCoreReg
  let rlSrc2 ← loadValueWide rlSrc2 .kCoreReg
  let ccode := ConditionCode.ofInt mir.arg0
  let _ ← opRegReg .kOpCmp rlSrc1.highReg rlSrc2.highReg
  let ccode ← fusedHighBranches ccode taken notTaken
  let _ ← opRegReg .kOpCmp rlSrc1.lowReg rlSrc2.lowReg
  let _ ← opCondBranch ccode taken

/-- The pair of words (low, high) a wide location denotes in a machine state:
the register pair for a value held in registers, the two home slots
otherwise. -/
def wideValueAt (m : Machine) (loc : RegLocation) : Int × Int :=
  if loc.location = .kLocPhysReg then (m.regs loc.lowReg, m.regs loc.highReg)
  else (wrap32 (m.frame loc.sRegLow), wrap32 (m.frame (loc.sRegLow + 1)))

/-- The signed 64-bit value made of a signed high word and an unsigned low
word. -/
def long64 (hi lo : Int) : Int := hi * 4294967296 + lo

/-- The relation a Dalvik condition stands for on two signed 64-bit values. -/
def compare64 (cc : ConditionCode) (a b : Int) : Prop :=
  match cc with
  | .kCondEq => a = b
  | .kCondNe => a ≠ b
  | .kCondLt => a < b
  | .kCondLe => a ≤ b
  | .kCondGt => a > b
  | .kCondGe => a ≥ b
  | _ => False

/-- The block label a run ends at, if it ends by a branch to a block. -/
def Outcome.block? : Outcome → Option Int
  | .toBlock id _ => some id
  | _ => none

/-- Whether a run ends by running past the last emitted instruction. -/
def Outcome.fell : Outcome → Bool
  | .fellThrough _ => true
  | _ => false

/-- Continuation of a run after one step. -/
def afterStep (code : List LIR) (fuel pc : Nat) : Step → Outcome
  | .next m1 => run code fuel (pc + 1) m1
  | .branch (.lir idx) m1 => run code fuel idx m1
  | .branch (.block id) m1 => .toBlock id m1
  | .branch .null _ => .fault
  | .indirect d m1 => .indirectBranch d m1
  | .ret m1 => .returned m1
  | .fault => .fault

/-- Run a list of instructions that must all fall through to the next one. -/
def straight : List LIR → Machine → Option Machine
  | [], m => some m
  | i :: rest, m =>
      match stepLIR i m with
      | .next m1 => straight rest m1
      | _ => none

/-- The comparison a condition code stands for after `cmp x, y`, on the words
`x` and `y`. -/
def condHolds (cc : ConditionCode) (x y : Int) : Bool :=
  match cc with
  | .kCondEq => decide (wrap32 x = wrap32 y)
  | .kCondNe => decide (wrap32 x ≠ wrap32 y)
  | .kCondCs => decide (wrap32 y ≤ wrap32 x)
  | .kCondCc => decide (wrap32 x < wrap32 y)
  | .kCondHi => decide (wrap32 y < wrap32 x)
  | .kCondLs => decide (wrap32 x ≤ wrap32 y)
  | .kCondGe => decide (signed32 y ≤ signed32 x)
  | .kCondLt => decide (signed32 x < signed32 y)
  | .kCondGt => decide (signed32 y < signed32 x)
  | .kCondLe => decide (signed32 x ≤ signed32 y)
  | _ => false

/-- The substituted condition of the low-word branch of the fused long
compare. -/
def lowWordCondition : ConditionCode → ConditionCode
  | .kCondLt => .kCondCc
  | .kCondLe => .kCondLs
  | .kCondGt => .kCondHi
  | .kCondGe => .kCondCs
  | cc => cc

/-- The instructions of the fused long compare behind the operand loads, for
the operand registers `(h1, l1)` and `(h2, l2)` and the block ids `tk` (taken)
and `ft` (not taken). -/
def fusedCode (cond : ConditionCode) (h1 l1 h2 l2 : Int) (tk ft : Int) : List LIR :=
  [⟨.opRegReg .kOpCmp h1 h2, false, .null⟩] ++
    (match cond with
     | .kCondEq => [⟨.opCondBranch .kCondNe, false, .block ft⟩]
     | .kCondNe => [⟨.opCondBranch .kCondNe, false, .block tk⟩]
     | .kCondLt => [⟨.opCondBranch .kCondLt, false, .block tk⟩,
                    ⟨.opCondBranch .kCondGt, false, .block ft⟩]
     | .kCondLe => [⟨.opCondBranch .kCondLt, false, .block tk⟩,
                    ⟨.opCondBranch .kCondGt, false, .block ft⟩]
     | .kCondGt => [⟨.opCondBranch .kCondGt, false, .block tk⟩,
                    ⟨.opCondBranch .kCondLt, false, .block ft⟩]
     | .kCondGe => [⟨.opCondBranch .kCondGt, false, .block tk⟩,
                    ⟨.opCondBranch .kCondLt, false, .block ft⟩]
     | _ => []) ++
    [⟨.opRegReg .kOpCmp l1 l2, false, .null⟩,
     ⟨.opCondBranch (lowWordCondition cond), false, .block tk⟩]

/-- A compare-and-branch instruction on the wide values named by SSA uses 0
and 2, with the condition code `cc` in `arg[0]`. -/
def fusedMir (cc : Int) : MIR := .mk 0 (.other 0) 0 0 cc 0 (some [0, 1, 2, 3]) none

/-- A block whose taken successor has id 1 and whose fall-through successor
has id 2. -/
def fusedBlock : BasicBlock :=
  .mk 0 none (some (.mk 2 none none none)) (some (.mk 1 none none none))

/-- Machine state whose frame holds the wide value `(aHi, aLo)` at slots 0, 1
and `(bHi, bLo)` at slots 2, 3. -/
def fusedMachine (aHi aLo bHi bLo : Int) : Machine :=
  { regs := fun _ => 0
    flags := none
    itstate := 0
    mem := fun _ => 0
    frame := fun s => if s = 0 then aLo else if s = 1 then aHi else if s = 2 then bLo else bHi
    tableAddr := fun _ => 0 }

/-! ## 64-bit three-way compare (`genCmpLong`) -/

/-- Number of zero bits of `v` from bit `n - 1` downwards, up to the first set
bit. -/
def leadingZerosFrom : Nat → Nat → Nat
  | 0, _ => 0
  | n + 1, v => if v / 2 ^ n % 2 = 1 then 0 else 1 + leadingZerosFrom n v

/-- Modelled from the spec: `modifiedImmediate` belongs to the assembler side
("the constant fits an encodable form"); it gives the 12-bit Thumb2
modified-immediate encoding of a 32-bit constant, or -1 when there is none: a
single byte, a byte in both halfwords, a byte in all four bytes, a byte in the
upper byte of both halfwords, or an 8-bit pattern rotated into place. -/
def modifiedImmediate (value : Int) : Int :=
  let v := (wrap32 value).toNat
  let b0 := v % 256
  if v ≤ 255 then (b0 : Int)
  else if v = b0 * 65536 + b0 then ((256 + b0 : Nat) : Int)
  else if v = b0 * 16777216 + b0 * 65536 + b0 * 256 + b0 then ((768 + b0 : Nat) : Int)
  else
    let b1 := v / 256 % 256
    if v = b1 * 16777216 + b1 * 256 then ((512 + b1 : Nat) : Int)
    else
      let zLeading := leadingZerosFrom 32 v
      let zTrailing := 32 - leadingZerosFrom 32 ((4294967295 - v) &&& (v - 1))
      if zLeading + zTrailing < 24 then -1
      else
        let w := (v * 2 ^ (zLeading + 1)) % 4294967296 / 33554432
        ((w ||| ((8 + zLeading) * 128) : Nat) : Int)

/-- Modelled from the spec: `genBarrier` belongs to the LIR sequencing
primitives ("safepoint/barrier annotation"); it appends a scheduling barrier,
which stands for no machine instruction. -/
def genBarrier : Gen Nat := emit .genBarrier

/-- Read `branch->target` of an instruction of the stream. -/
def getTarget (branch : Nat) : Gen Target :=
  fun c =>
    match c.lir[branch]? with
    | none => none
    | some l => some (l.target, c)

/-- Three-way compare of two 64-bit values (`genCmpLong`); the result is left
in a scratch register and stored to `rlDest`. -/
def genCmpLong (rlDest rlSrc1 rlSrc2 : RegLocation) : Gen Unit := do
  let rlSrc1 ← loadValueWide rlSrc1 .kCoreReg
  let rlSrc2 ← loadValueWide rlSrc2 .kCoreReg
  let tReg ← oatAllocTemp
  let _ ← loadConstant tReg (-1)
  let _ ← opRegReg .kOpCmp rlSrc1.highReg rlSrc2.highReg
  let branch1 ← opCondBranch .kCondLt .null
  let branch2 ← opCondBranch .kCondGt .null
  let _ ← opRegRegReg .kOpSub tReg rlSrc1.lowReg rlSrc2.lowReg
  let branch3 ← opCondBranch .kCondEq .null
  let _ ← opIT .kArmCondHi "E"
  let _ ← newLIR2 .kThumb2MovImmShift tReg (modifiedImmediate (-1))
  let _ ← loadConstant tReg 1
  let _ ← genBarrier
  let target2 ← newLIR0 .kPseudoTargetLabel
  let _ ← opRegReg .kOpNeg tReg tReg
  let target1 ← newLIR0 .kPseudoTargetLabel
  -- Just using as template, will change
  let rlTemp : RegLocation := { LOC_C_RETURN with lowReg := tReg }
  storeValue rlDest rlTemp
  oatFreeTemp tReg
  setTarget branch1 (.lir target1)
  setTarget branch2 (.lir target2)
  let t ← getTarget branch1
  setTarget branch3 t

/-- The three-way comparison of two integers: -1, 0 or 1. -/
def threeWay (a b : Int) : Int := if a < b then -1 else if a = b then 0 else 1

/-- The instructions of the three-way compare behind the operand loads, for
the operand registers `(h1, l1)` and `(h2, l2)`, the result register `t`, the
destination `dest`, and `base` the index of the first of them in the
stream. -/
def cmpLongCode (h1 l1 h2 l2 t dest : Int) (base : Nat) : List LIR :=
  [⟨.loadConstant t (-1), false, .null⟩,
   ⟨.opRegReg .kOpCmp h1 h2, false, .null⟩,
   ⟨.opCondBranch .kCondLt, false, .lir (base + 12)⟩,
   ⟨.opCondBranch .kCondGt, false, .lir (base + 10)⟩,
   ⟨.opRegRegReg .kOpSub t l1 l2, false, .null⟩,
   ⟨.opCondBranch .kCondEq, false, .lir (base + 12)⟩,
   ⟨.raw .kThumb2It [8, 12], false, .null⟩,
   ⟨.raw .kThumb2MovImmShift [t, 1023], false, .null⟩,
   ⟨.loadConstant t 1, false, .null⟩,
   ⟨.genBarrier, false, .null⟩,
   ⟨.raw .kPseudoTargetLabel [], false, .null⟩,
   ⟨.opRegReg .kOpNeg t t, false, .null⟩,
   ⟨.raw .kPseudoTargetLabel [], false, .null⟩,
   ⟨.storeValue dest t, false, .null⟩]

/-! ## Packed switch (`genPackedSwitch`) -/

/-- Emit a load from `rBase + (rIndex << scale)` (`loadBaseIndexed`). -/
def loadBaseIndexed (rBase rIndex rDest scale : Int) (size : OpSize) : Gen Nat :=
  emit (.loadBaseIndexed rBase rIndex rDest scale size)

/-- One 16-bit code unit of the method (an element of `const u2*`). -/
def codeUnit (c : CompilationUnit) (pos : Int) : Int := c.insns pos % 65536

/-- Modelled from the spec: `s4FromSwitchData` is declared outside this file;
it reads the signed 32-bit value kept in two consecutive code units (the "low
key" of a "contiguous key range table"), low half first. -/
def s4FromSwitchData (c : CompilationUnit) (pos : Int) : Int :=
  signed32 (codeUnit c pos + codeUnit c (pos + 1) * 65536)

/-- Modelled from the spec: `oatInsertGrowableList` on `switchTables` ("pushed
onto the CompilationUnit's fixup list"); the record is referred to by its
position in the list. -/
def oatInsertSwitchTable (t : SwitchTable) : Gen Int :=
  fun c => some ((c.switchTables.length : Int), { c with switchTables := c.switchTables ++ [t] })

/-- Assignment `tabRec->anchor = l` on a record of the list. -/
def setAnchor (tabRec : Int) (l : Nat) : Gen Unit :=
  fun c =>
    match c.switchTables[tabRec.toNat]? with
    | none => none
    | some t =>
        some ((), { c with
          switchTables := c.switchTables.set tabRec.toNat { t with anchor := some l } })

/-- Lower a packed switch (`genPackedSwitch`). With `printMe` the table is
also dumped to the log, which leaves the compilation unit as it is. -/
def genPackedSwitch (tableOffset : Int) (rlSrc : RegLocation) : Gen Unit := do
  let cUnit ← getUnit
  let table := cUnit.currentDalvikOffset + tableOffset
  -- Add the table to the list - we'll process it later
  let size := codeUnit cUnit (table + 1)
  let tabRec ← oatInsertSwitchTable
    { table := table, vaddr := cUnit.currentDalvikOffset, numTargets := size, anchor := none }
  -- Get the switch value
  let rlSrc ← loadValue rlSrc .kCoreReg
  let tableBase ← oatAllocTemp
  -- Materialize a pointer to the switch table
  let _ ← newLIR3 .kThumb2Adr tableBase 0 tabRec
  let lowKey := s4FromSwitchData cUnit (table + 2)
  -- Remove the bias, if necessary
  let keyReg ←
    if lowKey = 0 then
      pure rlSrc.lowReg
    else do
      let keyReg ← oatAllocTemp
      let _ ← opRegRegImm .kOpSub keyReg rlSrc.lowReg lowKey
      pure keyReg
  -- Bounds check - if < 0 or >= size continue following switch
  let _ ← opRegImm .kOpCmp keyReg (size - 1)
  let branchOver ← opCondBranch .kCondHi .null
  -- Load the displacement from the switch table
  let dispReg ← oatAllocTemp
  let _ ← loadBaseIndexed tableBase keyReg dispReg 2 .kWord
  -- ..and go! NOTE: No instruction set switch here - must stay Thumb2
  let switchBranch ← newLIR1 .kThumb2AddPCR dispReg
  setAnchor tabRec switchBranch
  -- branchOver target here
  let target ← newLIR0 .kPseudoTargetLabel
  setTarget branchOver (.lir target)

/-- The displacement an indirect branch was taken with, if the run ends by
one. -/
def Outcome.disp? : Outcome → Option Int
  | .indirectBranch d _ => some d
  | _ => none

/-- The word at index `idx` of the table that the assembler lays out for the
switch-table record `tabRec`. -/
def tableEntry (m : Machine) (tabRec : Int) (idx : Int) : Int :=
  wrap32 (m.mem (wrap32 (wrap32 (m.tableAddr tabRec) + idx * 4)))

/-- A method whose code holds, at offset 0, a packed-switch table of the three
keys 10, 11, 12. -/
def switchUnit : CompilationUnit :=
  { witnessUnit with
    insns := fun i => if i = 0 then 256 else if i = 1 then 3 else if i = 2 then 10 else 0 }

/-- Machine state in which every home location holds `v`, the table of record
0 lies at address 1000 and memory holds `100 + a` at every address `a`. -/
def switchMachine (v : Int) : Machine :=
  { regs := fun _ => 0
    flags := none
    itstate := 0
    mem := fun a => 100 + a
    frame := fun _ => wrap32 v
    tableAddr := fun _ => 1000 }

/-- What `specialIPut` answers and emits: whether its result is non-NULL, and
the instructions it appended to the stream. -/
def specialIPutOutcome (c : CompilationUnit) (bb : Option BasicBlock) (mir : MIR) (size : OpSize)
    (longOrDouble isObject : Bool) : Option (Bool × List LIR) :=
  match specialIPut bb mir size longOrDouble isObject c with
  | some ((next, _), c1) => some (next.isSome, c1.lir.drop c.lir.length)
  | none => none

/-- A method with four locals whose arguments start at v4: the object in v4
(argument position 0) and a wide value in v6, v7 (argument position 2, so its
low half arrives in the last argument register and its high half in the
frame). -/
def putWideUnit : CompilationUnit :=
  { witnessUnit with regLocation := fun s => ⟨.kLocDalvikFrame, decide (s = 6), s, -1, -1⟩ }

/-- An `iput-wide` of the wide value in v6, v7 into field 0 of the object in
v4, with the null check already proven unnecessary. -/
def putWideMir : MIR := .mk 0 (.other 0) 0 0 0 MIR_IGNORE_NULL_CHECK (some [6, 7, 4]) none

/-- The block that holds `putWideMir` as its only instruction. -/
def putWideBlock : BasicBlock := .mk 0 (some putWideMir) none none

/-! ## Fast paths that give up -/

/-- Two compilation units that differ at most in the register pool. -/
def samePoolApart (c c1 : CompilationUnit) : Prop := ∃ p, c1 = { c with regPool := p }

/-- A step that changes at most the register pool. -/
def PoolOnly {α : Type} (x : Gen α) : Prop :=
  ∀ c r c1, x c = some (r, c1) → samePoolApart c c1

/-- A step that changes at most the register pool whenever its result is
`null`. -/
def NullSafe {α : Type} (null : α → Prop) (x : Gen α) : Prop :=
  ∀ c r c1, x c = some (r, c1) → null r → samePoolApart c c1

/-- A step whose result is never `null`. -/
def NeverNull {α : Type} (null : α → Prop) (x : Gen α) : Prop :=
  ∀ c r c1, x c = some (r, c1) → ¬ null r

/-- An instruction at offset 5 that returns the wide argument v6, v7, which
sits at argument position 2. -/
def identityWideMir : MIR := .mk 5 (.other 0) 0 0 0 0 (some [6, 7]) none

/-! ## The register pool on a fast path that gives up -/

/-- A step that keeps the list of scratch registers of the pool. -/
def KeepsTemps {α : Type} (x : Gen α) : Prop :=
  ∀ c r c1, x c = some (r, c1) → c1.regPool.temps = c.regPool.temps

/-- A step that leaves the pool reset (no register reserved) whenever its
result is `null`. -/
def NullResets {α : Type} (null : α → Prop) (x : Gen α) : Prop :=
  ∀ c r c1, x c = some (r, c1) → null r → c1.regPool = ⟨c.regPool.temps, []⟩

/-- A step that leaves the pool as it was or reset whenever its result is
`null`. -/
def NullKeepsOrResets {α : Type} (null : α → Prop) (x : Gen α) : Prop :=
  ∀ c r c1, x c = some (r, c1) → null r →
    c1.regPool = c.regPool ∨ c1.regPool = ⟨c.regPool.temps, []⟩

/-- The unit `putWideUnit` at a moment when the scratch register r12 is
reserved. -/
def busyUnit : CompilationUnit :=
  { putWideUnit with regPool := ⟨[0, 1, 2, 3, 12], [12]⟩ }

/-- Whether `specialIdentity` answers NULL, and the pool it leaves. -/
def identityPool (c : CompilationUnit) (mir : MIR) : Option (Bool × RegisterPool) :=
  match specialIdentity mir c with
  | some (r, c1) => some (r.isNone, c1.regPool)
  | none => none

/-! ## Monitor enter and exit (`genMonitorEnter`, `genMonitorExit`) -/

/-- Modelled from the spec: the register names are declared outside this file;
the monitor code uses them as "fixed registers": r0 the object, r1 and r2 the
lock word and the thread id, r3 a scratch word. -/
def r0 : Int := 0

/-- Modelled from the spec: the register r1, declared outside this file. -/
def r1 : Int := 1

/-- Modelled from the spec: the register r2, declared outside this file. -/
def r2 : Int := 2

/-- Modelled from the spec: the register r3, declared outside this file. -/
def r3 : Int := 3

/-- Modelled from the spec: the register that holds the pointer to the current
thread ("load ... current thread id"), r9 on ARM; declared outside this
file. -/
def rSELF : Int := 9

/-- Modelled from the spec: lock-word layout, declared outside this file
("shape bit (thin vs. fat), owner-thread-id field, recursion count, and a
hash-state field"): the thin shape is 0. -/
def LW_SHAPE_THIN : Int := 0

/-- Modelled from the spec: position of the hash-state field in the lock word,
right above the shape bit; declared outside this file. -/
def LW_HASH_STATE_SHIFT : Int := 1

/-- Modelled from the spec: mask of the two-bit hash-state field; declared
outside this file. -/
def LW_HASH_STATE_MASK : Int := 3

/-- Modelled from the spec: position of the owner-thread-id field in the lock
word ("align the thread id into the owner-field position"), right above the
hash state; declared outside this file. -/
def LW_LOCK_OWNER_SHIFT : Int := 3

/-- Modelled from the spec: the barrier kind `kSY` ("emit a memory barrier of
a specified ordering strength"), the full-system option; declared outside
this file. -/
def kSY : Nat := 15

/-- Offsets that the monitor code takes from the runtime's declarations, which
are outside this file: `Thread::ThinLockIdOffset()`, `Object::MonitorOffset()`
and the entry points `pLockObjectFromCode` and `pUnlockObjectFromCode`. -/
structure RuntimeOffsets where
  thinLockIdOffset : Int
  monitorOffset : Int
  pLockObjectFromCode : Int
  pUnlockObjectFromCode : Int
  deriving DecidableEq, Repr

/-- Modelled from the spec: `oatFlushAllRegs` belongs to the allocator ("flush
all live values to their home locations"); the stores it stands for are one
entry of the stream. -/
def oatFlushAllRegs : Gen Unit := do
  let _ ← emit .flushAllRegs

/-- Modelled from the spec: `loadValueDirectFixed` belongs to the
value-materialisation collaborator ("load the object pointer ... into fixed
registers"). -/
def loadValueDirectFixed (rlSrc : RegLocation) (rDest : Int) : Gen Unit := do
  let _ ← emit (.loadValueDirectFixed rlSrc rDest)

/-- Modelled from the spec: `oatLockCallTemps` belongs to the allocator; it
reserves the registers of the calling convention, r0..r3 ("lock a specific
register so generic allocation will not reassign it"). -/
def oatLockCallTemps : Gen Unit := do
  oatLockTemp r0
  oatLockTemp r1
  oatLockTemp r2
  oatLockTemp r3

/-- Modelled from the spec: `genNullCheck` is defined outside this file
("perform a null check"); nothing is emitted when the check is already proven
unnecessary. -/
def genNullCheck (sReg : Int) (mReg : Int) (optFlags : Nat) : Gen (Option Nat) := do
  if optFlags &&& MIR_IGNORE_NULL_CHECK ≠ 0 then
    pure none
  else
    let l ← emit (.genNullCheck sReg mReg)
    pure (some l)

/-- Emit a word store to `rBase + displacement` (`storeWordDisp`). -/
def storeWordDisp (rBase displacement rSrc : Int) : Gen Nat :=
  emit (.storeWordDisp rBase displacement rSrc)

/-- Emit a one-register operation (`opReg`). -/
def opReg (op : OpKind) (rDestSrc : Int) : Gen Nat := emit (.opReg op rDestSrc)

/-- Modelled from the spec: `oatClobberCalleeSave` belongs to the allocator;
it is bookkeeping on the values held in registers and emits nothing. -/
def oatClobberCalleeSave : Gen Unit := pure ()

/-- Modelled from the spec: `markSafepointPC` belongs to the emission
collaborator ("mark a safepoint on a call instruction"). -/
def markSafepointPC (inst : Nat) : Gen Unit := do
  let _ ← emit (.markSafepointPC inst)

/-- Modelled from the spec: `oatGenMemBarrier` belongs to the emission
collaborator ("emit a memory barrier of a specified ordering strength"). -/
def oatGenMemBarrier (barrierKind : Nat) : Gen Unit := do
  let _ ← emit (.genMemBarrier barrierKind)

/-- Monitor enter (`genMonitorEnter`): the simple case, handled inline, is a
thin lock held by no one. -/
def genMonitorEnter (off : RuntimeOffsets) (optFlags : Nat) (rlSrc : RegLocation) :
    Gen Unit := do
  oatFlushAllRegs
  loadValueDirectFixed rlSrc r0  -- Get obj
  oatLockCallTemps  -- Prepare for explicit register usage
  let _ ← genNullCheck rlSrc.sRegLow r0 optFlags
  let _ ← loadWordDisp rSELF off.thinLockIdOffset r2
  let _ ← newLIR3 .kThumb2Ldrex r1 r0 (off.monitorOffset / 4)  -- Get object->lock
  -- Align owner
  let _ ← opRegImm .kOpLsl r2 LW_LOCK_OWNER_SHIFT
  -- Is lock unheld on lock or held by us (==threadId) on unlock?
  let _ ← newLIR4 .kThumb2Bfi r2 r1 0 (LW_LOCK_OWNER_SHIFT - 1)
  let _ ← newLIR3 .kThumb2Bfc r1 LW_HASH_STATE_SHIFT (LW_LOCK_OWNER_SHIFT - 1)
  let _ ← opRegImm .kOpCmp r1 0
  let _ ← opIT .kArmCondEq ""
  let _ ← newLIR4 .kThumb2Strex r1 r2 r0 (off.monitorOffset / 4)
  let _ ← opRegImm .kOpCmp r1 0
  let _ ← opIT .kArmCondNe "T"
  -- Go expensive route - artLockObjectFromCode(self, obj);
  let _ ← loadWordDisp rSELF off.pLockObjectFromCode rLR
  oatClobberCalleeSave
  let callInst ← opReg .kOpBlx rLR
  markSafepointPC callInst
  oatGenMemBarrier kSY

/-- Monitor exit (`genMonitorExit`): once the lock is seen to be thin and
owned with a zero recursion count, it is punched back to the unlocked thin
state with a plain store. -/
def genMonitorExit (off : RuntimeOffsets) (optFlags : Nat) (rlSrc : RegLocation) :
    Gen Unit := do
  oatFlushAllRegs
  loadValueDirectFixed rlSrc r0  -- Get obj
  oatLockCallTemps  -- Prepare for explicit register usage
  let _ ← genNullCheck rlSrc.sRegLow r0 optFlags
  let _ ← loadWordDisp r0 off.monitorOffset r1  -- Get lock
  let _ ← loadWordDisp rSELF off.thinLockIdOffset r2
  -- Is lock unheld on lock or held by us (==threadId) on unlock?
  let _ ← opRegRegImm .kOpAnd r3 r1 (LW_HASH_STATE_MASK * 2 ^ LW_HASH_STATE_SHIFT.toNat)
  -- Align owner
  let _ ← opRegImm .kOpLsl r2 LW_LOCK_OWNER_SHIFT
  let _ ← newLIR3 .kThumb2Bfc r1 LW_HASH_STATE_SHIFT (LW_LOCK_OWNER_SHIFT - 1)
  let _ ← opRegReg .kOpSub r1 r2
  let _ ← opIT .kArmCondEq "EE"
  let _ ← storeWordDisp r0 off.monitorOffset r3
  -- Go expensive route - UnlockObjectFromCode(obj);
  let _ ← loadWordDisp rSELF off.pUnlockObjectFromCode rLR
  oatClobberCalleeSave
  let callInst ← opReg .kOpBlx rLR
  markSafepointPC callInst
  oatGenMemBarrier kSY

/-- The events a run ends with, if it ends by running past the last emitted
instruction. -/
def Outcome.trace? : Outcome → Option (List Event)
  | .fellThrough m => some m.trace
  | _ => none

/-- Machine state for the monitor code: every home location holds the object
pointer 4096, the thread pointer is 8192, the thread's lock id (at offset 16)
is `tid`, the object's lock word (at offset 4) is `lockWord`, any other word
of memory is 77; `fails` tells whether a store-conditional loses. -/
def monitorMachine (lockWord tid : Int) (fails : Bool) : Machine :=
  { regs := fun r => if r = 9 then 8192 else 0
    flags := none
    itstate := 0
    mem := fun a => if a = 4100 then lockWord else if a = 8208 then tid else 77
    frame := fun _ => 4096
    tableAddr := fun _ => 0
    strexFails := fails }

/-- Offsets used to exercise the monitor code. -/
def monitorOffsets : RuntimeOffsets :=
  { thinLockIdOffset := 16, monitorOffset := 4, pLockObjectFromCode := 32,
    pUnlockObjectFromCode := 36 }

/-- The instructions of monitor exit behind the null check, with `callIdx` the
index of the call in the stream. -/
def monitorExitCode (off : RuntimeOffsets) (callIdx : Nat) : List LIR :=
  [⟨.loadWordDisp r0 off.monitorOffset r1, false, .null⟩,
   ⟨.loadWordDisp rSELF off.thinLockIdOffset r2, false, .null⟩,
   ⟨.opRegRegImm .kOpAnd r3 r1 (LW_HASH_STATE_MASK * 2 ^ LW_HASH_STATE_SHIFT.toNat), false, .null⟩,
   ⟨.opRegImm .kOpLsl r2 LW_LOCK_OWNER_SHIFT, false, .null⟩,
   ⟨.raw .kThumb2Bfc [r1, LW_HASH_STATE_SHIFT, LW_LOCK_OWNER_SHIFT - 1], false, .null⟩,
   ⟨.opRegReg .kOpSub r1 r2, false, .null⟩,
   ⟨.raw .kThumb2It [0, 14], false, .null⟩,
   ⟨.storeWordDisp r0 off.monitorOffset r3, false, .null⟩,
   ⟨.loadWordDisp rSELF off.pUnlockObjectFromCode rLR, false, .null⟩,
   ⟨.opReg .kOpBlx rLR, false, .null⟩,
   ⟨.markSafepointPC callIdx, false, .null⟩,
   ⟨.genMemBarrier kSY, false, .null⟩]

/-- The instructions of monitor enter behind the null check, with `callIdx`
the index of the call in the stream. -/
def monitorEnterCode (off : RuntimeOffsets) (callIdx : Nat) : List LIR :=
  [⟨.loadWordDisp rSELF off.thinLockIdOffset r2, false, .null⟩,
   ⟨.raw .kThumb2Ldrex [r1, r0, off.monitorOffset / 4], false, .null⟩,
   ⟨.opRegImm .kOpLsl r2 LW_LOCK_OWNER_SHIFT, false, .null⟩,
   ⟨.raw .kThumb2Bfi [r2, r1, 0, LW_LOCK_OWNER_SHIFT - 1], false, .null⟩,
   ⟨.raw .kThumb2Bfc [r1, LW_HASH_STATE_SHIFT, LW_LOCK_OWNER_SHIFT - 1], false, .null⟩,
   ⟨.opRegImm .kOpCmp r1 0, false, .null⟩,
   ⟨.raw .kThumb2It [0, 8], false, .null⟩,
   ⟨.raw .kThumb2Strex [r1, r2, r0, off.monitorOffset / 4], false, .null⟩,
   ⟨.opRegImm .kOpCmp r1 0, false, .null⟩,
   ⟨.raw .kThumb2It [1, 12], false, .null⟩,
   ⟨.loadWordDisp rSELF off.pLockObjectFromCode rLR, false, .null⟩,
   ⟨.opReg .kOpBlx rLR, false, .null⟩,
   ⟨.markSafepointPC callIdx, false, .null⟩,
   ⟨.genMemBarrier kSY, false, .null⟩]

/-- The blocks behind `bb` along its fall-through chain, nearest first. -/
def fallThroughChain : BasicBlock → List BasicBlock
  | .mk _ _ fallThrough _ =>
      match fallThrough with
      | some b => b :: fallThroughChain b
      | none => []

/-- Generate a register comparison to an immediate and branch
(`opCmpImmBranch`). `checkValue & 0xff` is the low byte of the constant. -/
def opCmpImmBranch (cond : ConditionCode) (reg checkValue : Int) (target : Target) :
    Gen Nat := do
  let armCond := oatArmConditionEncoding cond
  if LOWREG reg ∧ checkValue = 0 ∧ (armCond = .kArmCondEq ∨ armCond = .kArmCondNe) then
    let branch ← newLIR2 (if armCond = .kArmCondEq then .kThumb2Cbz else .kThumb2Cbnz) reg 0
    setTarget branch target
    pure branch
  else
    let modImm := modifiedImmediate checkValue
    if LOWREG reg ∧ checkValue % 256 = checkValue then
      let _ ← newLIR2 .kThumbCmpRI8 reg checkValue
      let branch ← newLIR2 .kThumbBCond 0 armCond.toNat
      setTarget branch target
      pure branch
    else if modImm ≥ 0 then
      let _ ← newLIR2 .kThumb2CmpRI8 reg modImm
      let branch ← newLIR2 .kThumbBCond 0 armCond.toNat
      setTarget branch target
      pure branch
    else
      let tReg ← oatAllocTemp
      let _ ← loadConstant tReg checkValue
      let _ ← opRegReg .kOpCmp reg tReg
      let branch ← newLIR2 .kThumbBCond 0 armCond.toNat
      setTarget branch target
      pure branch

/-! ## Sparse switch (`genSparseSwitch`) -/

/-- Lower a sparse switch (`genSparseSwitch`). The table is an array of
key/displacement pairs, loaded a pair at a time with `ldmia`, so the register
of the key must have the lower number. With `printMe` the table is also dumped
to the log, which leaves the compilation unit as it is. `(1 << rKey) |
(1 << rDisp)` is the register list of the pair load; register numbers are
small, so the shifts do not overflow. -/
def genSparseSwitch (tableOffset : Int) (rlSrc : RegLocation) : Gen Unit := do
  let cUnit ← getUnit
  let table := cUnit.currentDalvikOffset + tableOffset
  -- Add the table to the list - we'll process it later
  let size := codeUnit cUnit (table + 1)
  let tabRec ← oatInsertSwitchTable
    { table := table, vaddr := cUnit.currentDalvikOffset, numTargets := size, anchor := none }
  -- Get the switch value
  let rlSrc ← loadValue rlSrc .kCoreReg
  let rBase ← oatAllocTemp
  -- Allocate key and disp temps
  let rKey0 ← oatAllocTemp
  let rDisp0 ← oatAllocTemp
  -- Make sure rKey's register number is less than rDisp's number for ldmia
  let rDisp := if rKey0 > rDisp0 then rKey0 else rDisp0
  let rKey := if rKey0 > rDisp0 then rDisp0 else rKey0
  -- Materialize a pointer to the switch table
  let _ ← newLIR3 .kThumb2Adr rBase 0 tabRec
  -- Set up rIdx
  let rIdx ← oatAllocTemp
  let _ ← loadConstant rIdx size
  -- Establish loop branch target
  let target ← newLIR0 .kPseudoTargetLabel
  -- Load next key/disp
  let _ ← newLIR2 .kThumb2LdmiaWB rBase
    (((1 <<< rKey.toNat) ||| (1 <<< rDisp.toNat) : Nat) : Int)
  let _ ← opRegReg .kOpCmp rKey rlSrc.lowReg
  -- Go if match. NOTE: No instruction set switch here - must stay Thumb2
  let _ ← opIT .kArmCondEq ""
  let switchBranch ← newLIR1 .kThumb2AddPCR rDisp
  setAnchor tabRec switchBranch
  -- Needs to use setflags encoding here
  let _ ← newLIR3 .kThumb2SubsRRI12 rIdx rIdx 1
  let _ ← opCondBranch .kCondNe (.lir target)

/-- The block label the fused long compare of `mir` ends at, when it is
emitted for the block `bb` and run on the machine `m`. -/
def fusedBranch (c : CompilationUnit) (bb : BasicBlock) (mir : MIR) (m : Machine) :
    Option Int :=
  match genFusedLongCmpBranch bb mir c with
  | some (_, c1) => (runEmitted c c1 m).block?
  | none => none

/-- A method whose code holds, at offset 0, a packed-switch table with no
entry (`size` = 0) and the low key 10. -/
def emptySwitchUnit : CompilationUnit :=
  { witnessUnit with
    insns := fun i => if i = 0 then 256 else if i = 1 then 0 else if i = 2 then 10 else 0 }

/-- The displacement the indirect branch of a packed switch is taken with,
when the switch is emitted for the table at `tableOffset` and run on the
machine `m`; `none` when the run does not end by the indirect branch. -/
def packedDisp (c : CompilationUnit) (tableOffset : Int) (rlSrc : RegLocation)
    (m : Machine) : Option Int :=
  match genPackedSwitch tableOffset rlSrc c with
  | some (_, c1) => (runEmitted c c1 m).disp?
  | none => none

/-- The instructions of the sparse switch behind the load of the switch value:
the table pointer in `rBase`, the count in `rIdx`, the loop label at index
`label` of the stream, the pair load of `rKey` and `rDisp`, the compare with
the switch value in `src`, the conditional indirect branch and the loop
branch. -/
def sparseSwitchCode (tabRec size rBase rKey rDisp rIdx src : Int) (label : Nat) : List LIR :=
  [⟨.raw .kThumb2Adr [rBase, 0, tabRec], false, .null⟩,
   ⟨.loadConstant rIdx size, false, .null⟩,
   ⟨.raw .kPseudoTargetLabel [], false, .null⟩,
   ⟨.raw .kThumb2LdmiaWB
      [rBase, (((1 <<< rKey.toNat) ||| (1 <<< rDisp.toNat) : Nat) : Int)], false, .null⟩,
   ⟨.opRegReg .kOpCmp rKey src, false, .null⟩,
   ⟨.raw .kThumb2It [0, 8], false, .null⟩,
   ⟨.raw .kThumb2AddPCR [rDisp], false, .null⟩,
   ⟨.raw .kThumb2SubsRRI12 [rIdx, rIdx, 1], false, .null⟩,
   ⟨.opCondBranch .kCondNe, false, .lir label⟩]

/-- The mask of an IT instruction in the words of the spec, from bit position
`pos` downwards: "for each guide character (processed most-significant first,
i.e., position 3 down to 1), the corresponding mask bit is `condBit` if `T`
else `altBit`", where `altBit` is the complement of `condBit`; "the
terminating bit at position `(3 − len(guide))` is forced to 1". -/
def specITMaskFrom (condBit : Nat) : Nat → List Char → Nat
  | pos, [] => 2 ^ pos
  | pos, ch :: rest =>
      (if ch = 'T' then condBit else 1 - condBit) * 2 ^ pos +
        specITMaskFrom condBit (pos - 1) rest

/-- The mask the spec gives for a base condition whose bit 0 is `condBit` and
a guide: the guide's bits from position 3 downwards, then the terminating
bit. -/
def specITMask (condBit : Nat) (guide : List Char) : Nat := specITMaskFrom condBit 3 guide

end Art

/-! # Theorems -/

namespace Art

/-! ## The code-generation monad -/

@[simp] theorem gen_bind_apply {α β : Type} (x : Gen α) (f : α → Gen β)
    (c : CompilationUnit) :
    (x >>= f) c = match x c with
      | none => none
      | some (a, c1) => f a c1 := rfl

@[simp] theorem gen_pure_apply {α : Type} (a : α) (c : CompilationUnit) :
    (Pure.pure a : Gen α) c = some (a, c) := rfl

/-! ## Machine-state bookkeeping -/

@[simp] theorem setReg_regs (m : Machine) (r v x : Int) :
    (m.setReg r v).regs x = if x = r then v else m.regs x := rfl

@[simp] theorem setReg_flags (m : Machine) (r v : Int) : (m.setReg r v).flags = m.flags := rfl

@[simp] theorem setReg_itstate (m : Machine) (r v : Int) :
    (m.setReg r v).itstate = m.itstate := rfl

@[simp] theorem setReg_mem (m : Machine) (r v : Int) : (m.setReg r v).mem = m.mem := rfl

@[simp] theorem setReg_frame (m : Machine) (r v : Int) : (m.setReg r v).frame = m.frame := rfl

@[simp] theorem setReg_tableAddr (m : Machine) (r v : Int) :
    (m.setReg r v).tableAddr = m.tableAddr := rfl

@[simp] theorem setFrame_regs (m : Machine) (r v : Int) : (m.setFrame r v).regs = m.regs := rfl

@[simp] theorem setFrame_flags (m : Machine) (r v : Int) :
    (m.setFrame r v).flags = m.flags := rfl

@[simp] theorem setFrame_itstate (m : Machine) (r v : Int) :
    (m.setFrame r v).itstate = m.itstate := rfl

@[simp] theorem setFrame_mem (m : Machine) (r v : Int) : (m.setFrame r v).mem = m.mem := rfl

@[simp] theorem setFrame_frame (m : Machine) (r v x : Int) :
    (m.setFrame r v).frame x = if x = r then v else m.frame x := rfl

@[simp] theorem setFrame_tableAddr (m : Machine) (r v : Int) :
    (m.setFrame r v).tableAddr = m.tableAddr := rfl

@[simp] theorem setFlags_regs (m : Machine) (f : Option Flags) :
    (m.setFlags f).regs = m.regs := rfl

@[simp] theorem setFlags_itstate (m : Machine) (f : Option Flags) :
    (m.setFlags f).itstate = m.itstate := rfl

@[simp] theorem setFlags_mem (m : Machine) (f : Option Flags) :
    (m.setFlags f).mem = m.mem := rfl

@[simp] theorem setFlags_frame (m : Machine) (f : Option Flags) :
    (m.setFlags f).frame = m.frame := rfl

@[simp] theorem setFlags_tableAddr (m : Machine) (f : Option Flags) :
    (m.setFlags f).tableAddr = m.tableAddr := rfl

@[simp] theorem setFlags_flags (m : Machine) (f : Option Flags) : (m.setFlags f).flags = f := rfl

@[simp] theorem setIT_regs (m : Machine) (s : Nat) : (m.setIT s).regs = m.regs := rfl

@[simp] theorem setIT_flags (m : Machine) (s : Nat) : (m.setIT s).flags = m.flags := rfl

@[simp] theorem setIT_mem (m : Machine) (s : Nat) : (m.setIT s).mem = m.mem := rfl

@[simp] theorem setIT_frame (m : Machine) (s : Nat) : (m.setIT s).frame = m.frame := rfl

@[simp] theorem setIT_tableAddr (m : Machine) (s : Nat) : (m.setIT s).tableAddr = m.tableAddr := rfl

@[simp] theorem setIT_itstate (m : Machine) (s : Nat) : (m.setIT s).itstate = s := rfl

@[simp] theorem clobberFlags_regs (m : Machine) (b : Bool) :
    (m.clobberFlags b).regs = m.regs := by cases b <;> rfl

@[simp] theorem clobberFlags_itstate (m : Machine) (b : Bool) :
    (m.clobberFlags b).itstate = m.itstate := by cases b <;> rfl

@[simp] theorem clobberFlags_mem (m : Machine) (b : Bool) :
    (m.clobberFlags b).mem = m.mem := by cases b <;> rfl

@[simp] theorem clobberFlags_frame (m : Machine) (b : Bool) :
    (m.clobberFlags b).frame = m.frame := by cases b <;> rfl

@[simp] theorem clobberFlags_tableAddr (m : Machine) (b : Bool) :
    (m.clobberFlags b).tableAddr = m.tableAddr := by cases b <;> rfl

@[simp] theorem clobberFlags_flags_false (m : Machine) :
    (m.clobberFlags false).flags = none := rfl

@[simp] theorem clobberFlags_true (m : Machine) : m.clobberFlags true = m := rfl

/-! ## Stepping rules -/

/-- The element right behind a prefix. -/
theorem getElem?_append_length {α : Type} (pre : List α) (x : α) (rest : List α) :
    (pre ++ x :: rest)[pre.length]? = some x := by
  rw [List.getElem?_append_right (Nat.le_refl _), Nat.sub_self]
  exact List.getElem?_cons_zero

theorem run_zero (code : List LIR) (pc : Nat) (m : Machine) :
    run code 0 pc m = .outOfFuel := rfl

theorem run_succ (code : List LIR) (fuel pc : Nat) (m : Machine) :
    run code (fuel + 1) pc m =
      match code[pc]? with
      | none => .fellThrough m
      | some i =>
          match stepLIR i m with
          | .next m1 => run code fuel (pc + 1) m1
          | .branch (.lir idx) m1 => run code fuel idx m1
          | .branch (.block id) m1 => .toBlock id m1
          | .branch .null _ => .fault
          | .indirect d m1 => .indirectBranch d m1
          | .ret m1 => .returned m1
          | .fault => .fault := rfl

/-- Outside an IT block an instruction that is not flagged as a no-op is
simply executed. -/
theorem stepLIR_plain (insn : Insn) (t : Target) (m : Machine) (h : m.itstate = 0) :
    stepLIR ⟨insn, false, t⟩ m = execInsn ⟨insn, false, t⟩ false m := by
  simp [stepLIR, inITBlock, h]

theorem execInsn_loadConstant (rd v : Int) (n : Bool) (t : Target) (b : Bool) (m : Machine) :
    execInsn ⟨.loadConstant rd v, n, t⟩ b m =
      .next ((m.setReg rd (wrap32 v)).clobberFlags b) := rfl

theorem execInsn_loadValue (rd s : Int) (n : Bool) (t : Target) (b : Bool) (m : Machine) :
    execInsn ⟨.loadValue rd s, n, t⟩ b m = .next (m.setReg rd (wrap32 (m.frame s))) := rfl

theorem execInsn_loadValueWide (rl rh s : Int) (n : Bool) (t : Target) (b : Bool)
    (m : Machine) :
    execInsn ⟨.loadValueWide rl rh s, n, t⟩ b m =
      .next ((m.setReg rl (wrap32 (m.frame s))).setReg rh (wrap32 (m.frame (s + 1)))) := rfl

theorem execInsn_storeValue (s r : Int) (n : Bool) (t : Target) (b : Bool) (m : Machine) :
    execInsn ⟨.storeValue s r, n, t⟩ b m = .next (m.setFrame s (m.regs r)) := rfl

theorem execInsn_smull (rLo rHi rn rm : Int) (n : Bool) (t : Target) (b : Bool)
    (m : Machine) :
    execInsn ⟨.raw .kThumb2Smull [rLo, rHi, rn, rm], n, t⟩ b m =
      .next ((m.setReg rLo (wrap32 (signed32 (m.regs rn) * signed32 (m.regs rm)))).setReg rHi
        (wrap32 (signed32 (m.regs rn) * signed32 (m.regs rm) / 4294967296))) := rfl

theorem execInsn_mov (rd rs : Int) (n : Bool) (t : Target) (b : Bool) (m : Machine) :
    execInsn ⟨.raw .kThumbMovRR [rd, rs], n, t⟩ b m = .next (m.setReg rd (m.regs rs)) := rfl

theorem execInsn_movH2H (rd rs : Int) (n : Bool) (t : Target) (b : Bool) (m : Machine) :
    execInsn ⟨.raw .kThumbMovRR_H2H [rd, rs], n, t⟩ b m = .next (m.setReg rd (m.regs rs)) :=
  rfl

theorem execInsn_movH2L (rd rs : Int) (n : Bool) (t : Target) (b : Bool) (m : Machine) :
    execInsn ⟨.raw .kThumbMovRR_H2L [rd, rs], n, t⟩ b m = .next (m.setReg rd (m.regs rs)) :=
  rfl

theorem execInsn_movL2H (rd rs : Int) (n : Bool) (t : Target) (b : Bool) (m : Machine) :
    execInsn ⟨.raw .kThumbMovRR_L2H [rd, rs], n, t⟩ b m = .next (m.setReg rd (m.regs rs)) :=
  rfl

theorem execInsn_label (ops : List Int) (n : Bool) (t : Target) (b : Bool) (m : Machine) :
    execInsn ⟨.raw .kPseudoTargetLabel ops, n, t⟩ b m = .next m := rfl

theorem execInsn_genBarrier (n : Bool) (t : Target) (b : Bool) (m : Machine) :
    execInsn ⟨.genBarrier, n, t⟩ b m = .next m := rfl

theorem execInsn_cmp (r1 r2 : Int) (n : Bool) (t : Target) (b : Bool) (m : Machine) :
    execInsn ⟨.opRegReg .kOpCmp r1 r2, n, t⟩ b m =
      .next (m.setFlags (some (subFlags (m.regs r1) (m.regs r2)))) := rfl

theorem execInsn_add (r1 r2 : Int) (n : Bool) (t : Target) (b : Bool) (m : Machine) :
    execInsn ⟨.opRegReg .kOpAdd r1 r2, n, t⟩ b m =
      .next ((m.setReg r1 (wrap32 (m.regs r1 + m.regs r2))).clobberFlags b) := rfl

theorem execInsn_neg (r1 r2 : Int) (n : Bool) (t : Target) (b : Bool) (m : Machine) :
    execInsn ⟨.opRegReg .kOpNeg r1 r2, n, t⟩ b m =
      .next ((m.setReg r1 (wrap32 (0 - m.regs r2))).clobberFlags b) := rfl

theorem execInsn_cmpImm (r v : Int) (n : Bool) (t : Target) (b : Bool) (m : Machine) :
    execInsn ⟨.opRegImm .kOpCmp r v, n, t⟩ b m =
      .next (m.setFlags (some (subFlags (m.regs r) (wrap32 v)))) := rfl

theorem execInsn_asrImm (rd rs v : Int) (n : Bool) (t : Target) (b : Bool) (m : Machine) :
    execInsn ⟨.opRegRegImm .kOpAsr rd rs v, n, t⟩ b m =
      .next ((m.setReg rd (asr32 (m.regs rs) v)).clobberFlags b) := rfl

theorem execInsn_subImm (rd rs v : Int) (n : Bool) (t : Target) (b : Bool) (m : Machine) :
    execInsn ⟨.opRegRegImm .kOpSub rd rs v, n, t⟩ b m =
      .next ((m.setReg rd (wrap32 (m.regs rs - v))).clobberFlags b) := rfl

theorem execInsn_subs (rd r1 r2 : Int) (n : Bool) (t : Target) (b : Bool) (m : Machine) :
    execInsn ⟨.opRegRegReg .kOpSub rd r1 r2, n, t⟩ b m =
      .next ((m.setReg rd (wrap32 (m.regs r1 - m.regs r2))).setFlags
        (some (subFlags (m.regs r1) (m.regs r2)))) := rfl

theorem execInsn_subAsr (rd r1 r2 k : Int) (n : Bool) (t : Target) (b : Bool)
    (m : Machine) :
    execInsn ⟨.opRegRegRegShift .kOpSub rd r1 r2 ⟨.kArmAsr, k⟩, n, t⟩ b m =
      .next ((m.setReg rd (wrap32 (m.regs r1 - asr32 (m.regs r2) k))).clobberFlags b) := rfl

theorem execInsn_rsubAsr (rd r1 r2 k : Int) (n : Bool) (t : Target) (b : Bool)
    (m : Machine) :
    execInsn ⟨.opRegRegRegShift .kOpRsub rd r1 r2 ⟨.kArmAsr, k⟩, n, t⟩ b m =
      .next ((m.setReg rd (wrap32 (asr32 (m.regs r2) k - m.regs r1))).clobberFlags b) := rfl

theorem execInsn_condBranch (cc : ConditionCode) (n : Bool) (t : Target) (b : Bool)
    (m : Machine) :
    execInsn ⟨.opCondBranch cc, n, t⟩ b m = execCondBranch cc t m := rfl

/-! ## The allocator model -/

/-- Allocation hands out the head of the free list and leaves the rest free. -/
theorem RegisterPool.alloc_of_free (t u : List Int) (r : Int) (rest : List Int)
    (hn : t.Nodup) (h : RegisterPool.free ⟨t, u⟩ = r :: rest) :
    RegisterPool.alloc ⟨t, u⟩ = some (r, ⟨t, r :: u⟩) ∧
      RegisterPool.free ⟨t, r :: u⟩ = rest := by
  constructor
  · simp [RegisterPool.alloc, h]
  · have hnd : (r :: rest).Nodup := by
      rw [← h]; exact hn.filter _
    have hr : r ∉ rest := (List.nodup_cons.mp hnd).1
    have hf : RegisterPool.free ⟨t, r :: u⟩
        = (RegisterPool.free ⟨t, u⟩).filter (fun x => decide (x ≠ r)) := by
      simp only [RegisterPool.free, List.filter_filter]
      apply List.filter_congr
      intro x _
      simp [List.mem_cons, not_or, and_comm]
    rw [hf, h]
    simp only [List.filter_cons, ne_eq, not_true_eq_false, decide_False]
    simp
    intro a ha hne
    exact hr (hne ▸ ha)

/-! ## Reciprocal multiplication -/

/-- For a non-negative dividend, multiplying by the magic number and dropping
`k` is the floor division. -/
theorem magic_floor_nonneg (M d k e n : Int) (hd : 0 < d) (hk : 0 < k) (hM : M * d = k + e)
    (he : 0 ≤ e) (hb : e * 2147483648 ≤ k) (hlo : 0 ≤ n) (hhi : n < 2147483648) :
    n * M / k = n / d := by
  have hq1 : d * (n / d) ≤ n := Int.mul_ediv_self_le (Int.ne_of_gt hd)
  have hq2 : n < d * (n / d) + d := Int.lt_mul_ediv_self_add hd
  have hne : n * e < k := by nlinarith
  apply Int.le_antisymm
  · have : n * M / k < n / d + 1 := by
      apply (Int.ediv_lt_iff_lt_mul hk).mpr
      have h1 : n * M * d < (n / d + 1) * k * d := by nlinarith
      exact lt_of_mul_lt_mul_right h1 (le_of_lt hd)
    omega
  · apply (Int.le_ediv_iff_mul_le hk).mpr
    have h1 : n / d * k * d ≤ n * M * d := by nlinarith
    exact le_of_mul_le_mul_right h1 hd

/-- For a negative dividend the same product is one below the truncated
quotient. -/
theorem magic_floor_neg (M d k e n : Int) (hd : 0 < d) (hk : 0 < k) (hM : M * d = k + e)
    (he : 0 < e) (hb : e * 2147483648 ≤ k) (hlo : -2147483648 ≤ n) (hhi : n < 0) :
    n * M / k = -((-n) / d) - 1 := by
  have hq1 : d * ((-n) / d) ≤ -n := Int.mul_ediv_self_le (Int.ne_of_gt hd)
  have hq2 : -n < d * ((-n) / d) + d := Int.lt_mul_ediv_self_add hd
  have hne : (-n) * e ≤ k := by nlinarith
  apply Int.le_antisymm
  · have : n * M / k < -((-n) / d) := by
      apply (Int.ediv_lt_iff_lt_mul hk).mpr
      have h1 : n * M * d < (-((-n) / d)) * k * d := by nlinarith
      exact lt_of_mul_lt_mul_right h1 (le_of_lt hd)
    omega
  · apply (Int.le_ediv_iff_mul_le hk).mpr
    have h1 : (-((-n) / d) - 1) * k * d ≤ n * M * d := by nlinarith
    exact le_of_mul_le_mul_right h1 hd

theorem tdiv_of_nonneg (n d : Int) (h : 0 ≤ n) (hd : 0 ≤ d) : Int.tdiv n d = n / d :=
  Int.tdiv_eq_ediv h hd

theorem tdiv_of_neg (n d : Int) (h : n < 0) (hd : 0 < d) : Int.tdiv n d = -((-n) / d) := by
  have hn : n = -(-n) := by omega
  conv_lhs => rw [hn]
  rw [Int.neg_tdiv, Int.tdiv_eq_ediv (by omega) (by omega)]

/-! ## Relocating emitted code -/

theorem execRaw_shift (k : Nat) (o : ArmOpcode) (ops : List Int) (m : Machine) :
    shiftStep k (execRaw o ops m) = execRaw o ops m := by
  unfold execRaw
  split <;> rfl

theorem execInsn_shift (k : Nat) (i : LIR) (b : Bool) (m : Machine) :
    execInsn (shiftLIR k i) b m = shiftStep k (execInsn i b m) := by
  obtain ⟨insn, nop, t⟩ := i
  cases insn with
  | raw o ops => exact (execRaw_shift k o ops m).symm
  | opCondBranch cc =>
      simp only [shiftLIR, execInsn, execCondBranch]
      cases m.flags with
      | none => rfl
      | some f => simp only []; split <;> rfl
  | opRegReg op r1 r2 => cases op <;> rfl
  | opRegImm op r v => cases op <;> rfl
  | opRegRegImm op rd rs v => cases op <;> rfl
  | opRegRegReg op rd r1 r2 => cases op <;> rfl
  | opRegRegRegShift op rd r1 r2 s =>
      simp only [shiftLIR, execInsn, execOpRegRegRegShift]
      cases shiftedValue (m.regs r2) s with
      | none => rfl
      | some x => cases op <;> rfl
  | opReg op r => cases op <;> rfl
  | genNullCheck s r =>
      simp only [shiftLIR, execInsn]
      split <;> rfl
  | _ => rfl

theorem stepLIR_shift (k : Nat) (i : LIR) (m : Machine) :
    stepLIR (shiftLIR k i) m = shiftStep k (stepLIR i m) := by
  unfold stepLIR
  simp only [execInsn_shift]
  have h1 : (shiftLIR k i).isNop = i.isNop := rfl
  have h2 : (shiftLIR k i).insn = i.insn := rfl
  rw [h1, h2]
  split
  · rfl
  · split
    · cases m.flags with
      | none => rfl
      | some f => simp only []; split <;> rfl
    · rfl

/-- Running a block of code placed behind `pre`, its internal targets moved
accordingly, is running the block on its own. -/
theorem run_reloc (pre code : List LIR) (fuel : Nat) :
    ∀ (pc : Nat) (m : Machine),
      run (pre ++ code.map (shiftLIR pre.length)) fuel (pre.length + pc) m = run code fuel pc m := by
  induction fuel with
  | zero => intro pc m; rfl
  | succ fuel ih =>
      intro pc m
      rw [run_succ, run_succ]
      have hget : (pre ++ code.map (shiftLIR pre.length))[pre.length + pc]?
          = (code[pc]?).map (shiftLIR pre.length) := by
        rw [List.getElem?_append_right (Nat.le_add_right _ _)]
        simp
      rw [hget]
      cases hc : code[pc]? with
      | none => rfl
      | some i =>
          simp only [Option.map_some', stepLIR_shift]
          cases hs : stepLIR i m with
          | next m1 => simp only [shiftStep]; rw [← ih (pc + 1) m1]; rfl
          | branch t m1 =>
              cases t with
              | null => rfl
              | lir idx => simp only [shiftStep, shiftTarget]; exact ih idx m1
              | block id => rfl
          | indirect d m1 => rfl
          | ret m1 => rfl
          | fault => rfl

theorem shift_unshift (k : Nat) (i : LIR) (h : ∀ j, i.target = .lir j → k ≤ j) :
    shiftLIR k (unshiftLIR k i) = i := by
  obtain ⟨insn, nop, t⟩ := i
  cases t with
  | null => rfl
  | block id => rfl
  | lir j =>
      have hj : k ≤ j := h j rfl
      simp only [shiftLIR, unshiftLIR, shiftTarget, unshiftTarget]
      congr 2
      omega

/-- Code appended behind `pre` runs like the same code on its own, its
internal targets counted from its first instruction. -/
theorem run_behind (pre code : List LIR) (fuel : Nat) (m : Machine)
    (h : ∀ i ∈ code, ∀ j, i.target = .lir j → pre.length ≤ j) :
    run (pre ++ code) fuel pre.length m = run (code.map (unshiftLIR pre.length)) fuel 0 m := by
  have hc : (code.map (unshiftLIR pre.length)).map (shiftLIR pre.length) = code := by
    rw [List.map_map]
    conv_rhs => rw [← List.map_id code]
    apply List.map_congr_left
    intro i hi
    exact shift_unshift _ i (h i hi)
  have := run_reloc pre (code.map (unshiftLIR pre.length)) fuel 0 m
  rw [hc] at this
  exact this

/-! ## Word arithmetic -/

theorem signed32_wrap32 (n : Int) (hlo : -2147483648 ≤ n) (hhi : n < 2147483648) :
    signed32 (wrap32 n) = n := by
  unfold signed32 wrap32; split <;> omega

theorem wrap32_sub_wrap32 (a b : Int) : wrap32 (wrap32 a - wrap32 b) = wrap32 (a - b) := by
  unfold wrap32; omega

theorem wrap32_add_wrap32 (a b : Int) : wrap32 (wrap32 a + wrap32 b) = wrap32 (a + b) := by
  unfold wrap32; omega

theorem asr32_sign (n : Int) (hlo : -2147483648 ≤ n) (hhi : n < 2147483648) :
    asr32 (wrap32 n) 31 = wrap32 (if 0 ≤ n then 0 else -1) := by
  unfold asr32
  rw [signed32_wrap32 n hlo hhi]
  have : shiftAmount 31 = 31 := by decide
  rw [this]
  split <;> (congr 1; omega)

/-- The product with an unsigned multiplier below `2^32`, divided by `2^32`,
lies between 0 and the dividend. -/
theorem hi_bounds (M n : Int) (hM0 : 0 ≤ M) (hM1 : M < 4294967296)
    (hlo : -2147483648 ≤ n) (hhi : n < 2147483648) :
    -2147483648 ≤ n * M / 4294967296 ∧ n * M / 4294967296 < 2147483648 := by
  constructor
  · apply (Int.le_ediv_iff_mul_le (by decide)).mpr
    nlinarith
  · apply (Int.ediv_lt_iff_lt_mul (by decide)).mpr
    nlinarith

theorem magic_floor (M d k e n : Int) (hd : 0 < d) (hk : 0 < k) (hM : M * d = k + e)
    (he : 0 < e) (hb : e * 2147483648 ≤ k) (hlo : -2147483648 ≤ n) (hhi : n < 2147483648) :
    n * M / k = Int.tdiv n d + (if 0 ≤ n then 0 else -1) := by
  split
  · rename_i h
    rw [tdiv_of_nonneg n d h (le_of_lt hd), magic_floor_nonneg M d k e n hd hk hM (le_of_lt he) hb h hhi]
    simp
  · rename_i h
    have h' : n < 0 := by omega
    rw [tdiv_of_neg n d h' hd, magic_floor_neg M d k e n hd hk hM he hb hlo h']
    omega

theorem asr32_hi (x : Int) (sh : Int) (s : Nat) (hs : shiftAmount sh = s)
    (h1 : -2147483648 ≤ x) (h2 : x < 2147483648) :
    asr32 (wrap32 x) sh = wrap32 (x / 2 ^ s) := by
  unfold asr32
  rw [signed32_wrap32 x h1 h2, hs]

theorem ediv_ediv_pos (a b c : Int) (hb : 0 < b) (hc : 0 < c) : a / b / c = a / (b * c) := by
  have hbc : 0 < b * c := Int.mul_pos hb hc
  have h1 : a / (b * c) * (b * c) ≤ a := Int.ediv_mul_le a (Int.ne_of_gt hbc)
  have h2 : a < (a / (b * c) + 1) * (b * c) := Int.lt_ediv_add_one_mul_self a hbc
  apply Int.le_antisymm
  · have : a / b / c < a / (b * c) + 1 := by
      apply (Int.ediv_lt_iff_lt_mul hc).mpr
      apply (Int.ediv_lt_iff_lt_mul hb).mpr
      calc a < (a / (b * c) + 1) * (b * c) := h2
        _ = (a / (b * c) + 1) * c * b := by ring
    omega
  · apply (Int.le_ediv_iff_mul_le hc).mpr
    apply (Int.le_ediv_iff_mul_le hb).mpr
    calc a / (b * c) * c * b = a / (b * c) * (b * c) := by ring
      _ ≤ a := h1

/-- The value the emitted sequence computes is the truncated quotient. -/
theorem quotient_correct (M d n ee : Int) (s : Nat) (sh : Int) (p : DividePattern)
    (hp : p ≠ .DivideNone) (hsh : p ≠ .Divide3 → shiftAmount sh = s) (h3 : p = .Divide3 → s = 0)
    (hM0 : 0 ≤ M) (hM1 : M < 4294967296) (hMs : p = .Divide7 ↔ 2147483648 ≤ M)
    (hd : 0 < d) (hK : M * d = 4294967296 * 2 ^ s + ee) (he : 0 < ee)
    (hb : ee * 2147483648 ≤ 4294967296 * 2 ^ s)
    (hlo : -2147483648 ≤ n) (hhi : n < 2147483648) :
    quotient ⟨M, sh, p⟩ n = wrap32 (Int.tdiv n d) := by
  have hpow : (0 : Int) < 2 ^ s := by positivity
  have hk : (0 : Int) < 4294967296 * 2 ^ s := by positivity
  have hfl := magic_floor M d (4294967296 * 2 ^ s) ee n hd hk hK he hb hlo hhi
  have hnest : n * M / 4294967296 / 2 ^ s = n * M / (4294967296 * 2 ^ s) :=
    ediv_ediv_pos _ _ _ (by decide) hpow
  obtain ⟨hb1, hb2⟩ := hi_bounds M n hM0 hM1 hlo hhi
  have hsn := signed32_wrap32 n hlo hhi
  have hwM : wrap32 M = M := by unfold wrap32; omega
  have hsg := asr32_sign n hlo hhi
  cases p with
  | DivideNone => exact absurd rfl hp
  | Divide3 =>
      have hs0 : s = 0 := h3 rfl
      subst hs0
      have hMlt : M < 2147483648 := by
        by_contra hc
        have := hMs.mpr (by omega)
        cases this
      have hsM : signed32 (wrap32 M) = M := signed32_wrap32 M (by omega) hMlt
      simp only [quotient, hiWord, hsM, hsn, hsg]
      rw [wrap32_sub_wrap32, Int.mul_comm M n]
      simp only [pow_zero, Int.mul_one, Int.ediv_one] at hfl hnest
      rw [hfl]
      congr 1; omega
  | Divide5 =>
      have hss : shiftAmount sh = s := hsh (by decide)
      have hMlt : M < 2147483648 := by
        by_contra hc
        have := hMs.mpr (by omega)
        cases this
      have hsM : signed32 (wrap32 M) = M := signed32_wrap32 M (by omega) hMlt
      simp only [quotient, hiWord, hsM, hsn, hsg]
      rw [Int.mul_comm M n, asr32_hi _ sh s hss hb1 hb2, wrap32_sub_wrap32, hnest, hfl]
      congr 1; omega
  | Divide7 =>
      have hss : shiftAmount sh = s := hsh (by decide)
      have hMge : 2147483648 ≤ M := hMs.mp rfl
      have hsM : signed32 (wrap32 M) = M - 4294967296 := by
        unfold signed32; rw [hwM]; split <;> omega
      have hprod : (M - 4294967296) * n / 4294967296 = n * M / 4294967296 - n := by
        have : (M - 4294967296) * n = n * M + (-n) * 4294967296 := by ring
        rw [this, Int.add_mul_ediv_right _ _ (by decide)]
        omega
      simp only [quotient, hiWord, hsM, hsn, hsg]
      rw [hprod, wrap32_add_wrap32]
      have : n * M / 4294967296 - n + n = n * M / 4294967296 := by omega
      rw [this, asr32_hi _ sh s hss hb1 hb2, wrap32_sub_wrap32, hnest, hfl]
      congr 1; omega

/-- Every row of the table of magic divisors computes the truncated quotient. -/
theorem quotient_magicEntry (lit n : Int)
    (hlit : lit ∈ [3, 5, 6, 7, 9, 10, 11, 12, 13, 14, 15])
    (hlo : -2147483648 ≤ n) (hhi : n < 2147483648) :
    quotient (magicEntry lit) n = wrap32 (Int.tdiv n lit) := by
  simp only [List.mem_cons, List.mem_singleton, List.not_mem_nil, or_false] at hlit
  rcases hlit with h | h | h | h | h | h | h | h | h | h | h <;> subst h
  · exact quotient_correct 0x55555556 3 n 2 0 0 .Divide3 (by decide) (by decide) (by decide)
      (by decide) (by decide) (by decide) (by decide) (by decide) (by decide) (by decide) hlo hhi
  · exact quotient_correct 0x66666667 5 n 3 1 1 .Divide5 (by decide) (by decide) (by decide)
      (by decide) (by decide) (by decide) (by decide) (by decide) (by decide) (by decide) hlo hhi
  · exact quotient_correct 0x2AAAAAAB 6 n 2 0 0 .Divide3 (by decide) (by decide) (by decide)
      (by decide) (by decide) (by decide) (by decide) (by decide) (by decide) (by decide) hlo hhi
  · exact quotient_correct 0x92492493 7 n 5 2 2 .Divide7 (by decide) (by decide) (by decide)
      (by decide) (by decide) (by decide) (by decide) (by decide) (by decide) (by decide) hlo hhi
  · exact quotient_correct 0x38E38E39 9 n 1 1 1 .Divide5 (by decide) (by decide) (by decide)
      (by decide) (by decide) (by decide) (by decide) (by decide) (by decide) (by decide) hlo hhi
  · exact quotient_correct 0x66666667 10 n 6 2 2 .Divide5 (by decide) (by decide) (by decide)
      (by decide) (by decide) (by decide) (by decide) (by decide) (by decide) (by decide) hlo hhi
  · exact quotient_correct 0x2E8BA2E9 11 n 3 1 1 .Divide5 (by decide) (by decide) (by decide)
      (by decide) (by decide) (by decide) (by decide) (by decide) (by decide) (by decide) hlo hhi
  · exact quotient_correct 0x2AAAAAAB 12 n 4 1 1 .Divide5 (by decide) (by decide) (by decide)
      (by decide) (by decide) (by decide) (by decide) (by decide) (by decide) (by decide) hlo hhi
  · exact quotient_correct 0x4EC4EC4F 13 n 3 2 2 .Divide5 (by decide) (by decide) (by decide)
      (by decide) (by decide) (by decide) (by decide) (by decide) (by decide) (by decide) hlo hhi
  · exact quotient_correct 0x92492493 14 n 10 3 3 .Divide7 (by decide) (by decide) (by decide)
      (by decide) (by decide) (by decide) (by decide) (by decide) (by decide) (by decide) hlo hhi
  · exact quotient_correct 0x88888889 15 n 7 3 3 .Divide7 (by decide) (by decide) (by decide)
      (by decide) (by decide) (by decide) (by decide) (by decide) (by decide) (by decide) hlo hhi

theorem wrap32_wrap32 (x : Int) : wrap32 (wrap32 x) = wrap32 x := by
  unfold wrap32; omega

/-! ## Flags and conditions -/

theorem subFlags_z (x y : Int) : (subFlags x y).z = true ↔ wrap32 x = wrap32 y := by
  simp only [subFlags, decide_eq_true_eq, wrap32]
  omega

theorem subFlags_c (x y : Int) : (subFlags x y).c = true ↔ wrap32 y ≤ wrap32 x := by
  simp only [subFlags, decide_eq_true_eq]

theorem subFlags_nv (x y : Int) :
    ((subFlags x y).n = (subFlags x y).v) ↔ signed32 y ≤ signed32 x := by
  simp only [subFlags, decide_eq_decide, wrap32, signed32]
  split_ifs <;> omega

theorem signed32_eq_iff (x y : Int) : signed32 x = signed32 y ↔ wrap32 x = wrap32 y := by
  simp only [wrap32, signed32]
  split_ifs <;> omega

theorem conditionPassed_cmp (cc : ConditionCode) (x y : Int)
    (hcc : cc ∈ [ConditionCode.kCondEq, .kCondNe, .kCondCs, .kCondCc, .kCondHi, .kCondLs,
      .kCondGe, .kCondLt, .kCondGt, .kCondLe]) :
    conditionPassed (oatArmConditionEncoding cc).toNat (subFlags x y) = condHolds cc x y := by
  have hz := subFlags_z x y
  have hc := subFlags_c x y
  have hnv := subFlags_nv x y
  have hs := signed32_eq_iff x y
  simp only [List.mem_cons, List.mem_singleton, List.not_mem_nil, or_false] at hcc
  rcases hcc with h | h | h | h | h | h | h | h | h | h <;> subst h <;>
    simp only [conditionPassed, oatArmConditionEncoding, ArmConditionCode.toNat, condHolds] <;>
    rw [Bool.eq_iff_iff] <;>
    simp only [Bool.and_eq_true, Bool.not_eq_true', decide_eq_true_eq, beq_iff_eq, hz, hc, hnv,
      Bool.not_eq_true, Bool.and_eq_false_iff, ← Bool.not_eq_true, beq_eq_false_iff_ne, ne_eq,
      not_le, not_lt, not_not, not_and_or] <;>
    omega

/-! ## Stepping through conditional code -/

theorem run_succ_after (code : List LIR) (fuel pc : Nat) (m : Machine) :
    run code (fuel + 1) pc m =
      match code[pc]? with
      | none => .fellThrough m
      | some i => afterStep code fuel pc (stepLIR i m) := by
  rw [run_succ]
  cases code[pc]? with
  | none => rfl
  | some i =>
      simp only []
      cases hs : stepLIR i m with
      | branch t m1 => cases t <;> rfl
      | _ => rfl

theorem afterStep_ite (code : List LIR) (fuel pc : Nat) (b : Prop) [Decidable b] (s1 s2 : Step) :
    afterStep code fuel pc (if b then s1 else s2) =
      if b then afterStep code fuel pc s1 else afterStep code fuel pc s2 := by
  split <;> rfl

theorem afterStep_next (code : List LIR) (fuel pc : Nat) (m : Machine) :
    afterStep code fuel pc (.next m) = run code fuel (pc + 1) m := rfl

theorem afterStep_block (code : List LIR) (fuel pc : Nat) (id : Int) (m : Machine) :
    afterStep code fuel pc (.branch (.block id) m) = .toBlock id m := rfl

theorem afterStep_lir (code : List LIR) (fuel pc idx : Nat) (m : Machine) :
    afterStep code fuel pc (.branch (.lir idx) m) = run code fuel idx m := rfl

theorem afterStep_indirect (code : List LIR) (fuel pc : Nat) (d : Int) (m : Machine) :
    afterStep code fuel pc (.indirect d m) = .indirectBranch d m := rfl

/-- Instructions that all fall through, run behind a prefix, hand over to
whatever follows them. -/
theorem run_straight (loads : List LIR) :
    ∀ (pre core : List LIR) (k : Nat) (m m1 : Machine), straight loads m = some m1 →
      run (pre ++ (loads ++ core)) (loads.length + k) pre.length m =
        run ((pre ++ loads) ++ core) k (pre ++ loads).length m1 := by
  induction loads with
  | nil =>
      intro pre core k m m1 h
      simp only [straight, Option.some.injEq] at h
      subst h
      simp
  | cons i rest ih =>
      intro pre core k m m1 h
      simp only [straight] at h
      cases hs : stepLIR i m with
      | next m2 =>
          rw [hs] at h
          simp only [] at h
          have hlen : (i :: rest).length + k = (rest.length + k) + 1 := by
            simp only [List.length_cons]; omega
          rw [hlen, run_succ]
          have hget : (pre ++ (i :: rest ++ core))[pre.length]? = some i := by
            simp only [List.cons_append]
            exact getElem?_append_length _ _ _
          rw [hget]
          simp only [hs]
          have h1 := ih (pre ++ [i]) core k m2 m1 h
          simp only [List.append_assoc, List.singleton_append, List.length_append,
            List.length_cons, List.length_nil, List.cons_append, List.nil_append, Nat.zero_add]
            at h1 ⊢
          exact h1
      | _ => rw [hs] at h; simp at h

/-- A conditional branch right after a compare tests the compared words. -/
theorem execCondBranch_cmp (cc : ConditionCode) (t : Target) (m : Machine) (x y : Int)
    (hcc : cc ∈ [ConditionCode.kCondEq, .kCondNe, .kCondCs, .kCondCc, .kCondHi, .kCondLs,
      .kCondGe, .kCondLt, .kCondGt, .kCondLe]) :
    execCondBranch cc t (m.setFlags (some (subFlags x y))) =
      if condHolds cc x y = true then .branch t (m.setFlags (some (subFlags x y)))
      else .next (m.setFlags (some (subFlags x y))) := by
  simp only [execCondBranch, Machine.setFlags, conditionPassed_cmp cc x y hcc]

/-! ## Operand loads -/

/-- A wide load either finds the value in registers and does nothing, or
takes the next two scratch registers and loads the value into them. -/
theorem loadValueWide_cases (c : CompilationUnit) (loc : RegLocation) (k : RegisterClass)
    (x1 x2 : Int) (rest : List Int) (hn : c.regPool.temps.Nodup)
    (hf : c.regPool.free = x1 :: x2 :: rest) :
    (loc.location = .kLocPhysReg ∧ loadValueWide loc k c = some (loc, c)) ∨
      (loc.location ≠ .kLocPhysReg ∧
        loadValueWide loc k c =
          some ({ loc with location := .kLocPhysReg, lowReg := x1, highReg := x2 },
            { c with lir := c.lir ++ [⟨.loadValueWide x1 x2 loc.sRegLow, false, .null⟩],
                     regPool := ⟨c.regPool.temps, x2 :: x1 :: c.regPool.inUse⟩ }) ∧
        RegisterPool.free ⟨c.regPool.temps, x2 :: x1 :: c.regPool.inUse⟩ = rest) := by
  obtain ⟨a1, f1⟩ := RegisterPool.alloc_of_free c.regPool.temps c.regPool.inUse x1 _ hn hf
  obtain ⟨a2, f2⟩ := RegisterPool.alloc_of_free c.regPool.temps _ x2 _ hn f1
  by_cases h : loc.location = .kLocPhysReg
  · left
    exact ⟨h, by simp [loadValueWide, h]⟩
  · right
    refine ⟨h, ?_, f2⟩
    simp [loadValueWide, h, oatAllocTemp, emit, oatAppendLIR, a1, a2]

/-- Running what was emitted, when it is a block of loads that fall through
followed by the code proper. -/
theorem runEmitted_loads_core (c c1 : CompilationUnit) (loads core : List LIR) (m m1 : Machine)
    (hl : c1.lir = c.lir ++ (loads ++ core)) (hs : straight loads m = some m1)
    (ht : ∀ i ∈ core, ∀ j, i.target = .lir j → (c.lir ++ loads).length ≤ j) :
    runEmitted c c1 m =
      run (core.map (unshiftLIR (c.lir ++ loads).length)) (core.length + 1) 0 m1 := by
  unfold runEmitted
  rw [hl]
  have hfuel : (c.lir ++ (loads ++ core)).length - c.lir.length + 1 =
      loads.length + (core.length + 1) := by
    simp only [List.length_append]; omega
  rw [hfuel, run_straight loads c.lir core (core.length + 1) m m1 hs]
  exact run_behind (c.lir ++ loads) core (core.length + 1) m1 ht

theorem straight_nil (m : Machine) : straight [] m = some m := rfl

theorem straight_loadValueWide (x1 x2 s : Int) (m : Machine) (hit : m.itstate = 0) :
    straight [⟨.loadValueWide x1 x2 s, false, .null⟩] m =
      some ((m.setReg x1 (wrap32 (m.frame s))).setReg x2 (wrap32 (m.frame (s + 1)))) := by
  simp only [straight, stepLIR_plain _ _ _ hit, execInsn_loadValueWide]

theorem straight_loadValueWide_two (x1 x2 s x3 x4 t : Int) (m : Machine) (hit : m.itstate = 0) :
    straight [⟨.loadValueWide x1 x2 s, false, .null⟩, ⟨.loadValueWide x3 x4 t, false, .null⟩] m =
      some ((((m.setReg x1 (wrap32 (m.frame s))).setReg x2 (wrap32 (m.frame (s + 1)))).setReg x3
        (wrap32 (m.frame t))).setReg x4 (wrap32 (m.frame (t + 1)))) := by
  simp only [straight, stepLIR_plain _ _ _ hit, execInsn_loadValueWide]
  rw [stepLIR_plain _ _ _ (by simp [hit])]
  simp only [execInsn_loadValueWide, setReg_frame]

theorem four_of_length (l : List Int) (h : 4 ≤ l.length) :
    ∃ r1 r2 r3 r4 rest, l = r1 :: r2 :: r3 :: r4 :: rest := by
  match l, h with
  | r1 :: r2 :: r3 :: r4 :: rest, _ => exact ⟨r1, r2, r3, r4, rest, rfl⟩

theorem straight_append (l1 : List LIR) :
    ∀ (l2 : List LIR) (m m1 m2 : Machine), straight l1 m = some m1 → straight l2 m1 = some m2 →
      straight (l1 ++ l2) m = some m2 := by
  induction l1 with
  | nil =>
      intro l2 m m1 m2 h1 h2
      simp only [straight, Option.some.injEq] at h1
      subst h1
      exact h2
  | cons i rest ih =>
      intro l2 m m1 m2 h1 h2
      simp only [straight, List.cons_append] at h1 ⊢
      cases hs : stepLIR i m with
      | next m3 =>
          rw [hs] at h1
          exact ih l2 m3 m1 m2 h1 h2
      | branch t m3 => rw [hs] at h1; exact absurd h1 (by simp)
      | indirect d m3 => rw [hs] at h1; exact absurd h1 (by simp)
      | ret m3 => rw [hs] at h1; exact absurd h1 (by simp)
      | fault => rw [hs] at h1; exact absurd h1 (by simp)

theorem two_of_length (l : List Int) (h : 2 ≤ l.length) : ∃ r1 r2 rest, l = r1 :: r2 :: rest := by
  match l, h with
  | r1 :: r2 :: rest, _ => exact ⟨r1, r2, rest, rfl⟩

/-- A wide load, emitted and run: the value ends in the register pair the
load answers, registers outside the free scratch registers and the frame keep
their contents, and at most two scratch registers leave the free list. -/
theorem loadValueWide_run (c : CompilationUnit) (loc : RegLocation) (k : RegisterClass)
    (m : Machine) (hn : c.regPool.temps.Nodup) (hf : 2 ≤ c.regPool.free.length)
    (hit : m.itstate = 0)
    (hr : loc.location = .kLocPhysReg →
      loc.lowReg ∉ c.regPool.free ∧ loc.highReg ∉ c.regPool.free) :
    ∃ loc1 loads inUse1 m1,
      loadValueWide loc k c =
        some (loc1, { c with lir := c.lir ++ loads, regPool := ⟨c.regPool.temps, inUse1⟩ }) ∧
      straight loads m = some m1 ∧ m1.itstate = 0 ∧ m1.frame = m.frame ∧
      (m1.regs loc1.lowReg, m1.regs loc1.highReg) = wideValueAt m loc ∧
      (∀ r, r ∉ c.regPool.free → m1.regs r = m.regs r) ∧
      (∃ n, n ≤ 2 ∧ RegisterPool.free ⟨c.regPool.temps, inUse1⟩ = c.regPool.free.drop n) ∧
      loc1.lowReg ∉ RegisterPool.free ⟨c.regPool.temps, inUse1⟩ ∧
      loc1.highReg ∉ RegisterPool.free ⟨c.regPool.temps, inUse1⟩ := by
  obtain ⟨x1, x2, rest, hfree⟩ := two_of_length _ hf
  have hnd : (x1 :: x2 :: rest).Nodup := by
    rw [← hfree]; exact hn.filter _
  simp only [List.nodup_cons, List.mem_cons, not_or] at hnd
  rcases loadValueWide_cases c loc k x1 x2 rest hn hfree with ⟨hp, he⟩ | ⟨hp, he, hrest⟩
  · refine ⟨loc, [], c.regPool.inUse, m, ?_, rfl, hit, rfl, ?_, fun _ _ => rfl, ⟨0, by omega, rfl⟩,
      (hr hp).1, (hr hp).2⟩
    · rw [he]; simp
    · simp [wideValueAt, hp]
  · refine ⟨_, _, _, _, he, straight_loadValueWide x1 x2 loc.sRegLow m hit, by simp [hit], by simp,
      ?_, ?_, ⟨2, by omega, ?_⟩, ?_, ?_⟩
    · simp [wideValueAt, hp, hnd.1.1]
    · intro r hr1
      rw [hfree] at hr1
      simp only [List.mem_cons, not_or] at hr1
      simp [hr1.1, hr1.2.1]
    · rw [hrest, hfree]; rfl
    · rw [hrest]; exact hnd.1.2
    · rw [hrest]; exact hnd.2.1

/-! ## IT blocks and patched targets -/

theorem stepLIR_inIT (insn : Insn) (t : Target) (m : Machine)
    (hin : inITBlock m.itstate = true) (hps : insn.isPseudo = false) :
    stepLIR ⟨insn, false, t⟩ m =
      match m.flags with
      | none => .fault
      | some f =>
          if conditionPassed (m.itstate / 16) f then
            execInsn ⟨insn, false, t⟩ true (m.setIT (itAdvance m.itstate))
          else .next (m.setIT (itAdvance m.itstate)) := by
  simp [stepLIR, hin, hps]

theorem stepLIR_pseudo (insn : Insn) (t : Target) (m : Machine) (hps : insn.isPseudo = true) :
    stepLIR ⟨insn, false, t⟩ m = execInsn ⟨insn, false, t⟩ false m := by
  simp [stepLIR, hps]

theorem execInsn_it (code mask : Int) (n : Bool) (t : Target) (b : Bool) (m : Machine) :
    execInsn ⟨.raw .kThumb2It [code, mask], n, t⟩ b m =
      .next (m.setIT ((wrap32 code).toNat % 16 * 16 + (wrap32 mask).toNat % 16)) := rfl

theorem execInsn_movImm (rd imm : Int) (n : Bool) (t : Target) (b : Bool) (m : Machine) :
    execInsn ⟨.raw .kThumb2MovImmShift [rd, imm], n, t⟩ b m =
      .next (m.setReg rd (thumbExpandImm imm)) := rfl

theorem conditionPassed_hi (x y : Int) :
    conditionPassed 8 (subFlags x y) = decide (wrap32 y < wrap32 x) :=
  conditionPassed_cmp .kCondHi x y (by decide)

theorem conditionPassed_ls (x y : Int) :
    conditionPassed 9 (subFlags x y) = decide (wrap32 x ≤ wrap32 y) :=
  conditionPassed_cmp .kCondLs x y (by decide)

theorem getElem?_append_add {α : Type} (pre l : List α) (k : Nat) :
    (pre ++ l)[pre.length + k]? = l[k]? := by
  rw [List.getElem?_append_right (by omega)]
  congr 1
  omega

theorem set_append_add {α : Type} (pre l : List α) (k : Nat) (a : α) :
    (pre ++ l).set (pre.length + k) a = pre ++ l.set k a := by
  rw [List.set_append_right _ _ (by omega)]
  congr 2
  omega

theorem set_append_length {α : Type} (pre : List α) (x y : α) :
    (pre ++ [x]).set pre.length y = pre ++ [y] := by
  have h := set_append_add pre [x] 0 y
  rw [Nat.add_zero] at h
  exact h

theorem execInsn_adr (rd x tabRec : Int) (n : Bool) (t : Target) (b : Bool) (m : Machine) :
    execInsn ⟨.raw .kThumb2Adr [rd, x, tabRec], n, t⟩ b m =
      .next (m.setReg rd (wrap32 (m.tableAddr tabRec))) := rfl

theorem execInsn_addPCR (rm : Int) (n : Bool) (t : Target) (b : Bool) (m : Machine) :
    execInsn ⟨.raw .kThumb2AddPCR [rm], n, t⟩ b m = .indirect (m.regs rm) m := rfl

theorem execInsn_loadBaseIndexed (rb ri rd scale : Int) (sz : OpSize) (n : Bool) (t : Target)
    (b : Bool) (m : Machine) :
    execInsn ⟨.loadBaseIndexed rb ri rd scale sz, n, t⟩ b m =
      .next (m.setReg rd (wrap32 (m.mem (wrap32 (m.regs rb + m.regs ri * 2 ^ scale.toNat))))) :=
  rfl

/-! ## Memory, traces and bit fields -/

@[simp] theorem setMem_regs (m : Machine) (a v : Int) : (m.setMem a v).regs = m.regs := rfl

@[simp] theorem setMem_flags (m : Machine) (a v : Int) : (m.setMem a v).flags = m.flags := rfl

@[simp] theorem setMem_itstate (m : Machine) (a v : Int) :
    (m.setMem a v).itstate = m.itstate := rfl

@[simp] theorem setMem_trace (m : Machine) (a v : Int) : (m.setMem a v).trace = m.trace := rfl

@[simp] theorem setMem_strexFails (m : Machine) (a v : Int) :
    (m.setMem a v).strexFails = m.strexFails := rfl

@[simp] theorem setMem_mem (m : Machine) (a v x : Int) :
    (m.setMem a v).mem x = if x = a then v else m.mem x := rfl

@[simp] theorem record_regs (m : Machine) (e : Event) : (m.record e).regs = m.regs := rfl

@[simp] theorem record_flags (m : Machine) (e : Event) : (m.record e).flags = m.flags := rfl

@[simp] theorem record_itstate (m : Machine) (e : Event) :
    (m.record e).itstate = m.itstate := rfl

@[simp] theorem record_mem (m : Machine) (e : Event) : (m.record e).mem = m.mem := rfl

@[simp] theorem record_strexFails (m : Machine) (e : Event) :
    (m.record e).strexFails = m.strexFails := rfl

@[simp] theorem record_trace (m : Machine) (e : Event) :
    (m.record e).trace = m.trace ++ [e] := rfl

@[simp] theorem setReg_trace (m : Machine) (r v : Int) : (m.setReg r v).trace = m.trace := rfl

@[simp] theorem setReg_strexFails (m : Machine) (r v : Int) :
    (m.setReg r v).strexFails = m.strexFails := rfl

@[simp] theorem setFlags_trace (m : Machine) (f : Option Flags) :
    (m.setFlags f).trace = m.trace := rfl

@[simp] theorem setFlags_strexFails (m : Machine) (f : Option Flags) :
    (m.setFlags f).strexFails = m.strexFails := rfl

@[simp] theorem setIT_trace (m : Machine) (s : Nat) : (m.setIT s).trace = m.trace := rfl

@[simp] theorem setIT_strexFails (m : Machine) (s : Nat) :
    (m.setIT s).strexFails = m.strexFails := rfl

@[simp] theorem clobberFlags_trace (m : Machine) (b : Bool) :
    (m.clobberFlags b).trace = m.trace := by cases b <;> rfl

@[simp] theorem clobberFlags_strexFails (m : Machine) (b : Bool) :
    (m.clobberFlags b).strexFails = m.strexFails := by cases b <;> rfl

theorem execInsn_flushAllRegs (n : Bool) (t : Target) (b : Bool) (m : Machine) :
    execInsn ⟨.flushAllRegs, n, t⟩ b m = .next m := rfl

theorem execInsn_loadValueDirectFixed (rlSrc : RegLocation) (rd : Int) (n : Bool) (t : Target)
    (b : Bool) (m : Machine) :
    execInsn ⟨.loadValueDirectFixed rlSrc rd, n, t⟩ b m =
      .next (m.setReg rd
        (if rlSrc.location = .kLocPhysReg then m.regs rlSrc.lowReg
         else wrap32 (m.frame rlSrc.sRegLow))) := rfl

theorem execInsn_genNullCheck (s r : Int) (n : Bool) (t : Target) (b : Bool) (m : Machine) :
    execInsn ⟨.genNullCheck s r, n, t⟩ b m = if m.regs r = 0 then .fault else .next m := rfl

theorem execInsn_loadWordDisp (rb d rd : Int) (n : Bool) (t : Target) (b : Bool)
    (m : Machine) :
    execInsn ⟨.loadWordDisp rb d rd, n, t⟩ b m =
      .next (m.setReg rd (wrap32 (m.mem (wrap32 (m.regs rb + d))))) := rfl

theorem execInsn_storeWordDisp (rb d rs : Int) (n : Bool) (t : Target) (b : Bool)
    (m : Machine) :
    execInsn ⟨.storeWordDisp rb d rs, n, t⟩ b m =
      .next ((m.setMem (wrap32 (m.regs rb + d)) (m.regs rs)).record
        (.store (wrap32 (m.regs rb + d)) (m.regs rs))) := rfl

theorem execInsn_andImm (rd rs v : Int) (n : Bool) (t : Target) (b : Bool) (m : Machine) :
    execInsn ⟨.opRegRegImm .kOpAnd rd rs v, n, t⟩ b m =
      .next ((m.setReg rd (and32 (m.regs rs) v)).clobberFlags b) := rfl

theorem execInsn_lslImm (r v : Int) (n : Bool) (t : Target) (b : Bool) (m : Machine) :
    execInsn ⟨.opRegImm .kOpLsl r v, n, t⟩ b m =
      .next ((m.setReg r (wrap32 (m.regs r * 2 ^ v.toNat))).clobberFlags b) := rfl

theorem execInsn_bfc (rd lsb width : Int) (n : Bool) (t : Target) (b : Bool) (m : Machine) :
    execInsn ⟨.raw .kThumb2Bfc [rd, lsb, width], n, t⟩ b m =
      .next (m.setReg rd (bitFieldClear (m.regs rd) lsb.toNat width.toNat)) := rfl

theorem execInsn_bfi (rd rn lsb width : Int) (n : Bool) (t : Target) (b : Bool)
    (m : Machine) :
    execInsn ⟨.raw .kThumb2Bfi [rd, rn, lsb, width], n, t⟩ b m =
      .next (m.setReg rd (bitFieldInsert (m.regs rd) (m.regs rn) lsb.toNat width.toNat)) := rfl

theorem execInsn_ldrex (rt rn imm : Int) (n : Bool) (t : Target) (b : Bool) (m : Machine) :
    execInsn ⟨.raw .kThumb2Ldrex [rt, rn, imm], n, t⟩ b m =
      .next (m.setReg rt (wrap32 (m.mem (wrap32 (m.regs rn + imm * 4))))) := rfl

theorem execInsn_strex (rd rt rn imm : Int) (n : Bool) (t : Target) (b : Bool)
    (m : Machine) :
    execInsn ⟨.raw .kThumb2Strex [rd, rt, rn, imm], n, t⟩ b m =
      .next
        (if m.strexFails then
          (m.record (.storeExclusive (wrap32 (m.regs rn + imm * 4)) (m.regs rt) 1)).setReg rd 1
         else
          ((m.setMem (wrap32 (m.regs rn + imm * 4)) (m.regs rt)).record
            (.storeExclusive (wrap32 (m.regs rn + imm * 4)) (m.regs rt) 0)).setReg rd 0) := rfl

theorem execInsn_subLow (ra rb : Int) (n : Bool) (t : Target) (m : Machine)
    (ha : LOWREG ra = true) (hb : LOWREG rb = true) :
    execInsn ⟨.opRegReg .kOpSub ra rb, n, t⟩ false m =
      .next ((m.setReg ra (wrap32 (m.regs ra - m.regs rb))).setFlags
        (some (subFlags (m.regs ra) (m.regs rb)))) := by
  simp [execInsn, execOpRegReg, ha, hb]

theorem execInsn_blx (r : Int) (n : Bool) (t : Target) (b : Bool) (m : Machine) :
    execInsn ⟨.opReg .kOpBlx r, n, t⟩ b m =
      .next ((m.record (.call (m.regs r))).setFlags none) := rfl

theorem execInsn_markSafepointPC (i : Nat) (n : Bool) (t : Target) (b : Bool) (m : Machine) :
    execInsn ⟨.markSafepointPC i, n, t⟩ b m = .next m := rfl

theorem execInsn_genMemBarrier (k : Nat) (n : Bool) (t : Target) (b : Bool) (m : Machine) :
    execInsn ⟨.genMemBarrier k, n, t⟩ b m = .next (m.record .barrier) := rfl

theorem conditionPassed_eq (x y : Int) :
    conditionPassed 0 (subFlags x y) = decide (wrap32 x = wrap32 y) :=
  conditionPassed_cmp .kCondEq x y (by decide)

theorem conditionPassed_ne (x y : Int) :
    conditionPassed 1 (subFlags x y) = decide (wrap32 x ≠ wrap32 y) :=
  conditionPassed_cmp .kCondNe x y (by decide)

/-- The bits 1 and 2 of a word, in place. -/
theorem land_six (n : Nat) : n &&& 6 = n / 2 % 4 * 2 := by
  apply Nat.eq_of_testBit_eq
  intro i
  rw [Nat.testBit_and]
  have e : n / 2 % 4 * 2 = ((n >>> 1) % 2 ^ 2) <<< 1 := by
    rw [Nat.shiftLeft_eq, Nat.shiftRight_eq_div_pow]; norm_num
  rw [e, Nat.testBit_shiftLeft, Nat.testBit_mod_two_pow, Nat.testBit_shiftRight]
  rcases i with _ | _ | _ | i
  · simp
  · simp [Nat.testBit]
  · simp [Nat.testBit]
  · have : Nat.testBit 6 (i + 3) = false := by
      apply Nat.testBit_lt_two_pow
      calc 6 < 2 ^ 3 := by decide
        _ ≤ 2 ^ (i + 3) := Nat.pow_le_pow_right (by decide) (by omega)
    simp [this]

/-- Masking a word with the hash-state mask keeps its bits 1 and 2. -/
theorem and32_six (w : Int) (h0 : 0 ≤ w) (h1 : w < 4294967296) :
    and32 w 6 = w / 2 % 4 * 2 := by
  have hw : wrap32 w = w := by unfold wrap32; omega
  have h6 : (wrap32 6).toNat = 6 := by decide
  unfold and32
  rw [hw, h6, land_six]
  have : ((w.toNat : Nat) : Int) = w := Int.toNat_of_nonneg h0
  omega

/-- The object pointer is fetched and checked before the lock is looked at. -/
theorem monitor_prologue (rlSrc : RegLocation) (check : List LIR) (m : Machine)
    (hc : check = [] ∨ check = [⟨.genNullCheck rlSrc.sRegLow r0, false, .null⟩])
    (hit : m.itstate = 0) (hnz : valueAt m rlSrc ≠ 0) :
    straight ([⟨.flushAllRegs, false, .null⟩,
      ⟨.loadValueDirectFixed rlSrc r0, false, .null⟩] ++ check) m =
      some (m.setReg r0 (valueAt m rlSrc)) := by
  unfold valueAt at hnz ⊢
  rcases hc with hc | hc <;> subst hc <;>
    simp [straight, stepLIR_plain, hit, execInsn_flushAllRegs, execInsn_loadValueDirectFixed,
      execInsn_genNullCheck, hnz]

/-- Clearing a bit field of a word leaves a word. -/
theorem bitFieldClear_word (w : Int) (lsb width : Nat) (h0 : 0 ≤ w) (h1 : w < 4294967296) :
    wrap32 (bitFieldClear w lsb width) = bitFieldClear w lsb width := by
  have hp : (0 : Int) < 2 ^ lsb := by positivity
  have hq : (0 : Int) < 2 ^ width := by positivity
  have a0 : 0 ≤ 2 ^ width * (w / 2 ^ lsb / 2 ^ width) :=
    Int.mul_nonneg hq.le (Int.ediv_nonneg (Int.ediv_nonneg h0 hp.le) hq.le)
  have a1 : w / 2 ^ lsb % 2 ^ width ≤ w / 2 ^ lsb := by
    have := Int.emod_add_ediv (w / 2 ^ lsb) (2 ^ width)
    linarith
  have a2 : 0 ≤ w / 2 ^ lsb % 2 ^ width := Int.emod_nonneg _ hq.ne.symm
  have a3 : w / 2 ^ lsb * 2 ^ lsb ≤ w := Int.ediv_mul_le w hp.ne.symm
  have a4 : w / 2 ^ lsb % 2 ^ width * 2 ^ lsb ≤ w / 2 ^ lsb * 2 ^ lsb :=
    Int.mul_le_mul_of_nonneg_right a1 hp.le
  have a5 : 0 ≤ w / 2 ^ lsb % 2 ^ width * 2 ^ lsb := Int.mul_nonneg a2 hp.le
  have a6 : 0 ≤ bitFieldClear w lsb width ∧ bitFieldClear w lsb width < 4294967296 := by
    unfold bitFieldClear
    constructor <;> linarith
  unfold wrap32
  omega

theorem itAdvance_14 : itAdvance 14 = 28 := rfl
theorem itAdvance_28 : itAdvance 28 = 24 := rfl
theorem itAdvance_24 : itAdvance 24 = 0 := rfl

/-! ## C1: magic-number division -/

/-- A list of length at least five starts with five elements. -/
theorem five_of_length (l : List Int) (h : 5 ≤ l.length) :
    ∃ r1 r2 r3 r4 r5 rest, l = r1 :: r2 :: r3 :: r4 :: r5 :: rest := by
  match l, h with
  | r1 :: r2 :: r3 :: r4 :: r5 :: rest, _ => exact ⟨r1, r2, r3, r4, r5, rest, rfl⟩

set_option maxHeartbeats 1000000 in
/-- Emitting the division sequence succeeds and running it stores the value
`quotient` in the destination. -/
theorem smallLiteralDivide_run
    (c : CompilationUnit) (rlSrc rlDest : RegLocation) (lit n : Int) (m : Machine)
    (hlit : lit ∈ [3, 5, 6, 7, 9, 10, 11, 12, 13, 14, 15])
    (hnodup : c.regPool.temps.Nodup) (hfree : 5 ≤ c.regPool.free.length)
    (hsrc : valueAt m rlSrc = wrap32 n)
    (hres : rlSrc.location = .kLocPhysReg → rlSrc.lowReg ∉ c.regPool.free)
    (hit : m.itstate = 0) :
    ∃ c1 m1, smallLiteralDivide .DIV_INT_LIT8 rlSrc rlDest lit c = some (true, c1) ∧
      runEmitted c c1 m = .fellThrough m1 ∧
      m1.frame rlDest.sRegLow = quotient (magicEntry lit) n := by
  obtain ⟨r1, r2, r3, r4, r5, rest, hf⟩ := five_of_length _ hfree
  have hnd : (r1 :: r2 :: r3 :: r4 :: r5 :: rest).Nodup := by
    rw [← hf]; exact hnodup.filter _
  obtain ⟨a1, f1⟩ := RegisterPool.alloc_of_free c.regPool.temps c.regPool.inUse r1 _ hnodup hf
  obtain ⟨a2, f2⟩ := RegisterPool.alloc_of_free c.regPool.temps _ r2 _ hnodup f1
  obtain ⟨a3, f3⟩ := RegisterPool.alloc_of_free c.regPool.temps _ r3 _ hnodup f2
  obtain ⟨a4, f4⟩ := RegisterPool.alloc_of_free c.regPool.temps _ r4 _ hnodup f3
  obtain ⟨a5, -⟩ := RegisterPool.alloc_of_free c.regPool.temps _ r5 _ hnodup f4
  simp only [List.nodup_cons, List.mem_cons, not_or] at hnd
  obtain ⟨⟨h12, h13, h14, h15, -⟩, ⟨h23, h24, h25, -⟩, ⟨h34, h35, -⟩, ⟨h45, -⟩, -⟩ := hnd
  have hguard : ¬(lit < 0 ∨ lit ≥ ((magicTable.length : Nat) : Int)) := by
    simp only [List.mem_cons, List.mem_singleton, List.not_mem_nil, or_false] at hlit
    simp only [magicTable, List.length_cons, List.length_nil]
    omega
  have hpat : (magicEntry lit).pattern ≠ .DivideNone := by
    simp only [List.mem_cons, List.mem_singleton, List.not_mem_nil, or_false] at hlit
    rcases hlit with h | h | h | h | h | h | h | h | h | h | h <;> subst h <;> decide
  by_cases hs : rlSrc.location = .kLocPhysReg
  · have hsr := hres hs
    rw [hf] at hsr
    simp only [List.mem_cons, not_or] at hsr
    obtain ⟨s1, s2, s3, s4, s5, -⟩ := hsr
    simp only [valueAt, hs, if_true] at hsrc
    by_cases hd : rlDest.location = .kLocPhysReg <;> cases hp : (magicEntry lit).pattern <;>
    first
    | exact absurd hp hpat
    | (simp [smallLiteralDivide, hguard, hp, gen_bind_apply, gen_pure_apply,
          oatAllocTemp, loadConstant, emit, oatAppendLIR, loadValue, oatEvalLoc, newLIR4, rawLIR,
          opRegReg, opRegRegImm, opRegRegRegShift, storeValue, encodeShift, hs, hd, a1, a2, a3, a4, a5]
       simp only [runEmitted, List.length_append, List.length_cons, List.length_nil,
          Nat.add_sub_cancel_left, Nat.reduceAdd]
       rw [run_behind _ _ _ _ (by simp)]
       simp (disch := simp [hit]) [run_succ, stepLIR_plain, execInsn_loadConstant, unshiftLIR,
          unshiftTarget, execInsn_loadValue, execInsn_storeValue, execInsn_smull, execInsn_add,
          execInsn_asrImm, execInsn_subAsr, execInsn_rsubAsr, quotient, hp, hiWord, hsrc,
          h12, h13, h14, h23, h24, h34, Ne.symm h12, Ne.symm h13, Ne.symm h14, Ne.symm h23, Ne.symm h24,
          Ne.symm h34, s1, s2, s3, s4, Ne.symm s1, Ne.symm s2, Ne.symm s3, Ne.symm s4, wrap32_wrap32])
  · simp only [valueAt, hs, if_false] at hsrc
    by_cases hd : rlDest.location = .kLocPhysReg <;> cases hp : (magicEntry lit).pattern <;>
    first
    | exact absurd hp hpat
    | (simp [smallLiteralDivide, hguard, hp, gen_bind_apply, gen_pure_apply,
          oatAllocTemp, loadConstant, emit, oatAppendLIR, loadValue, oatEvalLoc, newLIR4, rawLIR,
          opRegReg, opRegRegImm, opRegRegRegShift, storeValue, encodeShift, hs, hd, a1, a2, a3, a4, a5]
       simp only [runEmitted, List.length_append, List.length_cons, List.length_nil,
          Nat.add_sub_cancel_left, Nat.reduceAdd]
       rw [run_behind _ _ _ _ (by simp)]
       simp (disch := simp [hit]) [run_succ, stepLIR_plain, execInsn_loadConstant, unshiftLIR,
          unshiftTarget, execInsn_loadValue, execInsn_storeValue, execInsn_smull, execInsn_add,
          execInsn_asrImm, execInsn_subAsr, execInsn_rsubAsr, quotient, hp, hiWord, hsrc,
          h12, h13, h14, h15, h23, h24, h25, h34, h35, h45, Ne.symm h12, Ne.symm h13, Ne.symm h14,
          Ne.symm h15, Ne.symm h23, Ne.symm h24, Ne.symm h25, Ne.symm h34, Ne.symm h35, Ne.symm h45,
          wrap32_wrap32])

theorem tdiv_bounds (n d : Int) (hd : 0 < d) (hlo : -2147483648 ≤ n) (hhi : n < 2147483648) :
    -2147483648 ≤ Int.tdiv n d ∧ Int.tdiv n d < 2147483648 := by
  rcases Int.lt_or_le n 0 with h | h
  · rw [tdiv_of_neg n d h hd]
    have h1 : 0 ≤ (-n) / d := Int.ediv_nonneg (by omega) (le_of_lt hd)
    have h2 : (-n) / d ≤ -n := Int.ediv_le_self _ (by omega)
    omega
  · rw [tdiv_of_nonneg n d h (le_of_lt hd)]
    have h1 : 0 ≤ n / d := Int.ediv_nonneg h (le_of_lt hd)
    have h2 : n / d ≤ n := Int.ediv_le_self _ h
    omega

/-- C1: for every literal d in 3, 5, 6, 7, 9, 10, 11, 12, 13, 14, 15 and every
signed 32-bit dividend n, `smallLiteralDivide` succeeds and the instruction
sequence it emits leaves in the destination the word `quotient` (the high word
of the widening multiply by the magic number, corrected by pattern with
wrap-around arithmetic), whose signed reading is n divided by d truncated
toward zero. -/
theorem smallLiteralDivide_computes_quotient
    (c : CompilationUnit) (rlSrc rlDest : RegLocation) (lit n : Int) (m : Machine)
    (hlit : lit ∈ [3, 5, 6, 7, 9, 10, 11, 12, 13, 14, 15])
    (hlo : -2147483648 ≤ n) (hhi : n < 2147483648)
    (hnodup : c.regPool.temps.Nodup) (hfree : 5 ≤ c.regPool.free.length)
    (hsrc : valueAt m rlSrc = wrap32 n)
    (hres : rlSrc.location = .kLocPhysReg → rlSrc.lowReg ∉ c.regPool.free)
    (hit : m.itstate = 0) :
    emittedQuotient c rlSrc rlDest lit m = some (quotient (magicEntry lit) n) ∧
      signed32 (quotient (magicEntry lit) n) = Int.tdiv n lit := by
  obtain ⟨c1, m1, he, hr, hv⟩ := smallLiteralDivide_run c rlSrc rlDest lit n m hlit hnodup hfree hsrc hres hit
  have hpos : 0 < lit := by
    simp only [List.mem_cons, List.mem_singleton, List.not_mem_nil, or_false] at hlit
    omega
  obtain ⟨b1, b2⟩ := tdiv_bounds n lit hpos hlo hhi
  constructor
  · simp only [emittedQuotient, he, hr, hv]
  · rw [quotient_magicEntry lit n hlit hlo hhi, signed32_wrap32 _ b1 b2]

theorem smallLiteralDivide_computes_quotient_witness :
    emittedQuotient witnessUnit ⟨.kLocDalvikFrame, false, 5, -1, -1⟩
        ⟨.kLocDalvikFrame, false, 6, -1, -1⟩ 7 (witnessMachine (-100))
      = some (quotient (magicEntry 7) (-100)) ∧
      signed32 (quotient (magicEntry 7) (-100)) = Int.tdiv (-100) 7 :=
  smallLiteralDivide_computes_quotient witnessUnit ⟨.kLocDalvikFrame, false, 5, -1, -1⟩
    ⟨.kLocDalvikFrame, false, 6, -1, -1⟩ 7 (-100) (witnessMachine (-100))
    (by decide) (by decide) (by decide) (by decide) (by decide) (by decide) (by decide) rfl

/-! ## C2: when the division optimizer applies -/

/-- A code generator built from steps that all end in `pure true` can only
return `true`. -/
theorem bind_true {α : Type} (x : Gen α) (f : α → Gen Bool)
    (hf : ∀ a c b c1, f a c = some (b, c1) → b = true) (c : CompilationUnit) (b : Bool)
    (c1 : CompilationUnit) (h : (x >>= f) c = some (b, c1)) : b = true := by
  rw [gen_bind_apply] at h
  cases hx : x c with
  | none => simp [hx] at h
  | some r =>
      obtain ⟨a, c2⟩ := r
      simp only [hx] at h
      exact hf a c2 b c1 h

theorem pure_true (c : CompilationUnit) (b : Bool) (c1 : CompilationUnit)
    (h : (pure true : Gen Bool) c = some (b, c1)) : b = true := by
  simp only [gen_pure_apply, Option.some.injEq, Prod.mk.injEq] at h
  exact h.1.symm

/-- Whenever the division optimizer returns, for a supported literal of the
literal-divide opcode, it returns true. -/
theorem smallLiteralDivide_only_true (c : CompilationUnit) (rlSrc rlDest : RegLocation)
    (lit : Int) (hlit : lit ∈ [3, 5, 6, 7, 9, 10, 11, 12, 13, 14, 15]) (b : Bool)
    (c1 : CompilationUnit)
    (h : smallLiteralDivide .DIV_INT_LIT8 rlSrc rlDest lit c = some (b, c1)) : b = true := by
  have hguard : ¬(lit < 0 ∨ lit ≥ ((magicTable.length : Nat) : Int)) := by
    simp only [List.mem_cons, List.mem_singleton, List.not_mem_nil, or_false] at hlit
    simp only [magicTable, List.length_cons, List.length_nil]
    omega
  have hpat : (magicEntry lit).pattern ≠ .DivideNone := by
    simp only [List.mem_cons, List.mem_singleton, List.not_mem_nil, or_false] at hlit
    rcases hlit with h | h | h | h | h | h | h | h | h | h | h <;> subst h <;> decide
  unfold smallLiteralDivide at h
  simp only [hguard, hpat, if_false, ne_eq, not_true_eq_false] at h
  revert h
  apply bind_true; intro rMagic c2 b2 c3
  apply bind_true; intro _ c2 b2 c3
  apply bind_true; intro rlSrc1 c2 b2 c3
  apply bind_true; intro rlResult c2 b2 c3
  apply bind_true; intro rHi c2 b2 c3
  apply bind_true; intro rLo c2 b2 c3
  apply bind_true; intro _ c2 b2 c3
  cases hp : (magicEntry lit).pattern
  · exact absurd hp hpat
  · simp only []
    apply bind_true; intro _ c2 b2 c3
    apply bind_true; intro _ c2 b2 c3
    exact pure_true _ _ _
  · simp only []
    apply bind_true; intro _ c2 b2 c3
    apply bind_true; intro _ c2 b2 c3
    apply bind_true; intro _ c2 b2 c3
    exact pure_true _ _ _
  · simp only []
    apply bind_true; intro _ c2 b2 c3
    apply bind_true; intro _ c2 b2 c3
    apply bind_true; intro _ c2 b2 c3
    apply bind_true; intro _ c2 b2 c3
    exact pure_true _ _ _

/-- With five free scratch registers the division optimizer returns true for
every supported literal. -/
theorem smallLiteralDivide_emits (c : CompilationUnit) (rlSrc rlDest : RegLocation)
    (lit : Int) (hlit : lit ∈ [3, 5, 6, 7, 9, 10, 11, 12, 13, 14, 15])
    (hnodup : c.regPool.temps.Nodup) (hfree : 5 ≤ c.regPool.free.length) :
    ∃ c1, smallLiteralDivide .DIV_INT_LIT8 rlSrc rlDest lit c = some (true, c1) := by
  obtain ⟨r1, r2, r3, r4, r5, rest, hf⟩ := five_of_length _ hfree
  obtain ⟨a1, f1⟩ := RegisterPool.alloc_of_free c.regPool.temps c.regPool.inUse r1 _ hnodup hf
  obtain ⟨a2, f2⟩ := RegisterPool.alloc_of_free c.regPool.temps _ r2 _ hnodup f1
  obtain ⟨a3, f3⟩ := RegisterPool.alloc_of_free c.regPool.temps _ r3 _ hnodup f2
  obtain ⟨a4, f4⟩ := RegisterPool.alloc_of_free c.regPool.temps _ r4 _ hnodup f3
  obtain ⟨a5, -⟩ := RegisterPool.alloc_of_free c.regPool.temps _ r5 _ hnodup f4
  have hguard : ¬(lit < 0 ∨ lit ≥ ((magicTable.length : Nat) : Int)) := by
    simp only [List.mem_cons, List.mem_singleton, List.not_mem_nil, or_false] at hlit
    simp only [magicTable, List.length_cons, List.length_nil]
    omega
  have hpat : (magicEntry lit).pattern ≠ .DivideNone := by
    simp only [List.mem_cons, List.mem_singleton, List.not_mem_nil, or_false] at hlit
    rcases hlit with h | h | h | h | h | h | h | h | h | h | h <;> subst h <;> decide
  by_cases hs : rlSrc.location = .kLocPhysReg <;>
  by_cases hd : rlDest.location = .kLocPhysReg <;> cases hp : (magicEntry lit).pattern <;>
  first
  | exact absurd hp hpat
  | simp [smallLiteralDivide, hguard, hp, gen_bind_apply, gen_pure_apply,
      oatAllocTemp, loadConstant, emit, oatAppendLIR, loadValue, oatEvalLoc, newLIR4, rawLIR,
      opRegReg, opRegRegImm, opRegRegRegShift, storeValue, encodeShift, hs, hd, a1, a2, a3, a4, a5]

/-- An unsupported request is answered with false and changes nothing. -/
theorem smallLiteralDivide_declines (c : CompilationUnit) (op : Code)
    (rlSrc rlDest : RegLocation) (lit : Int)
    (h : op ≠ .DIV_INT_LIT8 ∨ lit ∈ [0, 1, 2, 4, 8] ∨ 16 ≤ lit ∨ lit < 0) :
    smallLiteralDivide op rlSrc rlDest lit c = some (false, c) := by
  unfold smallLiteralDivide
  by_cases hg : lit < 0 ∨ lit ≥ ((magicTable.length : Nat) : Int)
  · simp only [hg, if_true]; rfl
  · simp only [hg, if_false]
    by_cases hp : (magicEntry lit).pattern = .DivideNone
    · simp only [hp, if_true]; rfl
    · simp only [hp, if_false]
      have hop : op ≠ .DIV_INT_LIT8 := by
        rcases h with h | h | h | h
        · exact h
        · exfalso
          simp only [List.mem_cons, List.mem_singleton, List.not_mem_nil, or_false] at h
          rcases h with h | h | h | h | h <;> subst h <;> exact hp (by decide)
        · exfalso
          simp only [magicTable, List.length_cons, List.length_nil] at hg
          omega
        · exfalso; exact hg (Or.inl h)
      simp only [ne_eq, hop, not_false_eq_true, if_true]; rfl

/-- C2: `smallLiteralDivide` answers false, emitting nothing and allocating
nothing, for every opcode other than the literal divide and for every literal
among 0, 1, 2, 4, 8, at least 16, or negative; for the literal divide and a
literal among 3, 5, 6, 7, 9, 10, 11, 12, 13, 14, 15 every answer it gives is
true, and it gives one whenever five scratch registers are free; whenever it
answers false the compilation state (instruction stream and register pool
included) is unchanged. -/
theorem smallLiteralDivide_answer (c : CompilationUnit) (op : Code)
    (rlSrc rlDest : RegLocation) (lit : Int) :
    ((op ≠ .DIV_INT_LIT8 ∨ lit ∈ [0, 1, 2, 4, 8] ∨ 16 ≤ lit ∨ lit < 0) →
        smallLiteralDivide op rlSrc rlDest lit c = some (false, c)) ∧
      ((op = .DIV_INT_LIT8 ∧ lit ∈ [3, 5, 6, 7, 9, 10, 11, 12, 13, 14, 15]) →
        (∀ b c1, smallLiteralDivide op rlSrc rlDest lit c = some (b, c1) → b = true) ∧
        (c.regPool.temps.Nodup → 5 ≤ c.regPool.free.length →
          ∃ c1, smallLiteralDivide op rlSrc rlDest lit c = some (true, c1))) ∧
      (∀ c1, smallLiteralDivide op rlSrc rlDest lit c = some (false, c1) →
        c1 = c ∧ c1.lir = c.lir ∧ c1.regPool = c.regPool) := by
  refine ⟨smallLiteralDivide_declines c op rlSrc rlDest lit, ?_, ?_⟩
  · rintro ⟨hop, hlit⟩
    subst hop
    exact ⟨fun b c1 h => smallLiteralDivide_only_true c rlSrc rlDest lit hlit b c1 h,
      fun hn hf => smallLiteralDivide_emits c rlSrc rlDest lit hlit hn hf⟩
  · intro c1 h
    by_cases hs : op = .DIV_INT_LIT8 ∧ lit ∈ [3, 5, 6, 7, 9, 10, 11, 12, 13, 14, 15]
    · obtain ⟨hop, hlit⟩ := hs
      subst hop
      have := smallLiteralDivide_only_true c rlSrc rlDest lit hlit false c1 h
      cases this
    · have hd : op ≠ .DIV_INT_LIT8 ∨ lit ∈ [0, 1, 2, 4, 8] ∨ 16 ≤ lit ∨ lit < 0 := by
        by_cases hop : op = .DIV_INT_LIT8
        · right
          have hl : lit ∉ [3, 5, 6, 7, 9, 10, 11, 12, 13, 14, 15] := fun hl => hs ⟨hop, hl⟩
          simp only [List.mem_cons, List.mem_singleton, List.not_mem_nil, or_false] at hl ⊢
          omega
        · exact Or.inl hop
      rw [smallLiteralDivide_declines c op rlSrc rlDest lit hd] at h
      simp only [Option.some.injEq, Prod.mk.injEq, true_and] at h
      subst h
      exact ⟨rfl, rfl, rfl⟩

theorem smallLiteralDivide_answer_witness :
    (smallLiteralDivide .DIV_INT_LIT8 ⟨.kLocDalvikFrame, false, 5, -1, -1⟩
        ⟨.kLocDalvikFrame, false, 6, -1, -1⟩ 8 witnessUnit).map Prod.fst = some false ∧
      (smallLiteralDivide .REM_INT_LIT8 ⟨.kLocDalvikFrame, false, 5, -1, -1⟩
        ⟨.kLocDalvikFrame, false, 6, -1, -1⟩ 7 witnessUnit).map Prod.fst = some false ∧
      ∃ c1, smallLiteralDivide .DIV_INT_LIT8 ⟨.kLocDalvikFrame, false, 5, -1, -1⟩
        ⟨.kLocDalvikFrame, false, 6, -1, -1⟩ 7 witnessUnit = some (true, c1) := by
  have h8 := (smallLiteralDivide_answer witnessUnit .DIV_INT_LIT8
    ⟨.kLocDalvikFrame, false, 5, -1, -1⟩ ⟨.kLocDalvikFrame, false, 6, -1, -1⟩ 8).1
    (by decide)
  have hr := (smallLiteralDivide_answer witnessUnit .REM_INT_LIT8
    ⟨.kLocDalvikFrame, false, 5, -1, -1⟩ ⟨.kLocDalvikFrame, false, 6, -1, -1⟩ 7).1
    (by decide)
  have h7 := ((smallLiteralDivide_answer witnessUnit .DIV_INT_LIT8
    ⟨.kLocDalvikFrame, false, 5, -1, -1⟩ ⟨.kLocDalvikFrame, false, 6, -1, -1⟩ 7).2.1
    (by decide)).2 (by decide) (by decide)
  rw [h8, hr]
  exact ⟨rfl, rfl, h7⟩

/-! ## C3: the IT mask -/

/-- The instruction `opIT` appends, with its mask written out. -/
theorem opIT_emits (c : CompilationUnit) (code : ArmConditionCode) (g : List Char)
    (hlen : g.length ≤ 3) :
    ∃ mask : Nat, opIT code (String.mk g) c =
      some (c.lir.length, { c with lir := c.lir ++ [rawLIR .kThumb2It [code.toNat, mask]] }) ∧
      itMask c code (String.mk g) = some mask ∧
      mask = ((if g.length = 3 ∨ g.length = 2 ∨ g.length = 1 then
                (if g.getD 0 (Char.ofNat 0) = 'T' then code.toNat % 2 else (code.toNat % 2) ^^^ 1)
              else 0) <<< 3) |||
             ((if g.length = 3 ∨ g.length = 2 then
                (if g.getD 1 (Char.ofNat 0) = 'T' then code.toNat % 2 else (code.toNat % 2) ^^^ 1)
              else 0) <<< 2) |||
             ((if g.length = 3 then
                (if g.getD 2 (Char.ofNat 0) = 'T' then code.toNat % 2 else (code.toNat % 2) ^^^ 1)
              else 0) <<< 1) ||| (1 <<< (3 - g.length)) := by
  have hb : code.toNat &&& 1 = code.toNat % 2 := Nat.and_one_is_mod _
  have hl : ¬ g.length > 3 := by omega
  refine ⟨_, ?_, ?_, rfl⟩
  · simp only [opIT, hl, if_false, hb, newLIR2, oatAppendLIR]
  · simp only [itMask, opIT, hl, if_false, hb, newLIR2, oatAppendLIR]
    simp [rawLIR]

/-- C3: for every base condition code and every guide of length 0 to 3 over
T and E, `opIT` emits an IT instruction whose mask has, for each i below the
guide's length, bit (3 - i) equal to bit 0 of the condition when the guide reads
T at i and to its complement when it reads E; bit (3 - length) is 1; every bit
below that is 0; decoding the mask down to the terminating 1-bit gives the guide
back; the empty guide gives 0b1000. -/
theorem opIT_mask_bits (c : CompilationUnit) (code : ArmConditionCode) (g : List Char)
    (hlen : g.length ≤ 3) (hTE : ∀ ch ∈ g, ch = 'T' ∨ ch = 'E') :
    ∃ mask : Nat, itMask c code (String.mk g) = some mask ∧
      (∀ i ch, g[i]? = some ch →
        (mask / 2 ^ (3 - i)) % 2 = if ch = 'T' then code.toNat % 2 else 1 - code.toNat % 2) ∧
      (mask / 2 ^ (3 - g.length)) % 2 = 1 ∧
      (∀ j, j < 3 - g.length → (mask / 2 ^ j) % 2 = 0) ∧
      decodeIT code.toNat mask = g ∧
      (g = [] → mask = 8) := by
  obtain ⟨mask, -, hm, hv⟩ := opIT_emits c code g hlen
  refine ⟨mask, hm, ?_⟩
  subst hv
  clear hm
  simp only [decodeIT]
  rcases Nat.mod_two_eq_zero_or_one code.toNat with hc | hc <;> simp only [hc] <;>
  match g, hlen, hTE with
  | [], _, _ =>
      refine ⟨fun i ch h => by simp at h, by decide, ?_, by decide, fun _ => by decide⟩
      intro j hj
      simp only [List.length_nil, Nat.sub_zero] at hj
      interval_cases j <;> decide
  | [a], _, h =>
      rcases h a (by simp) with ha | ha <;> subst ha <;>
      refine ⟨?_, by decide, ?_, by decide, fun h => by simp at h⟩
      all_goals first
        | (intro i ch hi
           rcases i with _ | i <;> simp at hi
           subst hi
           decide)
        | (intro j hj
           simp only [List.length_cons, List.length_nil] at hj
           interval_cases j <;> decide)
  | [a, b], _, h =>
      rcases h a (by simp) with ha | ha <;> rcases h b (by simp) with hb | hb <;>
      subst ha <;> subst hb <;>
      refine ⟨?_, by decide, ?_, by decide, fun h => by simp at h⟩
      all_goals first
        | (intro i ch hi
           rcases i with _ | _ | i <;> simp at hi <;> subst hi <;> decide)
        | (intro j hj
           simp only [List.length_cons, List.length_nil] at hj
           interval_cases j
           decide)
  | [a, b, d], _, h =>
      rcases h a (by simp) with ha | ha <;> rcases h b (by simp) with hb | hb <;>
      rcases h d (by simp) with hd | hd <;>
      subst ha <;> subst hb <;> subst hd <;>
      refine ⟨?_, by decide, ?_, by decide, fun h => by simp at h⟩
      all_goals first
        | (intro i ch hi
           rcases i with _ | _ | _ | i <;> simp at hi <;> subst hi <;> decide)
        | (intro j hj
           simp only [List.length_cons, List.length_nil] at hj
           omega)

theorem opIT_mask_bits_witness :
    ∃ mask : Nat, itMask witnessUnit .kArmCondNe (String.mk ['T', 'E']) = some mask ∧
      (∀ i ch, ['T', 'E'][i]? = some ch →
        (mask / 2 ^ (3 - i)) % 2 =
          if ch = 'T' then ArmConditionCode.kArmCondNe.toNat % 2
          else 1 - ArmConditionCode.kArmCondNe.toNat % 2) ∧
      (mask / 2 ^ (3 - ['T', 'E'].length)) % 2 = 1 ∧
      (∀ j, j < 3 - ['T', 'E'].length → (mask / 2 ^ j) % 2 = 0) ∧
      decodeIT ArmConditionCode.kArmCondNe.toNat mask = ['T', 'E'] ∧
      (['T', 'E'] = [] → mask = 8) :=
  opIT_mask_bits witnessUnit .kArmCondNe ['T', 'E'] (by decide) (by decide)

/-! ## C4: argument resolution -/

/-- A single general-purpose move, flagged as a no-op or not, leaves the source
value in the destination. -/
theorem opRegCopy_step (c : CompilationUnit) (rDest rSrc : Int) (m : Machine)
    (hd : FPREG rDest = false) (hs : FPREG rSrc = false) (hit : m.itstate = 0) :
    ∃ m1, stepLIR (opRegCopyNoInsert c rDest rSrc) m = .next m1 ∧
      m1.regs rDest = m.regs rSrc ∧ (∀ x, x ≠ rDest → m1.regs x = m.regs x) ∧
      m1.itstate = 0 := by
  unfold opRegCopyNoInsert
  simp only [hd, hs, Bool.or_self, Bool.false_eq_true, if_false]
  split
  · rename_i h
    simp only [Bool.and_eq_true, beq_iff_eq] at h
    refine ⟨m, ?_, by rw [h.2], fun _ _ => rfl, hit⟩
    simp [stepLIR]
  · refine ⟨m.setReg rDest (m.regs rSrc), ?_, by simp, fun x hx => by simp [hx], by simp [hit]⟩
    simp only [rawLIR]
    split_ifs <;> rw [stepLIR_plain _ _ _ hit] <;> rfl

/-- The move built by `opRegCopyNoInsert` does not depend on the stream. -/
theorem opRegCopyNoInsert_lir (c : CompilationUnit) (l : List LIR) (a b : Int) :
    opRegCopyNoInsert { c with lir := l } a b = opRegCopyNoInsert c a b := rfl

/-- Two instructions that both fall through, run behind a prefix. -/
theorem run_two (pre : List LIR) (i1 i2 : LIR) (m m1 m2 : Machine)
    (h1 : stepLIR i1 m = .next m1) (h2 : stepLIR i2 m1 = .next m2) :
    run (pre ++ [i1, i2]) 3 pre.length m = .fellThrough m2 := by
  rw [run_succ, getElem?_append_length]
  simp only [h1]
  rw [run_succ]
  have : (pre ++ [i1, i2])[pre.length + 1]? = some i2 := by
    rw [List.getElem?_append_right (Nat.le_add_right _ _)]
    simp
  rw [this]
  simp only [h2]
  rw [run_succ]
  have : (pre ++ [i1, i2])[pre.length + 1 + 1]? = none := by
    rw [List.getElem?_append_right (by omega)]
    simp
    omega
  rw [this]

/-- Outside the exact swap the wide copy is right: for general-purpose
registers with `destLo ≠ destHi`, unless `srcHi = destLo` and `srcLo = destHi`
both hold, the destination pair ends up holding the old source pair. -/
theorem opRegCopyWide_copies (c : CompilationUnit) (destLo destHi srcLo srcHi : Int)
    (m : Machine) (h1 : FPREG destLo = false) (h2 : FPREG destHi = false)
    (h3 : FPREG srcLo = false) (h4 : FPREG srcHi = false) (hne : destLo ≠ destHi)
    (hswap : ¬(srcHi = destLo ∧ srcLo = destHi)) (hit : m.itstate = 0) :
    copiedPair c destLo destHi srcLo srcHi m = some (m.regs srcLo, m.regs srcHi) := by
  by_cases hov : srcHi = destLo
  · subst hov
    have hsl : srcLo ≠ destHi := fun h => hswap ⟨rfl, h⟩
    obtain ⟨m1, e1, v1, k1, i1⟩ := opRegCopy_step c destHi srcHi m h2 h4 hit
    obtain ⟨m2, e2, v2, k2, i2⟩ := opRegCopy_step c srcHi srcLo m1 h1 h3 i1
    simp only [copiedPair, opRegCopyWide, h1, h2, h3, h4, Bool.and_self, Bool.false_eq_true,
      if_false, if_true, opRegCopy, getUnit, oatAppendLIR, gen_bind_apply, gen_pure_apply,
      runEmitted, List.length_append, List.length_cons, List.length_nil, List.append_assoc,
      List.singleton_append, Nat.add_sub_cancel_left, Nat.reduceAdd, opRegCopyNoInsert_lir]
    rw [run_two c.lir _ _ m m1 m2 e1 e2]
    simp only [Option.some.injEq, Prod.mk.injEq]
    refine ⟨by rw [v2, k1 srcLo hsl], ?_⟩
    rw [k2 destHi (Ne.symm hne), v1]
  · obtain ⟨m1, e1, v1, k1, i1⟩ := opRegCopy_step c destLo srcLo m h1 h3 hit
    obtain ⟨m2, e2, v2, k2, i2⟩ := opRegCopy_step c destHi srcHi m1 h2 h4 i1
    simp only [copiedPair, opRegCopyWide, h1, h2, h3, h4, Bool.and_self, Bool.false_eq_true,
      if_false, hov, opRegCopy, getUnit, oatAppendLIR, gen_bind_apply, gen_pure_apply,
      runEmitted, List.length_append, List.length_cons, List.length_nil, List.append_assoc,
      List.singleton_append, Nat.add_sub_cancel_left, Nat.reduceAdd, opRegCopyNoInsert_lir]
    rw [run_two c.lir _ _ m m1 m2 e1 e2]
    simp only [Option.some.injEq, Prod.mk.injEq]
    refine ⟨by rw [k2 destLo hne, v1], ?_⟩
    rw [v2, k1 srcHi hov]

/-- C5 (code defect): with the source pair (r0, r1) and the destination pair
(r1, r0), both general-purpose and with `destLo ≠ destHi`, the two moves
`opRegCopyWide` emits leave 20 (the old r1) in both halves of the destination,
although the low half should hold the old r0 = 10. -/
theorem opRegCopyWide_swap_clobbers :
    copiedPair witnessUnit 1 0 0 1 pairMachine = some (20, 20) ∧
      pairMachine.regs 0 = 10 ∧ pairMachine.regs 1 = 20 ∧
      FPREG 0 = false ∧ FPREG 1 = false := by
  decide

/-! ## C6: fused long compare-and-branch -/

/-- The fused long compare, run on registers that hold the operands, reaches
the taken label exactly when the 64-bit comparison holds, and otherwise the
not-taken label or the instruction behind the sequence. -/
theorem fusedCode_run (cond : ConditionCode) (h1 l1 h2 l2 tk ft : Int) (m : Machine)
    (aHi aLo bHi bLo : Int)
    (hcond : cond ∈ [ConditionCode.kCondEq, .kCondNe, .kCondLt, .kCondLe, .kCondGt, .kCondGe])
    (hid : tk ≠ ft) (hit : m.itstate = 0)
    (haH : -2147483648 ≤ aHi ∧ aHi < 2147483648) (haL : 0 ≤ aLo ∧ aLo < 4294967296)
    (hbH : -2147483648 ≤ bHi ∧ bHi < 2147483648) (hbL : 0 ≤ bLo ∧ bLo < 4294967296)
    (r1 : m.regs h1 = wrap32 aHi) (r2 : m.regs l1 = aLo)
    (r3 : m.regs h2 = wrap32 bHi) (r4 : m.regs l2 = bLo) :
    ((run (fusedCode cond h1 l1 h2 l2 tk ft)
        ((fusedCode cond h1 l1 h2 l2 tk ft).length + 1) 0 m).block? = some tk ↔
        compare64 cond (long64 aHi aLo) (long64 bHi bLo)) ∧
      (¬ compare64 cond (long64 aHi aLo) (long64 bHi bLo) →
        (run (fusedCode cond h1 l1 h2 l2 tk ft)
        ((fusedCode cond h1 l1 h2 l2 tk ft).length + 1) 0 m).block? = some ft ∨
        (run (fusedCode cond h1 l1 h2 l2 tk ft)
        ((fusedCode cond h1 l1 h2 l2 tk ft).length + 1) 0 m).fell = true) := by
  have s1 : signed32 (wrap32 aHi) = aHi := signed32_wrap32 aHi haH.1 haH.2
  have s2 : signed32 (wrap32 bHi) = bHi := signed32_wrap32 bHi hbH.1 hbH.2
  have w1 : wrap32 aLo = aLo := by unfold wrap32; omega
  have w2 : wrap32 bLo = bLo := by unfold wrap32; omega
  have w3 : wrap32 aHi = wrap32 bHi ↔ aHi = bHi := by unfold wrap32; omega
  simp only [List.mem_cons, List.mem_singleton, List.not_mem_nil, or_false] at hcond
  rcases hcond with h | h | h | h | h | h <;> subst h <;>
    simp (disch := first | decide | simp [hit]) only [fusedCode, lowWordCondition, List.cons_append,
      List.nil_append, run_succ_after, List.getElem?_cons_zero, List.getElem?_cons_succ,
      stepLIR_plain, execInsn_cmp, execInsn_condBranch, afterStep_ite, afterStep_next,
      afterStep_block, setFlags_regs, r1, r2, r3, r4,
      execCondBranch_cmp, condHolds, s1, s2, w1, w2, w3,
      decide_eq_true_eq, compare64, long64, List.getElem?_nil, wrap32_wrap32,
      List.length_cons, List.length_nil, Nat.reduceAdd] <;>
    split_ifs <;>
    simp only [Outcome.block?, Outcome.fell, Option.some.injEq, hid, Ne.symm hid, false_iff,
      true_iff, iff_false, iff_true, or_true, true_or, or_false, false_or, not_true_eq_false,
      not_false_eq_true, implies_true, reduceCtorEq, false_implies, imp_false, not_not,
      and_true, true_and] <;>
    (try simp only [ne_eq, w3, not_not] at *) <;>
    omega

/-- The high-word branches of the fused compare, as emitted. -/
theorem fusedHighBranches_emits (cond : ConditionCode) (tk ft : Int)
    (hcond : cond ∈ [ConditionCode.kCondEq, .kCondNe, .kCondLt, .kCondLe, .kCondGt, .kCondGe]) :
    ∃ code, (∀ c : CompilationUnit, fusedHighBranches (some cond) (.block tk) (.block ft) c =
        some (lowWordCondition cond, { c with lir := c.lir ++ code })) ∧
      ∀ h1 l1 h2 l2, fusedCode cond h1 l1 h2 l2 tk ft =
        [⟨.opRegReg .kOpCmp h1 h2, false, .null⟩] ++ code ++
          [⟨.opRegReg .kOpCmp l1 l2, false, .null⟩,
           ⟨.opCondBranch (lowWordCondition cond), false, .block tk⟩] := by
  simp only [List.mem_cons, List.mem_singleton, List.not_mem_nil, or_false] at hcond
  rcases hcond with h | h | h | h | h | h <;> subst h <;>
    exact ⟨_, fun c => by simp [fusedHighBranches, opCondBranch, oatAppendLIR]; rfl,
      fun _ _ _ _ => rfl⟩

/-- The fused compare has no target inside the stream. -/
theorem fusedCode_unshift (cond : ConditionCode) (h1 l1 h2 l2 tk ft : Int) (k : Nat) :
    (fusedCode cond h1 l1 h2 l2 tk ft).map (unshiftLIR k) = fusedCode cond h1 l1 h2 l2 tk ft := by
  cases cond <;> rfl

/-- No instruction of the fused compare points into the stream. -/
theorem fusedCode_targets (cond : ConditionCode) (h1 l1 h2 l2 tk ft : Int) (k : Nat) :
    ∀ i ∈ fusedCode cond h1 l1 h2 l2 tk ft, ∀ j, i.target = .lir j → k ≤ j := by
  cases cond <;> simp [fusedCode]

/-- The fused compare ends in the low-word branch to the taken label. -/
theorem fusedCode_getLast (cond : ConditionCode) (h1 l1 h2 l2 tk ft : Int) (pre : List LIR) :
    (pre ++ fusedCode cond h1 l1 h2 l2 tk ft).getLast? =
      some ⟨.opCondBranch (lowWordCondition cond), false, .block tk⟩ := by
  unfold fusedCode
  rw [← List.append_assoc]
  exact List.getLast?_append_cons _ _ [_] ▸ rfl

/-- C6: for each of the conditions Eq, Ne, Lt, Le, Gt, Ge and all signed
64-bit operands a = (aHi, aLo) and b = (bHi, bLo), held at the two wide
sources of the instruction, `genFusedLongCmpBranch` returns, and running what
it emitted ends at the taken label exactly when `a cond b` holds; when it does
not hold the run ends at the not-taken label or runs past the final branch.
The final instruction is the low-word branch to the taken label, under the
substituted condition (Lt to Cc, Le to Ls, Gt to Hi, Ge to Cs). -/
theorem genFusedLongCmpBranch_branches (c : CompilationUnit) (bb tk ft : BasicBlock) (mir : MIR)
    (uses : List Int) (s1 s2 : Int) (cond : ConditionCode) (m : Machine)
    (aHi aLo bHi bLo : Int)
    (htk : bb.taken = some tk) (hft : bb.fallThrough = some ft) (hid : tk.id ≠ ft.id)
    (huses : mir.ssaRep = some uses) (hu0 : uses[0]? = some s1) (hu2 : uses[2]? = some s2)
    (hcc : ConditionCode.ofInt mir.arg0 = some cond)
    (hcond : cond ∈ [ConditionCode.kCondEq, .kCondNe, .kCondLt, .kCondLe, .kCondGt, .kCondGe])
    (haH : -2147483648 ≤ aHi ∧ aHi < 2147483648) (haL : 0 ≤ aLo ∧ aLo < 4294967296)
    (hbH : -2147483648 ≤ bHi ∧ bHi < 2147483648) (hbL : 0 ≤ bLo ∧ bLo < 4294967296)
    (hv1 : wideValueAt m (c.regLocation s1) = (aLo, wrap32 aHi))
    (hv2 : wideValueAt m (c.regLocation s2) = (bLo, wrap32 bHi))
    (hn : c.regPool.temps.Nodup) (hf : 4 ≤ c.regPool.free.length)
    (hr1 : (c.regLocation s1).location = .kLocPhysReg →
      (c.regLocation s1).lowReg ∉ c.regPool.free ∧ (c.regLocation s1).highReg ∉ c.regPool.free)
    (hr2 : (c.regLocation s2).location = .kLocPhysReg →
      (c.regLocation s2).lowReg ∉ c.regPool.free ∧ (c.regLocation s2).highReg ∉ c.regPool.free)
    (hit : m.itstate = 0) :
    ∃ c1, genFusedLongCmpBranch bb mir c = some ((), c1) ∧
      ((runEmitted c c1 m).block? = some tk.id ↔
        compare64 cond (long64 aHi aLo) (long64 bHi bLo)) ∧
      (¬ compare64 cond (long64 aHi aLo) (long64 bHi bLo) →
        (runEmitted c c1 m).block? = some ft.id ∨ (runEmitted c c1 m).fell = true) ∧
      c1.lir.getLast? = some ⟨.opCondBranch (lowWordCondition cond), false, .block tk.id⟩ := by
  obtain ⟨loc1, loads1, use1, m1, e1, st1, it1, fr1, v1, k1, ⟨n1, hn1, f1⟩, nl1, nh1⟩ :=
    loadValueWide_run c (c.regLocation s1) .kCoreReg m hn (by omega) hit hr1
  have hf1 : 2 ≤ (RegisterPool.free ⟨c.regPool.temps, use1⟩).length := by
    rw [f1, List.length_drop]; omega
  have hr2a : (c.regLocation s2).location = .kLocPhysReg →
      (c.regLocation s2).lowReg ∉ RegisterPool.free ⟨c.regPool.temps, use1⟩ ∧
        (c.regLocation s2).highReg ∉ RegisterPool.free ⟨c.regPool.temps, use1⟩ := by
    intro hp
    rw [f1]
    exact ⟨fun h => (hr2 hp).1 (List.mem_of_mem_drop h),
      fun h => (hr2 hp).2 (List.mem_of_mem_drop h)⟩
  obtain ⟨loc2, loads2, use2, m2, e2, st2, it2, fr2, v2, k2, -, -, -⟩ :=
    loadValueWide_run { c with lir := c.lir ++ loads1, regPool := ⟨c.regPool.temps, use1⟩ }
      (c.regLocation s2) .kCoreReg m1 hn hf1 it1 hr2a
  obtain ⟨code, hcode, hshape⟩ := fusedHighBranches_emits cond tk.id ft.id hcond
  have hgen : genFusedLongCmpBranch bb mir c = some ((),
      { c with
        lir := c.lir ++ ((loads1 ++ loads2) ++
          fusedCode cond loc1.highReg loc1.lowReg loc2.highReg loc2.lowReg tk.id ft.id),
        regPool := ⟨c.regPool.temps, use2⟩ }) := by
    simp [genFusedLongCmpBranch, blockLabel, htk, hft, oatGetSrcWide, oatGetSrc, getUnit, huses,
      hu0, hu2, e1, e2, hcc, opRegReg, emit, oatAppendLIR, hcode, opCondBranch, hshape]
  refine ⟨_, hgen, ?_⟩
  have hrun := runEmitted_loads_core c
    { c with
      lir := c.lir ++ ((loads1 ++ loads2) ++
        fusedCode cond loc1.highReg loc1.lowReg loc2.highReg loc2.lowReg tk.id ft.id),
      regPool := ⟨c.regPool.temps, use2⟩ }
    (loads1 ++ loads2)
    (fusedCode cond loc1.highReg loc1.lowReg loc2.highReg loc2.lowReg tk.id ft.id) m m2 rfl
    (straight_append _ _ _ _ _ st1 st2) (fusedCode_targets _ _ _ _ _ _ _ _)
  rw [hrun, fusedCode_unshift]
  have hw : wideValueAt m1 (c.regLocation s2) = wideValueAt m (c.regLocation s2) := by
    unfold wideValueAt
    split
    · next hp => rw [k1 _ (hr2 hp).1, k1 _ (hr2 hp).2]
    · rw [fr1]
  rw [hv1] at v1
  rw [hw, hv2] at v2
  simp only [Prod.mk.injEq] at v1 v2
  have r1 : m2.regs loc1.highReg = wrap32 aHi := by rw [k2 _ nh1, v1.2]
  have r2 : m2.regs loc1.lowReg = aLo := by rw [k2 _ nl1, v1.1]
  have hcore := fusedCode_run cond loc1.highReg loc1.lowReg loc2.highReg loc2.lowReg tk.id ft.id
    m2 aHi aLo bHi bLo hcond hid it2 haH haL hbH hbL r1 r2 v2.2 v2.1
  refine ⟨hcore.1, hcore.2, ?_⟩
  show (c.lir ++ (loads1 ++ loads2 ++ fusedCode cond loc1.highReg loc1.lowReg loc2.highReg
    loc2.lowReg tk.id ft.id)).getLast? = _
  rw [← List.append_assoc]
  exact fusedCode_getLast _ _ _ _ _ _ _ _

theorem genFusedLongCmpBranch_branches_witness :
    ∃ c1, genFusedLongCmpBranch fusedBlock (fusedMir 11) witnessUnit = some ((), c1) ∧
      ((runEmitted witnessUnit c1 (fusedMachine 4294967295 5 0 7)).block? = some 1 ↔
        compare64 .kCondLt (long64 (-1) 5) (long64 0 7)) ∧
      (¬ compare64 .kCondLt (long64 (-1) 5) (long64 0 7) →
        (runEmitted witnessUnit c1 (fusedMachine 4294967295 5 0 7)).block? = some 2 ∨
          (runEmitted witnessUnit c1 (fusedMachine 4294967295 5 0 7)).fell = true) ∧
      c1.lir.getLast? = some ⟨.opCondBranch (lowWordCondition .kCondLt), false, .block 1⟩ :=
  genFusedLongCmpBranch_branches witnessUnit fusedBlock (.mk 1 none none none)
    (.mk 2 none none none) (fusedMir 11) [0, 1, 2, 3] 0 2 .kCondLt
    (fusedMachine 4294967295 5 0 7) (-1) 5 0 7 rfl rfl (by decide) rfl rfl rfl rfl (by decide)
    (by decide) (by decide) (by decide) (by decide) (by decide) (by decide) (by decide)
    (by decide) (by decide) (by decide) rfl

/-! ## C7: 64-bit three-way compare -/

theorem modifiedImmediate_neg_one : modifiedImmediate (-1) = 1023 := by decide

theorem thumbExpandImm_1023 : thumbExpandImm 1023 = 4294967295 := by decide

theorem opIT_hi_else (c : CompilationUnit) :
    opIT .kArmCondHi "E" c =
      some (c.lir.length, { c with lir := c.lir ++ [⟨.raw .kThumb2It [8, 12], false, .null⟩] }) :=
  rfl

/-- The three-way compare on operands already in registers, as emitted. -/
theorem genCmpLong_emits (c : CompilationUnit) (rlDest loc1 loc2 : RegLocation) (t : Int)
    (rest : List Int) (hp1 : loc1.location = .kLocPhysReg) (hp2 : loc2.location = .kLocPhysReg)
    (hn : c.regPool.temps.Nodup) (hf : c.regPool.free = t :: rest) :
    genCmpLong rlDest loc1 loc2 c = some ((),
      { c with
        lir := c.lir ++ cmpLongCode loc1.highReg loc1.lowReg loc2.highReg loc2.lowReg t
          rlDest.sRegLow c.lir.length
        regPool := ⟨c.regPool.temps, (t :: c.regPool.inUse).filter (fun x => decide (x ≠ t))⟩ }) := by
  obtain ⟨a1, -⟩ := RegisterPool.alloc_of_free c.regPool.temps c.regPool.inUse t _ hn hf
  simp [-List.getElem?_eq_getElem, List.getElem?_cons_zero, opIT_hi_else, genCmpLong, loadValueWide, hp1, hp2, oatAllocTemp, a1, loadConstant, emit, oatAppendLIR,
    opRegReg, opCondBranch, opRegRegReg, newLIR2, newLIR0, rawLIR, genBarrier, storeValue,
    oatFreeTemp, setTarget, getTarget, LOC_C_RETURN, modifiedImmediate_neg_one,
    getElem?_append_add, set_append_add, ArmConditionCode.toNat, cmpLongCode]

theorem execInsn_it_hi_else (n : Bool) (t : Target) (b : Bool) (m : Machine) :
    execInsn ⟨.raw .kThumb2It [8, 12], n, t⟩ b m = .next (m.setIT 140) := rfl

theorem itAdvance_140 : itAdvance 140 = 152 := rfl

theorem itAdvance_152 : itAdvance 152 = 0 := rfl

set_option maxHeartbeats 1000000 in
/-- The three-way compare, run on registers that hold the operands, falls
through with the result in `t` and in the home location `dest`. -/
theorem cmpLongCode_run (h1 l1 h2 l2 t dest : Int) (base : Nat) (m : Machine)
    (aHi aLo bHi bLo : Int) (hit : m.itstate = 0)
    (haH : -2147483648 ≤ aHi ∧ aHi < 2147483648) (haL : 0 ≤ aLo ∧ aLo < 4294967296)
    (hbH : -2147483648 ≤ bHi ∧ bHi < 2147483648) (hbL : 0 ≤ bLo ∧ bLo < 4294967296)
    (r1 : m.regs h1 = wrap32 aHi) (r2 : m.regs l1 = aLo)
    (r3 : m.regs h2 = wrap32 bHi) (r4 : m.regs l2 = bLo)
    (d1 : h1 ≠ t) (d2 : l1 ≠ t) (d3 : h2 ≠ t) (d4 : l2 ≠ t) :
    ∃ m1, run ((cmpLongCode h1 l1 h2 l2 t dest base).map (unshiftLIR base)) 15 0 m =
        .fellThrough m1 ∧
      m1.regs t = wrap32 (threeWay (long64 aHi aLo) (long64 bHi bLo)) ∧
      m1.frame dest = m1.regs t := by
  have s1 : signed32 (wrap32 aHi) = aHi := signed32_wrap32 aHi haH.1 haH.2
  have s2 : signed32 (wrap32 bHi) = bHi := signed32_wrap32 bHi hbH.1 hbH.2
  have w1 : wrap32 aLo = aLo := by unfold wrap32; omega
  have w2 : wrap32 bLo = bLo := by unfold wrap32; omega
  have n1 : wrap32 (-1) = 4294967295 := by decide
  have n2 : wrap32 (0 - 4294967295) = 1 := by decide
  have n3 : wrap32 1 = 1 := by decide
  have n4 : wrap32 (0 - 1) = 4294967295 := by decide
  simp (disch := first | decide | simp [hit, inITBlock, itAdvance, Insn.isPseudo]) only [cmpLongCode, List.map_cons, List.map_nil,
    unshiftLIR, unshiftTarget, Nat.add_sub_cancel_left,
    run_succ_after, List.getElem?_cons_zero, List.getElem?_cons_succ,
    stepLIR_plain, stepLIR_inIT, stepLIR_pseudo, execInsn_cmp, execInsn_condBranch, afterStep_ite,
    afterStep_next, afterStep_lir, execInsn_loadConstant, execInsn_subs, execInsn_it_hi_else, itAdvance_140, itAdvance_152, Nat.reduceMod, Nat.reduceDiv, Nat.reduceMul,
    Nat.reduceAdd, conditionPassed_hi, conditionPassed_ls, Nat.reduceEqDiff, if_true, if_false,
    OfNat.ofNat_ne_zero, ↓reduceIte,
    execInsn_movImm, execInsn_genBarrier, execInsn_label, execInsn_neg, execInsn_storeValue,
    execCondBranch_cmp, condHolds, decide_eq_true_eq, List.getElem?_nil,
    setReg_regs, setFlags_regs, setFlags_flags, setFlags_itstate, setFlags_frame, setIT_regs,
    setIT_flags, setIT_itstate, setIT_frame, clobberFlags_regs, clobberFlags_itstate,
    clobberFlags_frame, clobberFlags_true, setReg_flags, setReg_itstate, setReg_frame,
    clobberFlags_flags_false, d1, d2, d3, d4, r1, r2, r3, r4, s1, s2, w1, w2]
  have n5 : thumbExpandImm 1023 = 4294967295 := thumbExpandImm_1023
  split_ifs <;>
    refine ⟨_, rfl, ?_, ?_⟩ <;>
    simp only [setFrame_regs, setFrame_frame, clobberFlags_regs, setReg_regs, setFlags_regs,
      setIT_regs, if_true, n1, n2, n3, n4, n5, threeWay, long64] <;>
    (try split_ifs) <;>
    first
    | omega
    | (unfold wrap32; omega)

/-- A wide load answers a location held in registers. -/
theorem loadValueWide_phys (loc loc1 : RegLocation) (k : RegisterClass) (c c1 : CompilationUnit)
    (h : loadValueWide loc k c = some (loc1, c1)) : loc1.location = .kLocPhysReg := by
  by_cases hp : loc.location = .kLocPhysReg
  · simp [loadValueWide, hp] at h
    rw [← h.1]; exact hp
  · simp only [loadValueWide, hp, if_false, gen_bind_apply] at h
    cases h1 : oatAllocTemp c with
    | none => simp [h1] at h
    | some p1 =>
        simp only [h1] at h
        cases h2 : oatAllocTemp p1.2 with
        | none => simp [h2] at h
        | some p2 =>
            simp [h2, emit, oatAppendLIR] at h
            rw [← h.1]

/-- Loading the operands first and comparing them in their registers is the
whole three-way compare. -/
theorem genCmpLong_loaded (rlDest rlSrc1 rlSrc2 loc1 loc2 : RegLocation)
    (c c1 c2 : CompilationUnit)
    (e1 : loadValueWide rlSrc1 .kCoreReg c = some (loc1, c1))
    (e2 : loadValueWide rlSrc2 .kCoreReg c1 = some (loc2, c2)) :
    genCmpLong rlDest rlSrc1 rlSrc2 c = genCmpLong rlDest loc1 loc2 c2 := by
  have hp1 := loadValueWide_phys _ _ _ _ _ e1
  have hp2 := loadValueWide_phys _ _ _ _ _ e2
  have p1 : loadValueWide loc1 .kCoreReg c2 = some (loc1, c2) := by simp [loadValueWide, hp1]
  have p2 : loadValueWide loc2 .kCoreReg c2 = some (loc2, c2) := by simp [loadValueWide, hp2]
  unfold genCmpLong
  simp only [gen_bind_apply, e1, e2, p1, p2]

/-- Every patched target of the three-way compare lies inside it. -/
theorem cmpLongCode_targets (h1 l1 h2 l2 t dest : Int) (base : Nat) :
    ∀ i ∈ cmpLongCode h1 l1 h2 l2 t dest base, ∀ j, i.target = .lir j → base ≤ j := by
  intro i hi j hj
  simp only [cmpLongCode, List.mem_cons, List.mem_singleton, List.not_mem_nil, or_false] at hi
  rcases hi with h | h | h | h | h | h | h | h | h | h | h | h | h | h <;> subst h <;>
    simp only [Target.lir.injEq, reduceCtorEq] at hj <;> omega

/-- The three-way compare on operands in registers, emitted behind a block of
loads and run. -/
theorem genCmpLong_phys_run (c c2 : CompilationUnit) (loads : List LIR) (m m2 : Machine)
    (rlDest loc1 loc2 : RegLocation) (t : Int) (rest : List Int) (aHi aLo bHi bLo : Int)
    (hl : c2.lir = c.lir ++ loads) (hs : straight loads m = some m2)
    (hp1 : loc1.location = .kLocPhysReg) (hp2 : loc2.location = .kLocPhysReg)
    (hn : c2.regPool.temps.Nodup) (hf : c2.regPool.free = t :: rest) (hit : m2.itstate = 0)
    (haH : -2147483648 ≤ aHi ∧ aHi < 2147483648) (haL : 0 ≤ aLo ∧ aLo < 4294967296)
    (hbH : -2147483648 ≤ bHi ∧ bHi < 2147483648) (hbL : 0 ≤ bLo ∧ bLo < 4294967296)
    (r1 : m2.regs loc1.highReg = wrap32 aHi) (r2 : m2.regs loc1.lowReg = aLo)
    (r3 : m2.regs loc2.highReg = wrap32 bHi) (r4 : m2.regs loc2.lowReg = bLo)
    (d1 : loc1.highReg ≠ t) (d2 : loc1.lowReg ≠ t) (d3 : loc2.highReg ≠ t)
    (d4 : loc2.lowReg ≠ t) :
    ∃ c1 m1, genCmpLong rlDest loc1 loc2 c2 = some ((), c1) ∧
      c1.lir.getLast? = some ⟨.storeValue rlDest.sRegLow t, false, .null⟩ ∧
      runEmitted c c1 m = .fellThrough m1 ∧
      m1.regs t = wrap32 (threeWay (long64 aHi aLo) (long64 bHi bLo)) ∧
      m1.frame rlDest.sRegLow = m1.regs t := by
  have hgen := genCmpLong_emits c2 rlDest loc1 loc2 t rest hp1 hp2 hn hf
  obtain ⟨m1, hrun, hv, hfr⟩ := cmpLongCode_run loc1.highReg loc1.lowReg loc2.highReg loc2.lowReg
    t rlDest.sRegLow (c.lir ++ loads).length m2 aHi aLo bHi bLo hit haH haL hbH hbL r1 r2 r3 r4
    d1 d2 d3 d4
  refine ⟨_, m1, hgen, ?_, ?_, hv, hfr⟩
  · show (c2.lir ++ cmpLongCode _ _ _ _ _ _ _).getLast? = _
    unfold cmpLongCode
    exact List.getLast?_append_cons _ _ [_, _, _, _, _, _, _, _, _, _, _, _, _] ▸ rfl
  · rw [runEmitted_loads_core c _ loads
      (cmpLongCode loc1.highReg loc1.lowReg loc2.highReg loc2.lowReg t rlDest.sRegLow
        (c.lir ++ loads).length) m m2 (by simp [hl]) hs (cmpLongCode_targets _ _ _ _ _ _ _)]
    exact hrun

theorem threeWay_bounds (a b : Int) : -1 ≤ threeWay a b ∧ threeWay a b ≤ 1 := by
  unfold threeWay
  split_ifs <;> omega

/-- C7: for all signed 64-bit operands a = (aHi, aLo) and b = (bHi, bLo) held
at the two sources, `genCmpLong` returns; the sequence it emits ends with the
store of the result register `tReg` to the destination, and running it leaves
in `tReg`, read as a signed word, -1 when a < b, 0 when a = b and 1 when
a > b, and the same word in the destination's home location. -/
theorem genCmpLong_three_way (c : CompilationUnit) (rlDest rlSrc1 rlSrc2 : RegLocation)
    (m : Machine) (aHi aLo bHi bLo : Int)
    (haH : -2147483648 ≤ aHi ∧ aHi < 2147483648) (haL : 0 ≤ aLo ∧ aLo < 4294967296)
    (hbH : -2147483648 ≤ bHi ∧ bHi < 2147483648) (hbL : 0 ≤ bLo ∧ bLo < 4294967296)
    (hv1 : wideValueAt m rlSrc1 = (aLo, wrap32 aHi))
    (hv2 : wideValueAt m rlSrc2 = (bLo, wrap32 bHi))
    (hn : c.regPool.temps.Nodup) (hf : 5 ≤ c.regPool.free.length)
    (hr1 : rlSrc1.location = .kLocPhysReg →
      rlSrc1.lowReg ∉ c.regPool.free ∧ rlSrc1.highReg ∉ c.regPool.free)
    (hr2 : rlSrc2.location = .kLocPhysReg →
      rlSrc2.lowReg ∉ c.regPool.free ∧ rlSrc2.highReg ∉ c.regPool.free)
    (hit : m.itstate = 0) :
    ∃ c1 tReg m1, genCmpLong rlDest rlSrc1 rlSrc2 c = some ((), c1) ∧
      c1.lir.getLast? = some ⟨.storeValue rlDest.sRegLow tReg, false, .null⟩ ∧
      runEmitted c c1 m = .fellThrough m1 ∧
      signed32 (m1.regs tReg) = threeWay (long64 aHi aLo) (long64 bHi bLo) ∧
      m1.frame rlDest.sRegLow = m1.regs tReg := by
  obtain ⟨loc1, loads1, use1, m1, e1, st1, it1, fr1, v1, k1, ⟨n1, hn1, f1⟩, nl1, nh1⟩ :=
    loadValueWide_run c rlSrc1 .kCoreReg m hn (by omega) hit hr1
  have hf1 : 2 ≤ (RegisterPool.free ⟨c.regPool.temps, use1⟩).length := by
    rw [f1, List.length_drop]; omega
  have hr2a : rlSrc2.location = .kLocPhysReg →
      rlSrc2.lowReg ∉ RegisterPool.free ⟨c.regPool.temps, use1⟩ ∧
        rlSrc2.highReg ∉ RegisterPool.free ⟨c.regPool.temps, use1⟩ := by
    intro hp
    rw [f1]
    exact ⟨fun h => (hr2 hp).1 (List.mem_of_mem_drop h),
      fun h => (hr2 hp).2 (List.mem_of_mem_drop h)⟩
  obtain ⟨loc2, loads2, use2, m2, e2, st2, it2, fr2, v2, k2, ⟨n2, hn2, f2⟩, nl2, nh2⟩ :=
    loadValueWide_run { c with lir := c.lir ++ loads1, regPool := ⟨c.regPool.temps, use1⟩ }
      rlSrc2 .kCoreReg m1 hn hf1 it1 hr2a
  have hf2 : 1 ≤ (RegisterPool.free ⟨c.regPool.temps, use2⟩).length := by
    rw [f2]
    show 1 ≤ ((RegisterPool.free ⟨c.regPool.temps, use1⟩).drop n2).length
    rw [f1, List.length_drop, List.length_drop]; omega
  obtain ⟨t, rest, ht⟩ : ∃ t rest, RegisterPool.free ⟨c.regPool.temps, use2⟩ = t :: rest := by
    match hq : RegisterPool.free ⟨c.regPool.temps, use2⟩, hf2 with
    | t :: rest, _ => exact ⟨t, rest, rfl⟩
  have ht2 : t ∈ RegisterPool.free ⟨c.regPool.temps, use2⟩ := by rw [ht]; simp
  have ht1 : t ∈ RegisterPool.free ⟨c.regPool.temps, use1⟩ := by
    rw [f2] at ht2; exact List.mem_of_mem_drop ht2
  have hw : wideValueAt m1 rlSrc2 = wideValueAt m rlSrc2 := by
    unfold wideValueAt
    split
    · next hp => rw [k1 _ (hr2 hp).1, k1 _ (hr2 hp).2]
    · rw [fr1]
  rw [hv1] at v1
  rw [hw, hv2] at v2
  simp only [Prod.mk.injEq] at v1 v2
  have r1 : m2.regs loc1.highReg = wrap32 aHi := by rw [k2 _ nh1, v1.2]
  have r2 : m2.regs loc1.lowReg = aLo := by rw [k2 _ nl1, v1.1]
  obtain ⟨c1, mf, hgen, hlast, hrun, hres, hfr⟩ := genCmpLong_phys_run c
    { c with lir := c.lir ++ loads1 ++ loads2, regPool := ⟨c.regPool.temps, use2⟩ }
    (loads1 ++ loads2) m m2 rlDest loc1 loc2 t rest aHi aLo bHi bLo
    (List.append_assoc _ _ _) (straight_append _ _ _ _ _ st1 st2)
    (loadValueWide_phys _ _ _ _ _ e1) (loadValueWide_phys _ _ _ _ _ e2) hn ht it2
    haH haL hbH hbL r1 r2 v2.2 v2.1
    (fun h => nh1 (h ▸ ht1)) (fun h => nl1 (h ▸ ht1)) (fun h => nh2 (h ▸ ht2))
    (fun h => nl2 (h ▸ ht2))
  refine ⟨c1, t, mf, ?_, hlast, hrun, ?_, hfr⟩
  · rw [genCmpLong_loaded rlDest rlSrc1 rlSrc2 loc1 loc2 c _ _ e1 e2]
    exact hgen
  · have hb := threeWay_bounds (long64 aHi aLo) (long64 bHi bLo)
    rw [hres, signed32_wrap32 _ (by omega) (by omega)]

theorem genCmpLong_three_way_witness :
    ∃ c1 tReg m1,
      genCmpLong ⟨.kLocDalvikFrame, false, 4, -1, -1⟩ ⟨.kLocDalvikFrame, true, 0, -1, -1⟩
        ⟨.kLocDalvikFrame, true, 2, -1, -1⟩ witnessUnit = some ((), c1) ∧
      c1.lir.getLast? = some ⟨.storeValue 4 tReg, false, .null⟩ ∧
      runEmitted witnessUnit c1 (fusedMachine 4294967295 5 0 7) = .fellThrough m1 ∧
      signed32 (m1.regs tReg) = threeWay (long64 (-1) 5) (long64 0 7) ∧
      m1.frame 4 = m1.regs tReg :=
  genCmpLong_three_way witnessUnit ⟨.kLocDalvikFrame, false, 4, -1, -1⟩
    ⟨.kLocDalvikFrame, true, 0, -1, -1⟩ ⟨.kLocDalvikFrame, true, 2, -1, -1⟩
    (fusedMachine 4294967295 5 0 7) (-1) 5 0 7 (by decide) (by decide) (by decide) (by decide)
    (by decide) (by decide) (by decide) (by decide) (by decide) (by decide) rfl

/-! ## C8: packed switch -/

theorem s4FromSwitchData_bounds (c : CompilationUnit) (pos : Int) :
    -2147483648 ≤ s4FromSwitchData c pos ∧ s4FromSwitchData c pos < 2147483648 := by
  simp only [s4FromSwitchData, codeUnit, signed32]
  split_ifs <;> omega

theorem codeUnit_bounds (c : CompilationUnit) (pos : Int) :
    0 ≤ codeUnit c pos ∧ codeUnit c pos < 65536 := by
  simp only [codeUnit]
  omega

/-- C8: for a packed-switch table with `size ≥ 1` entries and low key
`lowKey`, and a 32-bit switch value `v`, `genPackedSwitch` returns, and running
what it emitted takes the indirect branch with the table entry at index
`(v - lowKey) mod 2^32` when that index is at most `size - 1`, and otherwise
branches over it and runs past the end. The sequence ends with the indirect
branch followed by the label, which is the target of the bounds-check branch.
When `lowKey + size - 1` is a 32-bit signed value the bounds check is the same
as `lowKey ≤ v ≤ lowKey + size - 1`. -/
theorem genPackedSwitch_dispatch (c : CompilationUnit) (tableOffset : Int)
    (rlSrc : RegLocation) (m : Machine) (v size lowKey : Int)
    (hsz : codeUnit c (c.currentDalvikOffset + tableOffset + 1) = size)
    (hlow : s4FromSwitchData c (c.currentDalvikOffset + tableOffset + 2) = lowKey)
    (hsize : 1 ≤ size) (hv : -2147483648 ≤ v ∧ v < 2147483648)
    (hsrc : valueAt m rlSrc = wrap32 v)
    (hn : c.regPool.temps.Nodup) (hf : 4 ≤ c.regPool.free.length)
    (hres : rlSrc.location = .kLocPhysReg → rlSrc.lowReg ∉ c.regPool.free)
    (hit : m.itstate = 0) :
    ∃ c1, genPackedSwitch tableOffset rlSrc c = some ((), c1) ∧
      (wrap32 (v - lowKey) ≤ size - 1 →
        (runEmitted c c1 m).disp? =
          some (tableEntry m c.switchTables.length (wrap32 (v - lowKey)))) ∧
      (size - 1 < wrap32 (v - lowKey) → (runEmitted c c1 m).fell = true) ∧
      c1.lir.getLast? = some ⟨.raw .kPseudoTargetLabel [], false, .null⟩ ∧
      (∃ dispReg,
        c1.lir[c1.lir.length - 2]? = some ⟨.raw .kThumb2AddPCR [dispReg], false, .null⟩) ∧
      (∃ i : Nat, c1.lir[i]? =
        some (LIR.mk (.opCondBranch .kCondHi) false (.lir (c1.lir.length - 1)))) ∧
      (lowKey + size - 1 < 2147483648 →
        (wrap32 (v - lowKey) ≤ size - 1 ↔ lowKey ≤ v ∧ v ≤ lowKey + size - 1)) := by
  obtain ⟨x1, x2, x3, x4, rest, hfree⟩ := four_of_length _ hf
  have hnd : (x1 :: x2 :: x3 :: x4 :: rest).Nodup := by
    rw [← hfree]; exact hn.filter _
  obtain ⟨a1, f1⟩ := RegisterPool.alloc_of_free c.regPool.temps c.regPool.inUse x1 _ hn hfree
  obtain ⟨a2, f2⟩ := RegisterPool.alloc_of_free c.regPool.temps _ x2 _ hn f1
  obtain ⟨a3, f3⟩ := RegisterPool.alloc_of_free c.regPool.temps _ x3 _ hn f2
  obtain ⟨a4, -⟩ := RegisterPool.alloc_of_free c.regPool.temps _ x4 _ hn f3
  simp only [List.nodup_cons, List.mem_cons, not_or] at hnd
  obtain ⟨⟨h12, h13, h14, -⟩, ⟨h23, h24, -⟩, ⟨h34, -⟩, -⟩ := hnd
  have hcu := codeUnit_bounds c (c.currentDalvikOffset + tableOffset + 1)
  rw [hsz] at hcu
  have hlb := s4FromSwitchData_bounds c (c.currentDalvikOffset + tableOffset + 2)
  rw [hlow] at hlb
  have wsz : wrap32 (size - 1) = size - 1 := by unfold wrap32; omega
  have hkey : wrap32 (wrap32 v - lowKey) = wrap32 (v - lowKey) := by unfold wrap32; omega
  have hgloss : lowKey + size - 1 < 2147483648 →
      (wrap32 (v - lowKey) ≤ size - 1 ↔ lowKey ≤ v ∧ v ≤ lowKey + size - 1) := by
    intro h
    unfold wrap32
    omega
  have h4 : (2 : Int) ^ Int.toNat 2 = 4 := by decide
  by_cases hs : rlSrc.location = .kLocPhysReg
  · have hsr := hres hs
    rw [hfree] at hsr
    simp only [List.mem_cons, not_or] at hsr
    obtain ⟨s1, s2, s3, s4, -⟩ := hsr
    simp only [valueAt, hs, if_true] at hsrc
    by_cases hk : lowKey = 0 <;>
    (simp [-List.getElem?_eq_getElem, List.getElem?_cons_zero, genPackedSwitch, getUnit,
        oatInsertSwitchTable, loadValue, hs, hk, hsz, hlow, oatAllocTemp, a1, a2, a3, a4, newLIR3,
        newLIR1, newLIR0, rawLIR, oatAppendLIR, opRegRegImm, opRegImm, emit, opCondBranch,
        loadBaseIndexed, setAnchor, setTarget, getElem?_append_add, set_append_add,
        getElem?_append_length, set_append_length]
     simp only [runEmitted, List.length_append, List.length_cons, List.length_nil,
        Nat.add_sub_cancel_left, Nat.reduceAdd]
     rw [run_behind _ _ _ _ (by simp)]
     simp (disch := first | decide | simp [hit]) only [List.map_cons, List.map_nil, unshiftLIR,
        unshiftTarget, Nat.add_sub_cancel_left, run_succ_after, List.getElem?_cons_zero,
        List.getElem?_cons_succ, List.getElem?_nil, stepLIR_plain, execInsn_adr, execInsn_subImm,
        execInsn_cmpImm, execInsn_condBranch, execCondBranch_cmp, condHolds,
        execInsn_loadBaseIndexed, execInsn_addPCR, execInsn_label, execInsn_loadValue,
        afterStep_ite, afterStep_next, afterStep_lir, afterStep_indirect, decide_eq_true_eq,
        setReg_regs, setReg_mem, setReg_tableAddr, setReg_itstate, setFlags_regs, setFlags_mem,
        setFlags_tableAddr, setFlags_itstate, clobberFlags_regs, clobberFlags_mem,
        clobberFlags_tableAddr, clobberFlags_itstate, if_true, if_false,
        h12, h13, h14, h23, h24, h34, Ne.symm h12, Ne.symm h13, Ne.symm h14, Ne.symm h23,
        Ne.symm h24, Ne.symm h34, s1, s2, s3, s4, Ne.symm s1, Ne.symm s2, Ne.symm s3, Ne.symm s4,
        hsrc, wsz, hkey, wrap32_wrap32, hk, sub_zero, h4]
     refine ⟨fun h => ?_, fun h => ?_, ?_, ?_⟩
     · rw [if_neg (not_lt.mpr h)]; rfl
     · rw [if_pos h]; rfl
     · refine ⟨c.lir.length + (if lowKey = 0 then 2 else 3), ?_⟩
       simp [-List.getElem?_eq_getElem, List.getElem?_cons_zero, getElem?_append_add, hk]
     · simpa [hk] using hgloss)
  · simp only [valueAt, hs, if_false] at hsrc
    by_cases hk : lowKey = 0 <;>
    (simp [-List.getElem?_eq_getElem, List.getElem?_cons_zero, genPackedSwitch, getUnit,
        oatInsertSwitchTable, loadValue, hs, hk, hsz, hlow, oatAllocTemp, a1, a2, a3, a4, newLIR3,
        newLIR1, newLIR0, rawLIR, oatAppendLIR, opRegRegImm, opRegImm, emit, opCondBranch,
        loadBaseIndexed, setAnchor, setTarget, getElem?_append_add, set_append_add,
        getElem?_append_length, set_append_length]
     simp only [runEmitted, List.length_append, List.length_cons, List.length_nil,
        Nat.add_sub_cancel_left, Nat.reduceAdd]
     rw [run_behind _ _ _ _ (by simp)]
     simp (disch := first | decide | simp [hit]) only [List.map_cons, List.map_nil, unshiftLIR,
        unshiftTarget, Nat.add_sub_cancel_left, run_succ_after, List.getElem?_cons_zero,
        List.getElem?_cons_succ, List.getElem?_nil, stepLIR_plain, execInsn_adr, execInsn_subImm,
        execInsn_cmpImm, execInsn_condBranch, execCondBranch_cmp, condHolds,
        execInsn_loadBaseIndexed, execInsn_addPCR, execInsn_label, execInsn_loadValue,
        afterStep_ite, afterStep_next, afterStep_lir, afterStep_indirect, decide_eq_true_eq,
        setReg_regs, setReg_mem, setReg_tableAddr, setReg_itstate, setFlags_regs, setFlags_mem,
        setFlags_tableAddr, setFlags_itstate, clobberFlags_regs, clobberFlags_mem,
        clobberFlags_tableAddr, clobberFlags_itstate, if_true, if_false,
        h12, h13, h14, h23, h24, h34, Ne.symm h12, Ne.symm h13, Ne.symm h14, Ne.symm h23,
        Ne.symm h24, Ne.symm h34,
        hsrc, wsz, hkey, wrap32_wrap32, hk, sub_zero, h4]
     refine ⟨fun h => ?_, fun h => ?_, ?_, ?_⟩
     · rw [if_neg (not_lt.mpr h)]; rfl
     · rw [if_pos h]; rfl
     · refine ⟨c.lir.length + (if lowKey = 0 then 3 else 4), ?_⟩
       simp [-List.getElem?_eq_getElem, List.getElem?_cons_zero, getElem?_append_add, hk]
     · simpa [hk] using hgloss)

theorem genPackedSwitch_dispatch_witness :
    (∃ c1, genPackedSwitch 0 ⟨.kLocDalvikFrame, false, 0, -1, -1⟩ switchUnit = some ((), c1) ∧
      (runEmitted switchUnit c1 (switchMachine 11)).disp? =
        some (tableEntry (switchMachine 11) 0 1)) ∧
    (∃ c1, genPackedSwitch 0 ⟨.kLocDalvikFrame, false, 0, -1, -1⟩ switchUnit = some ((), c1) ∧
      (runEmitted switchUnit c1 (switchMachine 7)).fell = true) ∧
    (∃ c1, genPackedSwitch 0 ⟨.kLocDalvikFrame, false, 0, -1, -1⟩ switchUnit = some ((), c1) ∧
      (runEmitted switchUnit c1 (switchMachine 20)).fell = true) :=
  ⟨match genPackedSwitch_dispatch switchUnit 0 ⟨.kLocDalvikFrame, false, 0, -1, -1⟩
      (switchMachine 11) 11 3 10 (by decide) (by decide) (by decide) (by decide) (by decide)
      (by decide) (by decide) (by decide) rfl with
    | ⟨c1, hg, hin, _⟩ => ⟨c1, hg, hin (by decide)⟩,
   match genPackedSwitch_dispatch switchUnit 0 ⟨.kLocDalvikFrame, false, 0, -1, -1⟩
      (switchMachine 7) 7 3 10 (by decide) (by decide) (by decide) (by decide) (by decide)
      (by decide) (by decide) (by decide) rfl with
    | ⟨c1, hg, _, hout, _⟩ => ⟨c1, hg, hout (by decide)⟩,
   match genPackedSwitch_dispatch switchUnit 0 ⟨.kLocDalvikFrame, false, 0, -1, -1⟩
      (switchMachine 20) 20 3 10 (by decide) (by decide) (by decide) (by decide) (by decide)
      (by decide) (by decide) (by decide) rfl with
    | ⟨c1, hg, _, hout, _⟩ => ⟨c1, hg, hout (by decide)⟩⟩

/-! ## C9: the split-source test of the field-put fast path -/

/-- C9 (code defect): for an `iput-wide` whose field resolves on the fast path
and whose null check is proven unnecessary, with the wide source at argument
position 2 (so that `argLoc` resolves it to `kLocInvalid`) and the object at
argument position 0, `specialIPut` does not return NULL: it answers the next
MIR and has appended the boundary marker and the field write, the latter with
the source location still `kLocInvalid`. -/
theorem specialIPut_split_source_accepted :
    (argLoc putWideUnit (putWideUnit.regLocation 6)).location = .kLocInvalid ∧
      (putWideUnit.fastInstance putWideMir.vC).1 = true ∧
      putWideMir.optimizationFlags &&& MIR_IGNORE_NULL_CHECK ≠ 0 ∧
      specialIPutOutcome putWideUnit (some putWideBlock) putWideMir .kLong true false =
        some (true,
          [⟨.markBoundary 0, false, .null⟩,
           ⟨.genIPut 0 1 .kLong ⟨.kLocInvalid, true, 6, -1, -1⟩ ⟨.kLocPhysReg, false, 4, 1, -1⟩
              true false, false, .null⟩]) := by
  decide

/-! ## C10: a fast path that gives up commits nothing -/

theorem samePoolApart_refl (c : CompilationUnit) : samePoolApart c c := ⟨c.regPool, rfl⟩

theorem samePoolApart_trans (c c1 c2 : CompilationUnit) (h1 : samePoolApart c c1)
    (h2 : samePoolApart c1 c2) : samePoolApart c c2 := by
  obtain ⟨p1, rfl⟩ := h1
  obtain ⟨p2, rfl⟩ := h2
  exact ⟨p2, rfl⟩

theorem poolOnly_pure {α : Type} (a : α) : PoolOnly (pure a : Gen α) := by
  intro c r c1 h
  simp only [gen_pure_apply, Option.some.injEq, Prod.mk.injEq] at h
  rw [← h.2]
  exact samePoolApart_refl c

theorem poolOnly_bind {α β : Type} (x : Gen α) (f : α → Gen β) (hx : PoolOnly x)
    (hf : ∀ a, PoolOnly (f a)) : PoolOnly (x >>= f) := by
  intro c r c1 h
  rw [gen_bind_apply] at h
  cases hxc : x c with
  | none => simp [hxc] at h
  | some p =>
      obtain ⟨a, c2⟩ := p
      simp only [hxc] at h
      exact samePoolApart_trans _ _ _ (hx c a c2 hxc) (hf a c2 r c1 h)

theorem nullSafe_pure {α : Type} (null : α → Prop) (a : α) : NullSafe null (pure a : Gen α) :=
  fun c r c1 h _ => poolOnly_pure a c r c1 h

theorem nullSafe_bind {α β : Type} (null : β → Prop) (x : Gen α) (f : α → Gen β)
    (hx : PoolOnly x) (hf : ∀ a, NullSafe null (f a)) : NullSafe null (x >>= f) := by
  intro c r c1 h hn
  rw [gen_bind_apply] at h
  cases hxc : x c with
  | none => simp [hxc] at h
  | some p =>
      obtain ⟨a, c2⟩ := p
      simp only [hxc] at h
      exact samePoolApart_trans _ _ _ (hx c a c2 hxc) (hf a c2 r c1 h hn)

theorem nullSafe_of_neverNull {α : Type} (null : α → Prop) (x : Gen α)
    (hx : NeverNull null x) : NullSafe null x :=
  fun c r c1 h hn => absurd hn (hx c r c1 h)

theorem neverNull_pure {α : Type} (null : α → Prop) (a : α) (ha : ¬ null a) :
    NeverNull null (pure a : Gen α) := by
  intro c r c1 h
  simp only [gen_pure_apply, Option.some.injEq, Prod.mk.injEq] at h
  rw [← h.1]
  exact ha

theorem neverNull_bind {α β : Type} (null : β → Prop) (x : Gen α) (f : α → Gen β)
    (hf : ∀ a, NeverNull null (f a)) : NeverNull null (x >>= f) := by
  intro c r c1 h
  rw [gen_bind_apply] at h
  cases hxc : x c with
  | none => simp [hxc] at h
  | some p =>
      obtain ⟨a, c2⟩ := p
      simp only [hxc] at h
      exact hf a c2 r c1 h

theorem poolOnly_getUnit : PoolOnly getUnit := by
  intro c r c1 h
  simp only [getUnit, Option.some.injEq, Prod.mk.injEq] at h
  rw [← h.2]
  exact samePoolApart_refl c

theorem poolOnly_fatal {α : Type} : PoolOnly (fatal : Gen α) := by
  intro c r c1 h
  simp [fatal] at h

theorem poolOnly_oatLockTemp (r : Int) : PoolOnly (oatLockTemp r) := by
  intro c u c1 h
  simp only [oatLockTemp, Option.some.injEq, Prod.mk.injEq] at h
  exact ⟨_, h.2.symm⟩

theorem poolOnly_oatResetRegPool : PoolOnly oatResetRegPool := by
  intro c u c1 h
  simp only [oatResetRegPool, Option.some.injEq, Prod.mk.injEq] at h
  exact ⟨_, h.2.symm⟩

theorem poolOnly_oatGetSrc (mir : MIR) (n : Nat) : PoolOnly (oatGetSrc mir n) := by
  unfold oatGetSrc
  apply poolOnly_bind _ _ poolOnly_getUnit
  intro cUnit
  cases mir.ssaRep with
  | none => exact poolOnly_fatal
  | some uses =>
      simp only []
      cases uses[n]? with
      | none => exact poolOnly_fatal
      | some s => exact poolOnly_pure _

theorem poolOnly_oatGetReturn (b : Bool) : PoolOnly (oatGetReturn b) := by
  unfold oatGetReturn
  exact poolOnly_bind _ _ (poolOnly_oatLockTemp _) (fun _ => poolOnly_pure _)

theorem poolOnly_oatGetReturnWide (b : Bool) : PoolOnly (oatGetReturnWide b) := by
  unfold oatGetReturnWide
  exact poolOnly_bind _ _ (poolOnly_oatLockTemp _)
    (fun _ => poolOnly_bind _ _ (poolOnly_oatLockTemp _) (fun _ => poolOnly_pure _))

theorem poolOnly_lockLiveArgsLoop (firstIn : Int) (uses : List Int) :
    PoolOnly (lockLiveArgsLoop firstIn uses) := by
  induction uses with
  | nil => exact poolOnly_pure _
  | cons u rest ih =>
      unfold lockLiveArgsLoop
      apply poolOnly_bind _ _ poolOnly_getUnit
      intro cUnit
      simp only []
      split
      · exact poolOnly_bind _ _ (poolOnly_oatLockTemp _) (fun _ => ih)
      · exact ih

theorem poolOnly_lockLiveArgs (mir : MIR) : PoolOnly (lockLiveArgs mir) := by
  unfold lockLiveArgs
  apply poolOnly_bind _ _ poolOnly_getUnit
  intro cUnit
  simp only []
  cases mir.ssaRep with
  | none => exact poolOnly_fatal
  | some uses => exact poolOnly_lockLiveArgsLoop _ _

/-- Whenever `specialIGet` answers NULL it has changed nothing. -/
theorem specialIGet_nullSafe (bb : Option BasicBlock) (mir : MIR) (size : OpSize)
    (longOrDouble isObject : Bool) :
    NullSafe (fun r : Option MIR × Option BasicBlock => r.1 = none)
      (specialIGet bb mir size longOrDouble isObject) := by
  unfold specialIGet
  repeat' first
    | exact nullSafe_pure _ _
    | (apply nullSafe_bind _ _ _
        (by first
          | exact poolOnly_getUnit
          | exact poolOnly_lockLiveArgs _
          | exact poolOnly_oatGetSrc _ _
          | exact poolOnly_oatResetRegPool
          | exact poolOnly_oatGetReturn _
          | exact poolOnly_oatGetReturnWide _)
       intro _
       try simp only [])
    | split
    | (apply nullSafe_of_neverNull
       repeat' first
         | exact neverNull_pure _ _ (by simp)
         | (apply neverNull_bind; intro _; try simp only []))

/-- Whenever `specialIPut` answers NULL it has changed at most the register
pool. -/
theorem specialIPut_nullSafe (bb : Option BasicBlock) (mir : MIR) (size : OpSize)
    (longOrDouble isObject : Bool) :
    NullSafe (fun r : Option MIR × Option BasicBlock => r.1 = none)
      (specialIPut bb mir size longOrDouble isObject) := by
  unfold specialIPut
  repeat' first
    | exact nullSafe_pure _ _
    | (apply nullSafe_bind _ _ _
        (by first
          | exact poolOnly_getUnit
          | exact poolOnly_lockLiveArgs _
          | exact poolOnly_oatGetSrc _ _
          | exact poolOnly_oatResetRegPool
          | exact poolOnly_oatGetReturn _
          | exact poolOnly_oatGetReturnWide _)
       intro _
       try simp only [])
    | split
    | (apply nullSafe_of_neverNull
       repeat' first
         | exact neverNull_pure _ _ (by simp)
         | (apply neverNull_bind; intro _; try simp only []))

/-- Whenever `specialIdentity` answers NULL it has changed at most the
register pool. -/
theorem specialIdentity_nullSafe (mir : MIR) :
    NullSafe (fun r : Option MIR => r = none) (specialIdentity mir) := by
  unfold specialIdentity
  cases mir.ssaRep with
  | none => exact fun c r c1 h => by simp [fatal] at h
  | some uses =>
      simp only []
      repeat' first
        | exact nullSafe_pure _ _
        | (apply nullSafe_bind _ _ _
            (by first
              | exact poolOnly_getUnit
              | exact poolOnly_lockLiveArgs _
              | exact poolOnly_oatGetSrc _ _
              | exact poolOnly_oatResetRegPool
              | exact poolOnly_oatGetReturn _
              | exact poolOnly_oatGetReturnWide _)
           intro _
           try simp only [])
        | split
        | (apply nullSafe_of_neverNull
           repeat' first
             | exact neverNull_pure _ _ (by simp)
             | (apply neverNull_bind; intro _; try simp only []))

/-- A handler wrapped for the dispatcher keeps its NULL behaviour. -/
theorem nullSafe_wrap {α : Type} (null1 : α → Prop)
    (x : Gen α) (g : α → Option MIR × Option BasicBlock)
    (hg : ∀ a, (g a).1 = none → null1 a) (hx : NullSafe null1 x) :
    NullSafe (fun r : Option (Option MIR × Option BasicBlock) => ∃ p, r = some p ∧ p.1 = none)
      (x >>= fun r => pure (some (g r))) := by
  intro c r c1 h hn
  rw [gen_bind_apply] at h
  cases hxc : x c with
  | none => simp [hxc] at h
  | some p =>
      obtain ⟨a, c2⟩ := p
      simp only [hxc, gen_pure_apply, Option.some.injEq, Prod.mk.injEq] at h
      obtain ⟨q, hq, hq1⟩ := hn
      rw [← h.1] at hq
      simp only [Option.some.injEq] at hq
      rw [← h.2]
      exact hx c a c2 hxc (hg a (hq ▸ hq1))

/-- Whenever the handler selected by the dispatcher answers NULL, it has
changed at most the register pool. -/
theorem specialCaseHandler_nullSafe (bb : Option BasicBlock) (mir : MIR)
    (specialCase : SpecialCaseHandler) :
    NullSafe (fun r : Option (Option MIR × Option BasicBlock) => ∃ p, r = some p ∧ p.1 = none)
      (specialCaseHandler bb mir specialCase) := by
  cases specialCase <;> unfold specialCaseHandler <;> simp only []
  case kNoHandler => exact nullSafe_of_neverNull _ _ (neverNull_pure _ _ (by simp))
  case kNullMethod => exact nullSafe_of_neverNull _ _ (neverNull_pure _ _ (by simp))
  case kConstFunction =>
    apply nullSafe_of_neverNull
    repeat' first
      | exact neverNull_pure _ _ (by simp)
      | (apply neverNull_bind; intro _; try simp only [])
  case kIdentity =>
    exact nullSafe_wrap _ (specialIdentity mir) (fun r => (r, bb)) (fun _ h => h)
      (specialIdentity_nullSafe mir)
  all_goals
    first
    | exact nullSafe_wrap _ (specialIGet bb mir _ _ _) (fun r => r) (fun _ h => h)
        (specialIGet_nullSafe bb mir _ _ _)
    | exact nullSafe_wrap _ (specialIPut bb mir _ _ _) (fun r => r) (fun _ h => h)
        (specialIPut_nullSafe bb mir _ _ _)

/-- C10: whenever the handler that `genSpecialCase` selects (`specialIGet`,
`specialIPut` or `specialIdentity`) answers NULL, `genSpecialCase` returns with
the LIR stream as it was (no instruction and no return instruction appended)
and with `coreSpillMask`, `numCoreSpills`, `fpSpillMask`, `numFPSpills` and
`frameSize` unchanged. -/
theorem genSpecialCase_no_partial_commit (c c1 : CompilationUnit) (bb bb1 : Option BasicBlock)
    (mir : MIR) (specialCase : SpecialCaseHandler)
    (h : specialCaseHandler bb mir specialCase { c with currentDalvikOffset := mir.offset } =
      some (some (none, bb1), c1)) :
    genSpecialCase bb mir specialCase c = some ((), c1) ∧ c1.lir = c.lir ∧
      c1.coreSpillMask = c.coreSpillMask ∧ c1.numCoreSpills = c.numCoreSpills ∧
      c1.fpSpillMask = c.fpSpillMask ∧ c1.numFPSpills = c.numFPSpills ∧
      c1.frameSize = c.frameSize := by
  refine ⟨?_, ?_⟩
  · simp [genSpecialCase, setCurrentDalvikOffset, h]
  · obtain ⟨p, rfl⟩ := specialCaseHandler_nullSafe bb mir specialCase _ _ _ h ⟨_, rfl, rfl⟩
    exact ⟨rfl, rfl, rfl, rfl, rfl, rfl⟩

theorem genSpecialCase_no_partial_commit_witness :
    genSpecialCase none identityWideMir .kIdentity putWideUnit =
        some ((), { putWideUnit with currentDalvikOffset := 5 }) ∧
      ({ putWideUnit with currentDalvikOffset := 5 } : CompilationUnit).lir = putWideUnit.lir ∧
      ({ putWideUnit with currentDalvikOffset := 5 } : CompilationUnit).coreSpillMask =
        putWideUnit.coreSpillMask ∧
      ({ putWideUnit with currentDalvikOffset := 5 } : CompilationUnit).numCoreSpills =
        putWideUnit.numCoreSpills ∧
      ({ putWideUnit with currentDalvikOffset := 5 } : CompilationUnit).fpSpillMask =
        putWideUnit.fpSpillMask ∧
      ({ putWideUnit with currentDalvikOffset := 5 } : CompilationUnit).numFPSpills =
        putWideUnit.numFPSpills ∧
      ({ putWideUnit with currentDalvikOffset := 5 } : CompilationUnit).frameSize =
        putWideUnit.frameSize :=
  genSpecialCase_no_partial_commit putWideUnit { putWideUnit with currentDalvikOffset := 5 }
    none none identityWideMir .kIdentity rfl

/-! ## C11: a fast path that succeeds -/

/-- The boundary label always returns and only appends to the stream. -/
theorem genPrintLabel_appends (mir : MIR) (c : CompilationUnit) :
    ∃ extra, genPrintLabel mir c = some ((), { c with lir := c.lir ++ extra }) := by
  by_cases hp : c.printMe = true ∧ mir.ssaRep.isSome = true
  · exact ⟨_, by simp [genPrintLabel, getUnit, markBoundary, emit, oatAppendLIR, newLIR1,
      rawLIR, hp]; rfl⟩
  · exact ⟨_, by simp [genPrintLabel, getUnit, markBoundary, emit, oatAppendLIR, newLIR1,
      rawLIR, hp]; rfl⟩

/-- C11: whenever the handler that `genSpecialCase` selects yields a non-NULL
next MIR, `genSpecialCase` returns, the last instruction of the stream is the
return `bx lr`, appended behind what the handler emitted, the spill masks,
spill counts and frame size are 0 and both vmap tables are empty. The handlers
of the null-method and constant-function shapes always yield a non-NULL next
MIR. -/
theorem genSpecialCase_success (c c1 : CompilationUnit) (bb bb1 : Option BasicBlock)
    (mir next : MIR) (specialCase : SpecialCaseHandler)
    (h : specialCaseHandler bb mir specialCase { c with currentDalvikOffset := mir.offset } =
      some (some (some next, bb1), c1)) :
    (∃ c2 extra, genSpecialCase bb mir specialCase c = some ((), c2) ∧
      c2.lir = c1.lir ++ extra ++ [⟨.raw .kThumbBx [rLR], false, .null⟩] ∧
      c2.lir.getLast? = some ⟨.raw .kThumbBx [rLR], false, .null⟩ ∧
      c2.coreSpillMask = 0 ∧ c2.numCoreSpills = 0 ∧ c2.fpSpillMask = 0 ∧ c2.numFPSpills = 0 ∧
      c2.frameSize = 0 ∧ c2.coreVmapTable = [] ∧ c2.fpVmapTable = []) ∧
    (∀ c0, ∃ n b c3, specialCaseHandler bb mir .kNullMethod c0 = some (some (some n, b), c3)) ∧
    (∀ c0, ∃ n b c3,
      specialCaseHandler bb mir .kConstFunction c0 = some (some (some n, b), c3)) := by
  refine ⟨?_, fun c0 => ⟨mir, bb, c0, rfl⟩, fun c0 => ?_⟩
  · by_cases hid : specialCase = .kIdentity
    · subst hid
      refine ⟨{ c1 with
          currentDalvikOffset := next.offset,
          lir := c1.lir ++ [] ++ [⟨.raw .kThumbBx [rLR], false, .null⟩],
          coreSpillMask := 0, numCoreSpills := 0, fpSpillMask := 0, numFPSpills := 0,
          frameSize := 0, coreVmapTable := [], fpVmapTable := [] },
        [], ?_, rfl, ?_, rfl, rfl, rfl, rfl, rfl, rfl, rfl⟩
      · simp [genSpecialCase, setCurrentDalvikOffset, h, newLIR1, rawLIR, oatAppendLIR,
          clearFrameShape]
      · simp
    · obtain ⟨extra, he⟩ :=
        genPrintLabel_appends next { c1 with currentDalvikOffset := next.offset }
      refine ⟨{ c1 with
          currentDalvikOffset := next.offset,
          lir := c1.lir ++ extra ++ [⟨.raw .kThumbBx [rLR], false, .null⟩],
          coreSpillMask := 0, numCoreSpills := 0, fpSpillMask := 0, numFPSpills := 0,
          frameSize := 0, coreVmapTable := [], fpVmapTable := [] },
        extra, ?_, rfl, ?_, rfl, rfl, rfl, rfl, rfl, rfl, rfl⟩
      · simp [genSpecialCase, setCurrentDalvikOffset, h, hid, he, newLIR1, rawLIR, oatAppendLIR,
          clearFrameShape]
      · simp
  · obtain ⟨extra, he⟩ := genPrintLabel_appends mir c0
    refine ⟨(getNextMir bb mir).1, (getNextMir bb mir).2,
      { c0 with lir := c0.lir ++ extra ++ [⟨.loadConstant rRET0 mir.vB, false, .null⟩] }, ?_⟩
    simp [specialCaseHandler, he, loadConstant, emit, oatAppendLIR]

theorem genSpecialCase_success_witness :
    (∃ c2 extra, genSpecialCase none (fusedMir 0) .kNullMethod witnessUnit = some ((), c2) ∧
      c2.lir = ({ witnessUnit with currentDalvikOffset := 0 } : CompilationUnit).lir ++ extra ++
        [⟨.raw .kThumbBx [rLR], false, .null⟩] ∧
      c2.lir.getLast? = some ⟨.raw .kThumbBx [rLR], false, .null⟩ ∧
      c2.coreSpillMask = 0 ∧ c2.numCoreSpills = 0 ∧ c2.fpSpillMask = 0 ∧ c2.numFPSpills = 0 ∧
      c2.frameSize = 0 ∧ c2.coreVmapTable = [] ∧ c2.fpVmapTable = []) ∧
    (∀ c0, ∃ n b c3,
      specialCaseHandler none (fusedMir 0) .kNullMethod c0 = some (some (some n, b), c3)) ∧
    (∀ c0, ∃ n b c3,
      specialCaseHandler none (fusedMir 0) .kConstFunction c0 = some (some (some n, b), c3)) :=
  genSpecialCase_success witnessUnit { witnessUnit with currentDalvikOffset := 0 } none none
    (fusedMir 0) (fusedMir 0) .kNullMethod rfl

/-! ## C12: the register pool after a fast path gives up -/

theorem keepsTemps_pure {α : Type} (a : α) : KeepsTemps (pure a : Gen α) := by
  intro c r c1 h
  simp only [gen_pure_apply, Option.some.injEq, Prod.mk.injEq] at h
  rw [← h.2]

theorem keepsTemps_bind {α β : Type} (x : Gen α) (f : α → Gen β) (hx : KeepsTemps x)
    (hf : ∀ a, KeepsTemps (f a)) : KeepsTemps (x >>= f) := by
  intro c r c1 h
  rw [gen_bind_apply] at h
  cases hxc : x c with
  | none => simp [hxc] at h
  | some p =>
      obtain ⟨a, c2⟩ := p
      simp only [hxc] at h
      rw [hf a c2 r c1 h, hx c a c2 hxc]

theorem keepsTemps_getUnit : KeepsTemps getUnit := by
  intro c r c1 h
  simp only [getUnit, Option.some.injEq, Prod.mk.injEq] at h
  rw [← h.2]

theorem keepsTemps_fatal {α : Type} : KeepsTemps (fatal : Gen α) := by
  intro c r c1 h
  simp [fatal] at h

theorem keepsTemps_oatLockTemp (r : Int) : KeepsTemps (oatLockTemp r) := by
  intro c u c1 h
  simp only [oatLockTemp, Option.some.injEq, Prod.mk.injEq] at h
  rw [← h.2]

theorem keepsTemps_oatGetSrc (mir : MIR) (n : Nat) : KeepsTemps (oatGetSrc mir n) := by
  unfold oatGetSrc
  apply keepsTemps_bind _ _ keepsTemps_getUnit
  intro cUnit
  cases mir.ssaRep with
  | none => exact keepsTemps_fatal
  | some uses =>
      simp only []
      cases uses[n]? with
      | none => exact keepsTemps_fatal
      | some s => exact keepsTemps_pure _

theorem keepsTemps_oatGetReturn (b : Bool) : KeepsTemps (oatGetReturn b) := by
  unfold oatGetReturn
  exact keepsTemps_bind _ _ (keepsTemps_oatLockTemp _) (fun _ => keepsTemps_pure _)

theorem keepsTemps_oatGetReturnWide (b : Bool) : KeepsTemps (oatGetReturnWide b) := by
  unfold oatGetReturnWide
  exact keepsTemps_bind _ _ (keepsTemps_oatLockTemp _)
    (fun _ => keepsTemps_bind _ _ (keepsTemps_oatLockTemp _) (fun _ => keepsTemps_pure _))

theorem keepsTemps_lockLiveArgsLoop (firstIn : Int) (uses : List Int) :
    KeepsTemps (lockLiveArgsLoop firstIn uses) := by
  induction uses with
  | nil => exact keepsTemps_pure _
  | cons u rest ih =>
      unfold lockLiveArgsLoop
      apply keepsTemps_bind _ _ keepsTemps_getUnit
      intro cUnit
      simp only []
      split
      · exact keepsTemps_bind _ _ (keepsTemps_oatLockTemp _) (fun _ => ih)
      · exact ih

theorem keepsTemps_lockLiveArgs (mir : MIR) : KeepsTemps (lockLiveArgs mir) := by
  unfold lockLiveArgs
  apply keepsTemps_bind _ _ keepsTemps_getUnit
  intro cUnit
  simp only []
  cases mir.ssaRep with
  | none => exact keepsTemps_fatal
  | some uses => exact keepsTemps_lockLiveArgsLoop _ _

theorem nullResets_bind {α β : Type} (null : β → Prop) (x : Gen α) (f : α → Gen β)
    (hx : KeepsTemps x) (hf : ∀ a, NullResets null (f a)) : NullResets null (x >>= f) := by
  intro c r c1 h hn
  rw [gen_bind_apply] at h
  cases hxc : x c with
  | none => simp [hxc] at h
  | some p =>
      obtain ⟨a, c2⟩ := p
      simp only [hxc] at h
      rw [hf a c2 r c1 h hn, hx c a c2 hxc]

theorem nullResets_of_neverNull {α : Type} (null : α → Prop) (x : Gen α)
    (hx : NeverNull null x) : NullResets null x :=
  fun c r c1 h hn => absurd hn (hx c r c1 h)

theorem nullResets_reset {α : Type} (null : α → Prop) (a : α) :
    NullResets null (oatResetRegPool >>= fun _ => (pure a : Gen α)) := by
  intro c r c1 h _
  simp only [gen_bind_apply, oatResetRegPool, gen_pure_apply, Option.some.injEq,
    Prod.mk.injEq] at h
  rw [← h.2]

theorem nullKeepsOrResets_pure {α : Type} (null : α → Prop) (a : α) :
    NullKeepsOrResets null (pure a : Gen α) := by
  intro c r c1 h _
  simp only [gen_pure_apply, Option.some.injEq, Prod.mk.injEq] at h
  rw [← h.2]
  exact Or.inl rfl

theorem nullKeepsOrResets_of_resets {α : Type} (null : α → Prop) (x : Gen α)
    (hx : NullResets null x) : NullKeepsOrResets null x :=
  fun c r c1 h hn => Or.inr (hx c r c1 h hn)

theorem nullKeepsOrResets_getUnit {β : Type} (null : β → Prop) (f : CompilationUnit → Gen β)
    (hf : ∀ a, NullKeepsOrResets null (f a)) : NullKeepsOrResets null (getUnit >>= f) := by
  intro c r c1 h hn
  simp only [gen_bind_apply, getUnit] at h
  exact hf c c r c1 h hn

/-- Whenever `specialIGet` answers NULL the pool is what it was. -/
theorem specialIGet_null_pool (bb b1 : Option BasicBlock) (mir : MIR) (size : OpSize)
    (longOrDouble isObject : Bool) (c c1 : CompilationUnit)
    (h : specialIGet bb mir size longOrDouble isObject c = some ((none, b1), c1)) :
    c1.regPool = c.regPool := by
  unfold specialIGet at h
  simp only [gen_bind_apply, getUnit] at h
  split at h
  · simp only [gen_pure_apply, Option.some.injEq, Prod.mk.injEq] at h
    rw [← h.2]
  · exfalso
    revert h
    generalize c = c0
    intro h
    have hnn : NeverNull (fun r : Option MIR × Option BasicBlock => r.1 = none)
        (do
          let rlObj ← oatGetSrc mir 0
          lockLiveArgs mir
          let cUnit ← getUnit
          let rlObj := argLoc cUnit rlObj
          let rlDest ← if longOrDouble then oatGetReturnWide false else oatGetReturn false
          genPrintLabel mir
          let rlObj ← loadArg rlObj
          genIGet mir.vC mir.optimizationFlags size rlDest rlObj longOrDouble isObject
          let next := getNextMir bb mir
          pure (some next.1, next.2)) := by
      repeat' first
        | exact neverNull_pure _ _ (by simp)
        | (apply neverNull_bind; intro _; try simp only [])
        | split
    exact hnn _ _ _ h rfl

/-- Whenever `specialIPut` answers NULL the pool is what it was, or reset. -/
theorem specialIPut_nullKeepsOrResets (bb : Option BasicBlock) (mir : MIR) (size : OpSize)
    (longOrDouble isObject : Bool) :
    NullKeepsOrResets (fun r : Option MIR × Option BasicBlock => r.1 = none)
      (specialIPut bb mir size longOrDouble isObject) := by
  unfold specialIPut
  apply nullKeepsOrResets_getUnit
  intro cUnit
  simp only []
  split
  · exact nullKeepsOrResets_pure _ _
  · apply nullKeepsOrResets_of_resets
    repeat' first
      | exact nullResets_reset _ _
      | (apply nullResets_bind _ _ _
          (by first
            | exact keepsTemps_getUnit
            | exact keepsTemps_lockLiveArgs _
            | exact keepsTemps_oatGetSrc _ _
            | exact keepsTemps_oatGetReturn _
            | exact keepsTemps_oatGetReturnWide _)
         intro _
         try simp only [])
      | split
      | (apply nullResets_of_neverNull
         repeat' first
           | exact neverNull_pure _ _ (by simp)
           | (apply neverNull_bind; intro _; try simp only []))

/-- Whenever `specialIdentity` answers NULL the pool is reset. -/
theorem specialIdentity_nullResets (mir : MIR) :
    NullResets (fun r : Option MIR => r = none) (specialIdentity mir) := by
  unfold specialIdentity
  cases mir.ssaRep with
  | none => exact fun c r c1 h => by simp [fatal] at h
  | some uses =>
      simp only []
      repeat' first
        | exact nullResets_reset _ _
        | (apply nullResets_bind _ _ _
            (by first
              | exact keepsTemps_getUnit
              | exact keepsTemps_lockLiveArgs _
              | exact keepsTemps_oatGetSrc _ _
              | exact keepsTemps_oatGetReturn _
              | exact keepsTemps_oatGetReturnWide _)
           intro _
           try simp only [])
        | split
        | (apply nullResets_of_neverNull
           repeat' first
             | exact neverNull_pure _ _ (by simp)
             | (apply neverNull_bind; intro _; try simp only []))

/-- C12 (as stated, refuted): with the scratch register r12 reserved before
the attempt, `specialIdentity` on a wide argument at position 2 answers NULL
and leaves a pool in which no register is reserved, which is not the pool it
started from. -/
theorem specialIdentity_null_changes_pool :
    identityPool busyUnit identityWideMir = some (true, ⟨[0, 1, 2, 3, 12], []⟩) ∧
      busyUnit.regPool = ⟨[0, 1, 2, 3, 12], [12]⟩ ∧
      (⟨[0, 1, 2, 3, 12], []⟩ : RegisterPool) ≠ busyUnit.regPool := by
  decide

/-- C12 (amended): a fast-path attempt that answers NULL leaves the pool as it
was (`specialIGet`, and the early exit of `specialIPut`) or reset, with no
register reserved (the `kLocInvalid` exit of `specialIPut` and
`specialIdentity`); so when no register was reserved before the attempt, the
pool after it equals the pool before it. -/
theorem fastPath_null_pool (c : CompilationUnit) :
    (∀ bb b1 mir size longOrDouble isObject c1,
      specialIGet bb mir size longOrDouble isObject c = some ((none, b1), c1) →
        c1.regPool = c.regPool) ∧
    (∀ bb b1 mir size longOrDouble isObject c1,
      specialIPut bb mir size longOrDouble isObject c = some ((none, b1), c1) →
        (c1.regPool = c.regPool ∨ c1.regPool = ⟨c.regPool.temps, []⟩) ∧
          (c.regPool.inUse = [] → c1.regPool = c.regPool)) ∧
    (∀ mir c1, specialIdentity mir c = some (none, c1) →
      c1.regPool = ⟨c.regPool.temps, []⟩ ∧ (c.regPool.inUse = [] → c1.regPool = c.regPool)) := by
  have hfresh : c.regPool.inUse = [] → (⟨c.regPool.temps, []⟩ : RegisterPool) = c.regPool := by
    intro h
    rw [← h]
  refine ⟨fun bb b1 mir size l o c1 h => specialIGet_null_pool bb b1 mir size l o c c1 h,
    fun bb b1 mir size l o c1 h => ?_, fun mir c1 h => ?_⟩
  · have hk := specialIPut_nullKeepsOrResets bb mir size l o c _ c1 h rfl
    refine ⟨hk, fun hin => ?_⟩
    rcases hk with hk | hk
    · exact hk
    · rw [hk]; exact hfresh hin
  · have hr := specialIdentity_nullResets mir c _ c1 h rfl
    exact ⟨hr, fun hin => by rw [hr]; exact hfresh hin⟩

theorem fastPath_null_pool_witness :
    specialIdentity identityWideMir busyUnit =
        some (none, { busyUnit with regPool := ⟨[0, 1, 2, 3, 12], []⟩ }) ∧
      ({ busyUnit with regPool := ⟨[0, 1, 2, 3, 12], []⟩ } : CompilationUnit).regPool =
        ⟨busyUnit.regPool.temps, []⟩ ∧
      specialIdentity identityWideMir putWideUnit = some (none, putWideUnit) ∧
      putWideUnit.regPool = putWideUnit.regPool :=
  ⟨rfl,
    ((fastPath_null_pool busyUnit).2.2 identityWideMir
      { busyUnit with regPool := ⟨[0, 1, 2, 3, 12], []⟩ } rfl).1,
    rfl,
    ((fastPath_null_pool putWideUnit).2.2 identityWideMir putWideUnit rfl).2 rfl⟩

/-! ## C13: monitor exit -/

theorem opIT_eq_else_else (c : CompilationUnit) :
    opIT .kArmCondEq "EE" c =
      some (c.lir.length, { c with lir := c.lir ++ [⟨.raw .kThumb2It [0, 14], false, .null⟩] }) :=
  rfl

/-- The instructions of monitor exit; `check` is the null check, if any. -/
theorem genMonitorExit_emits (off : RuntimeOffsets) (optFlags : Nat) (rlSrc : RegLocation)
    (c : CompilationUnit) :
    ∃ check, (check = [] ∨ check = [⟨.genNullCheck rlSrc.sRegLow r0, false, .null⟩]) ∧
      (genMonitorExit off optFlags rlSrc c).map (fun r => r.2.lir) = some
        (c.lir ++ (([⟨.flushAllRegs, false, .null⟩,
            ⟨.loadValueDirectFixed rlSrc r0, false, .null⟩] ++ check) ++
            monitorExitCode off (c.lir.length + 2 + check.length + 9))) := by
  by_cases hf : optFlags &&& MIR_IGNORE_NULL_CHECK = 0
  · refine ⟨[⟨.genNullCheck rlSrc.sRegLow r0, false, .null⟩], Or.inr rfl, ?_⟩
    simp [genMonitorExit, oatFlushAllRegs, loadValueDirectFixed, oatLockCallTemps, oatLockTemp,
      genNullCheck, hf, loadWordDisp, opRegRegImm, opRegImm, newLIR3, rawLIR, opRegReg,
      opIT_eq_else_else, storeWordDisp, oatClobberCalleeSave, opReg, markSafepointPC,
      oatGenMemBarrier, emit, oatAppendLIR, monitorExitCode]
  · refine ⟨[], Or.inl rfl, ?_⟩
    simp [genMonitorExit, oatFlushAllRegs, loadValueDirectFixed, oatLockCallTemps, oatLockTemp,
      genNullCheck, hf, loadWordDisp, opRegRegImm, opRegImm, newLIR3, rawLIR, opRegReg,
      opIT_eq_else_else, storeWordDisp, oatClobberCalleeSave, opReg, markSafepointPC,
      oatGenMemBarrier, emit, oatAppendLIR, monitorExitCode]

theorem execInsn_it_eq_else_else (n : Bool) (t : Target) (b : Bool) (m : Machine) :
    execInsn ⟨.raw .kThumb2It [0, 14], n, t⟩ b m = .next (m.setIT 14) := rfl

set_option maxHeartbeats 1000000 in
/-- Monitor exit behind the null check: one store and no call when the lock
word, hash state apart, is the shifted thread id; one call and no store
otherwise. -/
theorem monitorExitCode_run (off : RuntimeOffsets) (callIdx base : Nat) (m : Machine)
    (lockWord tid : Int) (hit : m.itstate = 0) (htr : m.trace = [])
    (hlock : wrap32 (m.mem (wrap32 (m.regs r0 + off.monitorOffset))) = lockWord)
    (htid : wrap32 (m.mem (wrap32 (m.regs rSELF + off.thinLockIdOffset))) = tid) :
    ∃ m1, run ((monitorExitCode off callIdx).map (unshiftLIR base)) 13 0 m = .fellThrough m1 ∧
      m1.trace =
        if bitFieldClear lockWord LW_HASH_STATE_SHIFT.toNat (LW_LOCK_OWNER_SHIFT - 1).toNat =
          wrap32 (tid * 2 ^ LW_LOCK_OWNER_SHIFT.toNat) then
          [.store (wrap32 (m.regs r0 + off.monitorOffset))
              (and32 lockWord (LW_HASH_STATE_MASK * 2 ^ LW_HASH_STATE_SHIFT.toNat)),
            .barrier]
        else
          [.call (wrap32 (m.mem (wrap32 (m.regs rSELF + off.pUnlockObjectFromCode)))),
            .barrier] := by
  have hw : wrap32 (bitFieldClear lockWord LW_HASH_STATE_SHIFT.toNat
      (LW_LOCK_OWNER_SHIFT - 1).toNat) =
      bitFieldClear lockWord LW_HASH_STATE_SHIFT.toNat (LW_LOCK_OWNER_SHIFT - 1).toNat := by
    apply bitFieldClear_word <;> rw [← hlock] <;> unfold wrap32 <;> omega
  have d01 : r0 ≠ r1 := by decide
  have d02 : r0 ≠ r2 := by decide
  have d03 : r0 ≠ r3 := by decide
  have d12 : r1 ≠ r2 := by decide
  have d13 : r1 ≠ r3 := by decide
  have d23 : r2 ≠ r3 := by decide
  have ds0 : rSELF ≠ r0 := by decide
  have ds1 : rSELF ≠ r1 := by decide
  have ds2 : rSELF ≠ r2 := by decide
  have ds3 : rSELF ≠ r3 := by decide
  have dl0 : rLR ≠ r0 := by decide
  have dl1 : rLR ≠ r1 := by decide
  have dl2 : rLR ≠ r2 := by decide
  have dl3 : rLR ≠ r3 := by decide
  have dls : rLR ≠ rSELF := by decide
  have l1 : LOWREG r1 = true := by decide
  have l2 : LOWREG r2 = true := by decide
  simp (disch := first | decide | simp [hit, inITBlock, itAdvance, Insn.isPseudo]) only
    [monitorExitCode, List.map_cons, List.map_nil, unshiftLIR, unshiftTarget,
    run_succ_after, List.getElem?_cons_zero, List.getElem?_cons_succ, List.getElem?_nil,
    stepLIR_plain, stepLIR_inIT, stepLIR_pseudo, afterStep_ite, afterStep_next,
    execInsn_loadWordDisp, execInsn_storeWordDisp, execInsn_andImm, execInsn_lslImm,
    execInsn_bfc, execInsn_subLow, execInsn_blx, execInsn_markSafepointPC,
    execInsn_genMemBarrier, execInsn_it_eq_else_else, setReg_mem, clobberFlags_mem, setFlags_mem, setIT_mem, itAdvance_14, itAdvance_28, itAdvance_24,
    Nat.reduceMod, Nat.reduceDiv, Nat.reduceMul, Nat.reduceAdd, if_true, if_false, ↓reduceIte,
    setReg_regs, setFlags_regs, setFlags_flags, setFlags_itstate, setIT_regs,
    setIT_flags, setIT_itstate, clobberFlags_regs, clobberFlags_itstate,
    setReg_flags, setReg_itstate, setMem_regs, setMem_flags, setMem_itstate, setMem_mem,
    record_regs, record_flags, record_itstate, record_mem,
    d01, d02, d03, d12, d13, d23, ds0, ds1, ds2, ds3, dl0, dl1, dl2, dl3, dls, l1, l2,
    Ne.symm d01, Ne.symm d02, Ne.symm d03, Ne.symm d12, Ne.symm d13, Ne.symm d23,
    hlock, htid, conditionPassed_eq, conditionPassed_ne, decide_eq_true_eq, wrap32_wrap32, hw]
  split_ifs <;>
    first
    | contradiction
    | exact ⟨_, rfl, by simp [htr]⟩

/-- C13: in the sequence monitor exit emits, run on a non-null object whose
lock word is `lockWord` by the thread whose id is `tid`, the inline store
executes if and only if the lock word with its hash-state bits cleared equals
the thread id shifted left by `LW_LOCK_OWNER_SHIFT`; the word stored is then
`lockWord & (LW_HASH_STATE_MASK << LW_HASH_STATE_SHIFT)`, the hash-state bits
of the lock word in place and every other bit 0, and no call is made; in every
other case nothing is stored and the slow-path unlock routine is called. -/
theorem genMonitorExit_fast_path (off : RuntimeOffsets) (optFlags : Nat) (rlSrc : RegLocation)
    (c : CompilationUnit) (m : Machine) (lockWord tid : Int)
    (hit : m.itstate = 0) (htr : m.trace = []) (hnz : valueAt m rlSrc ≠ 0)
    (hlock : wrap32 (m.mem (wrap32 (valueAt m rlSrc + off.monitorOffset))) = lockWord)
    (htid : wrap32 (m.mem (wrap32 (m.regs rSELF + off.thinLockIdOffset))) = tid) :
    ∃ c1 m1, genMonitorExit off optFlags rlSrc c = some ((), c1) ∧
      runEmitted c c1 m = .fellThrough m1 ∧
      (m1.trace =
        if bitFieldClear lockWord LW_HASH_STATE_SHIFT.toNat (LW_LOCK_OWNER_SHIFT - 1).toNat =
          wrap32 (tid * 2 ^ LW_LOCK_OWNER_SHIFT.toNat) then
          [.store (wrap32 (valueAt m rlSrc + off.monitorOffset))
              (and32 lockWord (LW_HASH_STATE_MASK * 2 ^ LW_HASH_STATE_SHIFT.toNat)),
            .barrier]
        else
          [.call (wrap32 (m.mem (wrap32 (m.regs rSELF + off.pUnlockObjectFromCode)))),
            .barrier]) ∧
      and32 lockWord (LW_HASH_STATE_MASK * 2 ^ LW_HASH_STATE_SHIFT.toNat) =
        lockWord / 2 ^ LW_HASH_STATE_SHIFT.toNat % (LW_HASH_STATE_MASK + 1) *
          2 ^ LW_HASH_STATE_SHIFT.toNat := by
  obtain ⟨check, hc, he⟩ := genMonitorExit_emits off optFlags rlSrc c
  cases hg : genMonitorExit off optFlags rlSrc c with
  | none => rw [hg] at he; simp at he
  | some p =>
      obtain ⟨⟨⟩, c1⟩ := p
      rw [hg] at he
      simp only [Option.map_some', Option.some.injEq] at he
      have hs := monitor_prologue rlSrc check m hc hit hnz
      have hrun := runEmitted_loads_core c c1 _ _ m _ he hs
        (by simp [monitorExitCode])
      have ds0 : rSELF ≠ r0 := by decide
      obtain ⟨m1, hr, ht⟩ := monitorExitCode_run off
        (c.lir.length + 2 + check.length + 9)
        (c.lir ++ ([LIR.mk .flushAllRegs false .null,
          LIR.mk (.loadValueDirectFixed rlSrc r0) false .null] ++ check)).length
        (m.setReg r0 (valueAt m rlSrc)) lockWord tid (by simp [hit]) (by simp [htr])
        (by simp [hlock]) (by simp [htid, ds0])
      refine ⟨c1, m1, rfl, ?_, ?_, ?_⟩
      · rw [hrun]; exact hr
      · rw [ht]; simp [ds0]
      · have h0 : 0 ≤ lockWord ∧ lockWord < 4294967296 := by
          rw [← hlock]; unfold wrap32; omega
        exact and32_six lockWord h0.1 h0.2

theorem genMonitorExit_fast_path_witness :
    ∃ c1 m1, genMonitorExit monitorOffsets 0 (witnessUnit.regLocation 0) witnessUnit =
        some ((), c1) ∧
      runEmitted witnessUnit c1 (monitorMachine 44 5 false) = .fellThrough m1 ∧
      m1.trace = [.store 4100 4, .barrier] := by
  obtain ⟨c1, m1, h1, h2, h3, _⟩ := genMonitorExit_fast_path monitorOffsets 0
    (witnessUnit.regLocation 0) witnessUnit (monitorMachine 44 5 false) 44 5 rfl rfl
    (by decide) (by decide) (by decide)
  refine ⟨c1, m1, h1, h2, ?_⟩
  rw [h3, if_pos (by decide)]
  decide

/-! ## C14: monitor enter -/

theorem opIT_eq_single (c : CompilationUnit) :
    opIT .kArmCondEq "" c =
      some (c.lir.length, { c with lir := c.lir ++ [⟨.raw .kThumb2It [0, 8], false, .null⟩] }) :=
  rfl

theorem opIT_ne_then (c : CompilationUnit) :
    opIT .kArmCondNe "T" c =
      some (c.lir.length, { c with lir := c.lir ++ [⟨.raw .kThumb2It [1, 12], false, .null⟩] }) :=
  rfl

/-- The instructions of monitor enter; `check` is the null check, if any. -/
theorem genMonitorEnter_emits (off : RuntimeOffsets) (optFlags : Nat) (rlSrc : RegLocation)
    (c : CompilationUnit) :
    ∃ check, (check = [] ∨ check = [⟨.genNullCheck rlSrc.sRegLow r0, false, .null⟩]) ∧
      (genMonitorEnter off optFlags rlSrc c).map (fun r => r.2.lir) = some
        (c.lir ++ (([⟨.flushAllRegs, false, .null⟩,
            ⟨.loadValueDirectFixed rlSrc r0, false, .null⟩] ++ check) ++
            monitorEnterCode off (c.lir.length + 2 + check.length + 11))) := by
  by_cases hf : optFlags &&& MIR_IGNORE_NULL_CHECK = 0
  · refine ⟨[⟨.genNullCheck rlSrc.sRegLow r0, false, .null⟩], Or.inr rfl, ?_⟩
    simp [genMonitorEnter, oatFlushAllRegs, loadValueDirectFixed, oatLockCallTemps, oatLockTemp,
      genNullCheck, hf, loadWordDisp, opRegImm, newLIR3, newLIR4, rawLIR,
      opIT_eq_single, opIT_ne_then, oatClobberCalleeSave, opReg, markSafepointPC,
      oatGenMemBarrier, emit, oatAppendLIR, monitorEnterCode]
  · refine ⟨[], Or.inl rfl, ?_⟩
    simp [genMonitorEnter, oatFlushAllRegs, loadValueDirectFixed, oatLockCallTemps, oatLockTemp,
      genNullCheck, hf, loadWordDisp, opRegImm, newLIR3, newLIR4, rawLIR,
      opIT_eq_single, opIT_ne_then, oatClobberCalleeSave, opReg, markSafepointPC,
      oatGenMemBarrier, emit, oatAppendLIR, monitorEnterCode]

theorem execInsn_it_eq_single (n : Bool) (t : Target) (b : Bool) (m : Machine) :
    execInsn ⟨.raw .kThumb2It [0, 8], n, t⟩ b m = .next (m.setIT 8) := rfl

theorem execInsn_it_ne_then (n : Bool) (t : Target) (b : Bool) (m : Machine) :
    execInsn ⟨.raw .kThumb2It [1, 12], n, t⟩ b m = .next (m.setIT 28) := rfl

theorem itAdvance_8 : itAdvance 8 = 0 := rfl

set_option maxHeartbeats 2000000 in
/-- Monitor enter behind the null check: the store-conditional is attempted
when the lock word, hash state apart, is 0, and the call is made when it is
not or when the store-conditional fails. -/
theorem monitorEnterCode_run (off : RuntimeOffsets) (callIdx base : Nat) (m : Machine)
    (lockWord tid : Int) (hit : m.itstate = 0) (htr : m.trace = [])
    (hlock : wrap32 (m.mem (wrap32 (m.regs r0 + off.monitorOffset / 4 * 4))) = lockWord)
    (htid : wrap32 (m.mem (wrap32 (m.regs rSELF + off.thinLockIdOffset))) = tid) :
    ∃ m1, run ((monitorEnterCode off callIdx).map (unshiftLIR base)) 15 0 m = .fellThrough m1 ∧
      m1.trace =
        if bitFieldClear lockWord LW_HASH_STATE_SHIFT.toNat (LW_LOCK_OWNER_SHIFT - 1).toNat = 0
        then
          if m.strexFails then
            [.storeExclusive (wrap32 (m.regs r0 + off.monitorOffset / 4 * 4))
                (bitFieldInsert (wrap32 (tid * 2 ^ LW_LOCK_OWNER_SHIFT.toNat)) lockWord 0
                  (LW_LOCK_OWNER_SHIFT - 1).toNat) 1,
              .call (wrap32 (m.mem (wrap32 (m.regs rSELF + off.pLockObjectFromCode)))),
              .barrier]
          else
            [.storeExclusive (wrap32 (m.regs r0 + off.monitorOffset / 4 * 4))
                (bitFieldInsert (wrap32 (tid * 2 ^ LW_LOCK_OWNER_SHIFT.toNat)) lockWord 0
                  (LW_LOCK_OWNER_SHIFT - 1).toNat) 0,
              .barrier]
        else
          [.call (wrap32 (m.mem (wrap32 (m.regs rSELF + off.pLockObjectFromCode)))),
            .barrier] := by
  have hw : wrap32 (bitFieldClear lockWord LW_HASH_STATE_SHIFT.toNat
      (LW_LOCK_OWNER_SHIFT - 1).toNat) =
      bitFieldClear lockWord LW_HASH_STATE_SHIFT.toNat (LW_LOCK_OWNER_SHIFT - 1).toNat := by
    apply bitFieldClear_word <;> rw [← hlock] <;> unfold wrap32 <;> omega
  have w0 : wrap32 0 = 0 := rfl
  have w1 : wrap32 1 = 1 := rfl
  have n10 : ¬ ((1 : Int) = 0) := by decide
  have z0 : (0 : Int).toNat = 0 := rfl
  have d01 : r0 ≠ r1 := by decide
  have d02 : r0 ≠ r2 := by decide
  have d12 : r1 ≠ r2 := by decide
  have ds0 : rSELF ≠ r0 := by decide
  have ds1 : rSELF ≠ r1 := by decide
  have ds2 : rSELF ≠ r2 := by decide
  have dl0 : rLR ≠ r0 := by decide
  have dl1 : rLR ≠ r1 := by decide
  have dl2 : rLR ≠ r2 := by decide
  have dls : rLR ≠ rSELF := by decide
  cases hf : m.strexFails <;>
  simp (disch := first | decide | simp [hit, inITBlock, itAdvance, Insn.isPseudo]) only
    [monitorEnterCode, List.map_cons, List.map_nil, unshiftLIR, unshiftTarget,
    run_succ_after, List.getElem?_cons_zero, List.getElem?_cons_succ, List.getElem?_nil,
    stepLIR_plain, stepLIR_inIT, stepLIR_pseudo, afterStep_ite, afterStep_next,
    execInsn_loadWordDisp, execInsn_lslImm, execInsn_ldrex, execInsn_strex, execInsn_bfi,
    execInsn_bfc, execInsn_cmpImm, execInsn_blx, execInsn_markSafepointPC,
    execInsn_genMemBarrier, execInsn_it_eq_single, execInsn_it_ne_then, setReg_mem,
    clobberFlags_mem, setFlags_mem, setIT_mem, itAdvance_8, itAdvance_28, itAdvance_24,
    Nat.reduceMod, Nat.reduceDiv, Nat.reduceMul, Nat.reduceAdd, if_true, if_false, ↓reduceIte,
    setReg_regs, setFlags_regs, setFlags_flags, setFlags_itstate, setIT_regs,
    setIT_flags, setIT_itstate, clobberFlags_regs, clobberFlags_itstate,
    setReg_flags, setReg_itstate, setMem_regs, setMem_flags, setMem_itstate, setMem_mem,
    record_regs, record_flags, record_itstate, record_mem, setReg_strexFails,
    setFlags_strexFails, setIT_strexFails, clobberFlags_strexFails, setMem_strexFails,
    record_strexFails, hf, Bool.false_eq_true,
    d01, d02, d12, ds0, ds1, ds2, dl0, dl1, dl2, dls,
    Ne.symm d01, Ne.symm d02, Ne.symm d12, z0,
    hlock, htid, conditionPassed_eq, conditionPassed_ne, decide_eq_true_eq, wrap32_wrap32, hw,
    w0, w1, n10, ne_eq, not_true_eq_false, not_false_eq_true] <;>
  split_ifs <;>
    first
    | contradiction
    | exact ⟨_, rfl, by simp [htr]⟩

/-- C14: in the sequence monitor enter emits, run on a non-null object whose
lock word is `lockWord` by the thread whose id is `tid`, the store-conditional
is attempted if and only if the lock word with its hash-state bits cleared is
0, and the slow-path lock routine is called if and only if that test failed or
the store-conditional reported failure. Hence a run that makes no slow-path
call started from the unheld state: a thin lock word whose owner and count
bits are all 0. -/
theorem genMonitorEnter_fast_path (off : RuntimeOffsets) (optFlags : Nat) (rlSrc : RegLocation)
    (c : CompilationUnit) (m : Machine) (lockWord tid : Int)
    (hit : m.itstate = 0) (htr : m.trace = []) (hnz : valueAt m rlSrc ≠ 0)
    (hlock : wrap32 (m.mem (wrap32 (valueAt m rlSrc + off.monitorOffset / 4 * 4))) = lockWord)
    (htid : wrap32 (m.mem (wrap32 (m.regs rSELF + off.thinLockIdOffset))) = tid) :
    ∃ c1 m1, genMonitorEnter off optFlags rlSrc c = some ((), c1) ∧
      runEmitted c c1 m = .fellThrough m1 ∧
      (m1.trace =
        if bitFieldClear lockWord LW_HASH_STATE_SHIFT.toNat (LW_LOCK_OWNER_SHIFT - 1).toNat = 0
        then
          if m.strexFails then
            [.storeExclusive (wrap32 (valueAt m rlSrc + off.monitorOffset / 4 * 4))
                (bitFieldInsert (wrap32 (tid * 2 ^ LW_LOCK_OWNER_SHIFT.toNat)) lockWord 0
                  (LW_LOCK_OWNER_SHIFT - 1).toNat) 1,
              .call (wrap32 (m.mem (wrap32 (m.regs rSELF + off.pLockObjectFromCode)))),
              .barrier]
          else
            [.storeExclusive (wrap32 (valueAt m rlSrc + off.monitorOffset / 4 * 4))
                (bitFieldInsert (wrap32 (tid * 2 ^ LW_LOCK_OWNER_SHIFT.toNat)) lockWord 0
                  (LW_LOCK_OWNER_SHIFT - 1).toNat) 0,
              .barrier]
        else
          [.call (wrap32 (m.mem (wrap32 (m.regs rSELF + off.pLockObjectFromCode)))),
            .barrier]) ∧
      ((∀ a, Event.call a ∉ m1.trace) →
        lockWord % 2 = LW_SHAPE_THIN ∧ lockWord / 2 ^ LW_LOCK_OWNER_SHIFT.toNat = 0) := by
  obtain ⟨check, hc, he⟩ := genMonitorEnter_emits off optFlags rlSrc c
  cases hg : genMonitorEnter off optFlags rlSrc c with
  | none => rw [hg] at he; simp at he
  | some p =>
      obtain ⟨⟨⟩, c1⟩ := p
      rw [hg] at he
      simp only [Option.map_some', Option.some.injEq] at he
      have hs := monitor_prologue rlSrc check m hc hit hnz
      have hrun := runEmitted_loads_core c c1 _ _ m _ he hs
        (by simp [monitorEnterCode])
      have ds0 : rSELF ≠ r0 := by decide
      obtain ⟨m1, hr, ht⟩ := monitorEnterCode_run off
        (c.lir.length + 2 + check.length + 11)
        (c.lir ++ ([LIR.mk .flushAllRegs false .null,
          LIR.mk (.loadValueDirectFixed rlSrc r0) false .null] ++ check)).length
        (m.setReg r0 (valueAt m rlSrc)) lockWord tid (by simp [hit]) (by simp [htr])
        (by simp [hlock]) (by simp [htid, ds0])
      simp only [setReg_regs, setReg_mem, setReg_strexFails, if_true, ds0, if_false] at ht
      refine ⟨c1, m1, rfl, ?_, ht, ?_⟩
      · rw [hrun]; exact hr
      · intro hno
        have h0 : 0 ≤ lockWord ∧ lockWord < 4294967296 := by
          rw [← hlock]; unfold wrap32; omega
        by_cases hz : bitFieldClear lockWord LW_HASH_STATE_SHIFT.toNat
            (LW_LOCK_OWNER_SHIFT - 1).toNat = 0
        · have e1 : LW_HASH_STATE_SHIFT.toNat = 1 := rfl
          have e2 : (LW_LOCK_OWNER_SHIFT - 1).toNat = 2 := rfl
          have e3 : LW_LOCK_OWNER_SHIFT.toNat = 3 := rfl
          have e4 : LW_SHAPE_THIN = 0 := rfl
          rw [e1, e2] at hz
          rw [e3, e4]
          unfold bitFieldClear at hz
          norm_num at hz ⊢
          omega
        · rw [ht, if_neg hz] at hno
          exact absurd (List.mem_cons_self _ _) (hno _)

theorem genMonitorEnter_fast_path_witness :
    ∃ c1 m1, genMonitorEnter monitorOffsets 0 (witnessUnit.regLocation 0) witnessUnit =
        some ((), c1) ∧
      runEmitted witnessUnit c1 (monitorMachine 4 5 true) = .fellThrough m1 ∧
      m1.trace = [.storeExclusive 4100 40 1, .call 77, .barrier] := by
  obtain ⟨c1, m1, h1, h2, h3, _⟩ := genMonitorEnter_fast_path monitorOffsets 0
    (witnessUnit.regLocation 0) witnessUnit (monitorMachine 4 5 true) 4 5 rfl rfl
    (by decide) (by decide) (by decide)
  refine ⟨c1, m1, h1, h2, ?_⟩
  rw [h3, if_pos (by decide), if_pos (by decide)]
  decide

/-! ## C15: when `opIT` is fatal -/

/-- The mask `opIT` assembles from its three guide bits and the terminating
bit is the mask of the spec. -/
theorem specITMask_eq (b : Nat) (hb : b < 2) (g : List Char) (hlen : g.length ≤ 3) :
    ((if g.length = 3 ∨ g.length = 2 ∨ g.length = 1 then
          (if g.getD 0 (Char.ofNat 0) = 'T' then b else b ^^^ 1)
        else 0) <<< 3) |||
      ((if g.length = 3 ∨ g.length = 2 then
          (if g.getD 1 (Char.ofNat 0) = 'T' then b else b ^^^ 1)
        else 0) <<< 2) |||
      ((if g.length = 3 then
          (if g.getD 2 (Char.ofNat 0) = 'T' then b else b ^^^ 1)
        else 0) <<< 1) ||| (1 <<< (3 - g.length)) = specITMask b g := by
  have hb01 : b = 0 ∨ b = 1 := by omega
  rcases g with _ | ⟨x, _ | ⟨y, _ | ⟨z, _ | ⟨w, t⟩⟩⟩⟩
  · rcases hb01 with rfl | rfl <;> rfl
  · rcases hb01 with rfl | rfl <;> by_cases hx : x = 'T' <;>
      simp [specITMask, specITMaskFrom, hx]
  · rcases hb01 with rfl | rfl <;> by_cases hx : x = 'T' <;> by_cases hy : y = 'T' <;>
      simp [specITMask, specITMaskFrom, hx, hy]
  · rcases hb01 with rfl | rfl <;> by_cases hx : x = 'T' <;> by_cases hy : y = 'T' <;>
      by_cases hz : z = 'T' <;>
      simp [specITMask, specITMaskFrom, hx, hy, hz]
  · simp at hlen

/-- C15: `opIT` fails with a fatal error if and only if the guide is longer
than 3 characters; for every guide of length 0 to 3 it appends one IT
instruction and returns it, and the operands of that instruction are the base
condition code and the mask of the spec for bit 0 of the condition and the
guide: the bit of each guide character from position 3 downwards, equal to
bit 0 of the condition for `T` and to its complement otherwise, and the
terminating bit 1 at position 3 minus the guide's length. -/
theorem opIT_fatal_iff_long (c : CompilationUnit) (code : ArmConditionCode) (guide : String) :
    (opIT code guide c = none ↔ 3 < guide.data.length) ∧
      (guide.data.length ≤ 3 →
        opIT code guide c =
            some (c.lir.length,
              { c with
                lir := c.lir ++
                  [⟨.raw .kThumb2It
                    [code.toNat, specITMask (code.toNat % 2) guide.data], false, .null⟩] }) ∧
          itMask c code guide = some (specITMask (code.toNat % 2) guide.data)) := by
  have hg : String.mk guide.data = guide := rfl
  constructor
  · by_cases h : guide.data.length > 3
    · have e : opIT code guide c = none := by simp only [opIT, h, ↓reduceIte, fatal]
      rw [e]
      exact ⟨fun _ => h, fun _ => rfl⟩
    · obtain ⟨mask, h1, -, -⟩ := opIT_emits c code guide.data (by omega)
      rw [hg] at h1
      simp only [h1]
      constructor
      · intro h2; cases h2
      · intro h2; omega
  · intro h
    obtain ⟨mask, h1, h2, h3⟩ := opIT_emits c code guide.data h
    rw [hg] at h1 h2
    rw [specITMask_eq (code.toNat % 2) (Nat.mod_lt _ (by decide)) guide.data h] at h3
    subst h3
    exact ⟨h1, h2⟩

theorem opIT_fatal_iff_long_witness :
    (opIT .kArmCondNe "TETE" witnessUnit = none ↔ 3 < "TETE".data.length) ∧
      opIT .kArmCondNe "TE" witnessUnit =
          some (witnessUnit.lir.length,
            { witnessUnit with
              lir := witnessUnit.lir ++
                [⟨.raw .kThumb2It
                  [ArmConditionCode.kArmCondNe.toNat,
                    specITMask (ArmConditionCode.kArmCondNe.toNat % 2) "TE".data],
                  false, .null⟩] }) ∧
        itMask witnessUnit .kArmCondNe "TE" =
          some (specITMask (ArmConditionCode.kArmCondNe.toNat % 2) "TE".data) ∧
        specITMask (ArmConditionCode.kArmCondNe.toNat % 2) "TE".data = 10 :=
  ⟨(opIT_fatal_iff_long witnessUnit .kArmCondNe "TETE").1,
    ((opIT_fatal_iff_long witnessUnit .kArmCondNe "TE").2 (by decide)).1,
    ((opIT_fatal_iff_long witnessUnit .kArmCondNe "TE").2 (by decide)).2, by decide⟩

/-! ## C16: a special case without a handler -/

/-- The instruction of the concrete input below is not compiled as a special
case: the call returns. -/
theorem genSpecialCase_no_handler_returns :
    genSpecialCase none (fusedMir 0) .kNoHandler witnessUnit ≠ none := by
  simp [genSpecialCase, specialCaseHandler, setCurrentDalvikOffset]

/-- C16, as the code has it: called with a special-case enumerator it does not
handle (any value outside `kNullMethod`, `kConstFunction`, the `kIGet*` and
`kIPut*` variants and `kIdentity`), `genSpecialCase` returns to its caller,
having emitted nothing and changed nothing but the current bytecode offset. -/
theorem genSpecialCase_unhandled_returns (bb : Option BasicBlock) (mir : MIR)
    (specialCase : SpecialCaseHandler) (c : CompilationUnit)
    (h : specialCase ∉ [SpecialCaseHandler.kNullMethod, .kConstFunction, .kIGet, .kIGetBoolean,
      .kIGetObject, .kIGetByte, .kIGetChar, .kIGetShort, .kIGetWide, .kIPut, .kIPutBoolean,
      .kIPutObject, .kIPutByte, .kIPutChar, .kIPutShort, .kIPutWide, .kIdentity]) :
    genSpecialCase bb mir specialCase c =
      some ((), { c with currentDalvikOffset := mir.offset }) := by
  cases specialCase <;> first
    | exact absurd (by decide) h
    | simp [genSpecialCase, specialCaseHandler, setCurrentDalvikOffset]

theorem genSpecialCase_unhandled_returns_witness :
    genSpecialCase none (fusedMir 0) .kNoHandler busyUnit =
      some ((), { busyUnit with currentDalvikOffset := (fusedMir 0).offset }) :=
  genSpecialCase_unhandled_returns none (fusedMir 0) .kNoHandler busyUnit (by decide)

/-! ## C17: the mask for Eq and the guide "T" -/

/-- For the base condition Eq and the guide "T", the mask is not 0b1010. -/
theorem opIT_eq_then_mask_not_ten : itMask witnessUnit .kArmCondEq "T" ≠ some 10 := by
  decide

/-- C17, as the code has it: for the base condition Eq (whose bit 0 is 0) and
the guide "T", the mask `opIT` computes is 0b0100. -/
theorem opIT_eq_then_mask (c : CompilationUnit) : itMask c .kArmCondEq "T" = some 4 := by
  have h : opIT .kArmCondEq "T" c =
      some (c.lir.length,
        { c with lir := c.lir ++ [⟨.raw .kThumb2It [0, 4], false, .null⟩] }) := rfl
  simp [itMask, h]

/-! ## C18: loading an argument -/

/-- C18: `loadArg` materializes an argument that lives in the frame and does
nothing otherwise. For a frame location at position k it takes one scratch
register, loads the word at stack-pointer offset (k+1)*4 into it as `lowReg`,
for a wide value takes a second one and loads the word at offset (k+2)*4 into
it as `highReg`, and returns the location tagged as held in registers; any
other location is returned as it is, with nothing emitted and no register
taken; so loading what `loadArg` returned returns it again and changes
nothing. -/
theorem loadArg_materializes (c : CompilationUnit) (loc : RegLocation) (t1 t2 : Int)
    (rest : List Int) (hn : c.regPool.temps.Nodup) (hf : c.regPool.free = t1 :: t2 :: rest) :
    (loc.location = .kLocDalvikFrame → loc.wide = false →
      loadArg loc c = some ({ loc with lowReg := t1, location := .kLocPhysReg },
        { c with
          lir := c.lir ++
            [⟨.loadWordDisp rSP ((inPosition c loc.sRegLow + 1) * 4) t1, false, .null⟩]
          regPool := { c.regPool with inUse := t1 :: c.regPool.inUse } })) ∧
    (loc.location = .kLocDalvikFrame → loc.wide = true →
      loadArg loc c =
        some ({ loc with lowReg := t1, highReg := t2, location := .kLocPhysReg },
          { c with
            lir := c.lir ++
              [⟨.loadWordDisp rSP ((inPosition c loc.sRegLow + 1) * 4) t1, false, .null⟩,
               ⟨.loadWordDisp rSP ((inPosition c loc.sRegLow + 2) * 4) t2, false, .null⟩]
            regPool := { c.regPool with inUse := t2 :: t1 :: c.regPool.inUse } })) ∧
    (loc.location ≠ .kLocDalvikFrame → loadArg loc c = some (loc, c)) ∧
    (∀ loc1 c1, loadArg loc c = some (loc1, c1) → loadArg loc1 c1 = some (loc1, c1)) := by
  obtain ⟨a1, f1⟩ := RegisterPool.alloc_of_free c.regPool.temps c.regPool.inUse t1 _ hn hf
  obtain ⟨a2, -⟩ := RegisterPool.alloc_of_free c.regPool.temps _ t2 _ hn f1
  have e2 : (inPosition c loc.sRegLow + 1) * 4 + 4 = (inPosition c loc.sRegLow + 2) * 4 := by
    ring
  have hnarrow : loc.location = .kLocDalvikFrame → loc.wide = false →
      loadArg loc c = some ({ loc with lowReg := t1, location := .kLocPhysReg },
        { c with
          lir := c.lir ++
            [⟨.loadWordDisp rSP ((inPosition c loc.sRegLow + 1) * 4) t1, false, .null⟩]
          regPool := { c.regPool with inUse := t1 :: c.regPool.inUse } }) := by
    intro h hw
    simp [loadArg, h, hw, getUnit, oatAllocTemp, a1, loadWordDisp, emit, oatAppendLIR]
  have hwide : loc.location = .kLocDalvikFrame → loc.wide = true →
      loadArg loc c =
        some ({ loc with lowReg := t1, highReg := t2, location := .kLocPhysReg },
          { c with
            lir := c.lir ++
              [⟨.loadWordDisp rSP ((inPosition c loc.sRegLow + 1) * 4) t1, false, .null⟩,
               ⟨.loadWordDisp rSP ((inPosition c loc.sRegLow + 2) * 4) t2, false, .null⟩]
            regPool := { c.regPool with inUse := t2 :: t1 :: c.regPool.inUse } }) := by
    intro h hw
    simp [loadArg, h, hw, getUnit, oatAllocTemp, a1, a2, loadWordDisp, emit, oatAppendLIR, e2]
  have hother : ∀ (l : RegLocation) (d : CompilationUnit), l.location ≠ .kLocDalvikFrame →
      loadArg l d = some (l, d) := by
    intro l d h
    simp [loadArg, h]
  refine ⟨hnarrow, hwide, hother loc c, ?_⟩
  intro loc1 c1 h
  by_cases hl : loc.location = .kLocDalvikFrame
  · cases hw : loc.wide
    · rw [hnarrow hl hw] at h
      simp only [Option.some.injEq, Prod.mk.injEq] at h
      obtain ⟨rfl, rfl⟩ := h
      exact hother _ _ (by simp)
    · rw [hwide hl hw] at h
      simp only [Option.some.injEq, Prod.mk.injEq] at h
      obtain ⟨rfl, rfl⟩ := h
      exact hother _ _ (by simp)
  · rw [hother loc c hl] at h
    simp only [Option.some.injEq, Prod.mk.injEq] at h
    obtain ⟨rfl, rfl⟩ := h
    exact hother _ _ hl

theorem loadArg_materializes_witness :
    loadArg ⟨.kLocDalvikFrame, true, 9, -1, -1⟩ witnessUnit =
      some (⟨.kLocPhysReg, true, 9, 0, 1⟩,
        { witnessUnit with
          lir := witnessUnit.lir ++
            [⟨.loadWordDisp rSP ((inPosition witnessUnit 9 + 1) * 4) 0, false, .null⟩,
             ⟨.loadWordDisp rSP ((inPosition witnessUnit 9 + 2) * 4) 1, false, .null⟩]
          regPool := { witnessUnit.regPool with inUse := 1 :: 0 :: witnessUnit.regPool.inUse } }) :=
  (loadArg_materializes witnessUnit ⟨.kLocDalvikFrame, true, 9, -1, -1⟩ 0 1 [2, 3, 12]
    (by decide) (by decide)).2.1 rfl rfl

/-! ## C19: the next instruction -/

/-- C19: `getNextMir` on a block (whose fall-through chain is finite): if `mir`
has a successor in its own block, that successor is returned and the block
pointer is left as it was; otherwise the first MIR of the nearest block along
the fall-through chain that has any MIR is returned and the block pointer is
set to that block; if there is no such block, the original `mir` is returned
and the block pointer is set to NULL. -/
theorem getNextMir_spec (bb : BasicBlock) (mir : MIR) :
    getNextMir (some bb) mir =
      match mir.next with
      | some m => (m, some bb)
      | none =>
          match (fallThroughChain bb).find? (fun b => b.firstMIRInsn.isSome) with
          | some b => (b.firstMIRInsn.getD mir, some b)
          | none => (mir, none) := by
  have walk : ∀ b : BasicBlock, getNextMirWalk mir b =
      match (fallThroughChain b).find? (fun b => b.firstMIRInsn.isSome) with
      | some b1 => (b1.firstMIRInsn.getD mir, some b1)
      | none => (mir, none) := by
    intro b
    induction b using BasicBlock.rec
      (motive_2 := fun o => ∀ b1, o = some b1 → getNextMirWalk mir b1 =
        match (fallThroughChain b1).find? (fun b => b.firstMIRInsn.isSome) with
        | some b2 => (b2.firstMIRInsn.getD mir, some b2)
        | none => (mir, none)) with
    | mk id first ft tk ih1 _ =>
        cases ft with
        | none => simp [getNextMirWalk, fallThroughChain]
        | some b1 =>
            have ih := ih1 b1 rfl
            cases hfm : b1.firstMIRInsn with
            | none => simp [getNextMirWalk, fallThroughChain, hfm, ih]
            | some m => simp [getNextMirWalk, fallThroughChain, hfm]
    | none => rename_i h; cases h
    | some b ih => rename_i h; cases h; exact ih
  cases hnx : mir.next with
  | some m => simp [getNextMir, hnx]
  | none => simp only [getNextMir, hnx]; exact walk bb

/-! ## C20: compare with an immediate and branch -/

/-- C20: `opCmpImmBranch` selects its encoding as follows. It emits a single
compare-and-branch-on-zero instruction (cbz for Eq, cbnz for Ne) and nothing
else if and only if the register is a low register, the constant is 0 and the
condition is Eq or Ne. Otherwise it emits a compare followed by one conditional
branch, where the compare is the 16-bit 8-bit-immediate form when the register
is low and 0 ≤ constant ≤ 255, else the Thumb2 modified-immediate form when
`modifiedImmediate` of the constant is not negative, else a load of the
constant into a fresh scratch register followed by a register-register
compare. In every case the instruction returned is the branch, the last one
emitted, and its target is the target argument. -/
theorem opCmpImmBranch_encoding (cond : ConditionCode) (reg checkValue : Int) (target : Target)
    (c : CompilationUnit) (t : Int) (rest : List Int) (hf : c.regPool.free = t :: rest) :
    ∃ code pool, opCmpImmBranch cond reg checkValue target c =
        some (c.lir.length + code.length,
          { c with
            lir := c.lir ++ code ++
              [⟨.raw (if LOWREG reg = true ∧ checkValue = 0 ∧
                      (cond = .kCondEq ∨ cond = .kCondNe) then
                    (if cond = .kCondEq then .kThumb2Cbz else .kThumb2Cbnz)
                  else .kThumbBCond)
                (if LOWREG reg = true ∧ checkValue = 0 ∧
                      (cond = .kCondEq ∨ cond = .kCondNe) then [reg, 0]
                  else [0, (oatArmConditionEncoding cond).toNat]), false, target⟩]
            regPool := pool }) ∧
      (code = [] ↔ LOWREG reg = true ∧ checkValue = 0 ∧ (cond = .kCondEq ∨ cond = .kCondNe)) ∧
      (¬(LOWREG reg = true ∧ checkValue = 0 ∧ (cond = .kCondEq ∨ cond = .kCondNe)) →
        code =
          if LOWREG reg = true ∧ 0 ≤ checkValue ∧ checkValue ≤ 255 then
            [⟨.raw .kThumbCmpRI8 [reg, checkValue], false, .null⟩]
          else if modifiedImmediate checkValue ≥ 0 then
            [⟨.raw .kThumb2CmpRI8 [reg, modifiedImmediate checkValue], false, .null⟩]
          else
            [⟨.loadConstant t checkValue, false, .null⟩,
              ⟨.opRegReg .kOpCmp reg t, false, .null⟩]) ∧
      (pool = c.regPool ∨
        (pool = { c.regPool with inUse := t :: c.regPool.inUse } ∧
          ¬(LOWREG reg = true ∧ 0 ≤ checkValue ∧ checkValue ≤ 255) ∧
          modifiedImmediate checkValue < 0)) := by
  have ha : c.regPool.alloc = some (t, { c.regPool with inUse := t :: c.regPool.inUse }) := by
    simp [RegisterPool.alloc, hf]
  have hbyte : checkValue % 256 = checkValue ↔ 0 ≤ checkValue ∧ checkValue ≤ 255 := by omega
  have hcond : ((oatArmConditionEncoding cond = .kArmCondEq ∨
      oatArmConditionEncoding cond = .kArmCondNe) ↔ (cond = .kCondEq ∨ cond = .kCondNe)) ∧
      (oatArmConditionEncoding cond = .kArmCondEq ↔ cond = .kCondEq) := by
    cases cond <;> simp [oatArmConditionEncoding]
  by_cases hfast : LOWREG reg = true ∧ checkValue = 0 ∧ (cond = .kCondEq ∨ cond = .kCondNe)
  · refine ⟨[], c.regPool, ?_, by simp [hfast], fun h => absurd hfast h, Or.inl rfl⟩
    have hfast1 : LOWREG reg = true ∧ checkValue = 0 ∧
        (oatArmConditionEncoding cond = .kArmCondEq ∨
          oatArmConditionEncoding cond = .kArmCondNe) := ⟨hfast.1, hfast.2.1, hcond.1.2 hfast.2.2⟩
    simp only [opCmpImmBranch]
    rw [if_pos hfast1]
    simp only [if_pos hfast, hcond.2, gen_bind_apply,
      newLIR2, oatAppendLIR, setTarget, rawLIR, gen_pure_apply, getElem?_append_length,
      set_append_length, List.append_nil, List.length_nil, Nat.add_zero]
  · have hfast1 : ¬(LOWREG reg = true ∧ checkValue = 0 ∧
        (oatArmConditionEncoding cond = .kArmCondEq ∨
          oatArmConditionEncoding cond = .kArmCondNe)) := by
      rw [hcond.1]; exact hfast
    by_cases hb : LOWREG reg = true ∧ 0 ≤ checkValue ∧ checkValue ≤ 255
    · have hb1 : LOWREG reg = true ∧ checkValue % 256 = checkValue := ⟨hb.1, hbyte.2 hb.2⟩
      refine ⟨[⟨.raw .kThumbCmpRI8 [reg, checkValue], false, .null⟩], c.regPool, ?_,
        by simp [hfast], fun _ => by simp [hb], Or.inl rfl⟩
      simp only [opCmpImmBranch]
      rw [if_neg hfast1, if_pos hb1]
      simp [-List.getElem?_eq_getElem, List.getElem?_cons_zero, if_neg hfast, newLIR2,
          oatAppendLIR, setTarget, rawLIR, oatAllocTemp, ha, loadConstant, opRegReg, emit,
          getElem?_append_add, set_append_add]
    · have hb1 : ¬(LOWREG reg = true ∧ checkValue % 256 = checkValue) := by
        rw [hbyte]; exact hb
      by_cases hm : modifiedImmediate checkValue ≥ 0
      · refine ⟨[⟨.raw .kThumb2CmpRI8 [reg, modifiedImmediate checkValue], false, .null⟩],
          c.regPool, ?_, by simp [hfast], fun _ => by simp [hb, hm], Or.inl rfl⟩
        simp only [opCmpImmBranch]
        rw [if_neg hfast1, if_neg hb1, if_pos hm]
        simp [-List.getElem?_eq_getElem, List.getElem?_cons_zero, if_neg hfast, newLIR2,
          oatAppendLIR, setTarget, rawLIR, oatAllocTemp, ha, loadConstant, opRegReg, emit,
          getElem?_append_add, set_append_add]
      · refine ⟨[⟨.loadConstant t checkValue, false, .null⟩,
            ⟨.opRegReg .kOpCmp reg t, false, .null⟩],
          { c.regPool with inUse := t :: c.regPool.inUse }, ?_, by simp [hfast],
          fun _ => by simp [hb, hm], Or.inr ⟨rfl, hb, by omega⟩⟩
        simp only [opCmpImmBranch]
        rw [if_neg hfast1, if_neg hb1, if_neg hm]
        simp [-List.getElem?_eq_getElem, List.getElem?_cons_zero, if_neg hfast, newLIR2,
          oatAppendLIR, setTarget, rawLIR, oatAllocTemp, ha, loadConstant, opRegReg, emit,
          getElem?_append_add, set_append_add]

theorem opCmpImmBranch_encoding_witness :
    ∃ c1, opCmpImmBranch .kCondNe 1 0 (.block 3) witnessUnit = some (0, c1) ∧
      c1.lir = [⟨.raw .kThumb2Cbnz [1, 0], false, .block 3⟩] := by
  obtain ⟨code, pool, h1, h2, -, -⟩ :=
    opCmpImmBranch_encoding .kCondNe 1 0 (.block 3) witnessUnit 0 [1, 2, 3, 12] (by decide)
  have hc : code = [] := h2.2 (by decide)
  subst hc
  exact ⟨_, h1, by simp [witnessUnit, LOWREG]⟩

/-! ## C24: register copy -/

/-- The safe-optimizations bit of `disableOpt` is clear exactly when the mask
test of the copy finds nothing. -/
theorem safeOptimizations_bit (n : Nat) :
    n &&& (1 <<< kSafeOptimizations) = 0 ↔ n.testBit kSafeOptimizations = false := by
  rw [Nat.one_shiftLeft, Nat.and_two_pow]
  cases n.testBit kSafeOptimizations <;> simp

/-- C24: for general-purpose registers `opRegCopyNoInsert` builds one move
whose opcode is the low-to-low form when both registers are low, the
high-to-high form when both are high, the high-to-low form when only the
destination is low and the low-to-high form when only the source is low; the
move is flagged as a no-op if and only if `rDest = rSrc` and the
safe-optimizations bit is not set in `disableOpt`; it has no target. Building
it leaves the stream as it is (the result is a value), and `opRegCopy` appends
exactly that instruction and returns it. -/
theorem opRegCopyNoInsert_move (c : CompilationUnit) (rDest rSrc : Int)
    (hd : FPREG rDest = false) (hs : FPREG rSrc = false) :
    (∃ opcode, (opRegCopyNoInsert c rDest rSrc).insn = .raw opcode [rDest, rSrc] ∧
      (LOWREG rDest = true → LOWREG rSrc = true → opcode = .kThumbMovRR) ∧
      (LOWREG rDest = false → LOWREG rSrc = false → opcode = .kThumbMovRR_H2H) ∧
      (LOWREG rDest = true → LOWREG rSrc = false → opcode = .kThumbMovRR_H2L) ∧
      (LOWREG rDest = false → LOWREG rSrc = true → opcode = .kThumbMovRR_L2H)) ∧
    ((opRegCopyNoInsert c rDest rSrc).isNop = true ↔
      rDest = rSrc ∧ c.disableOpt.testBit kSafeOptimizations = false) ∧
    (opRegCopyNoInsert c rDest rSrc).target = .null ∧
    opRegCopy rDest rSrc c =
      some (c.lir.length, { c with lir := c.lir ++ [opRegCopyNoInsert c rDest rSrc] }) := by
  have hb := safeOptimizations_bit c.disableOpt
  have hnf : opRegCopyNoInsert c rDest rSrc =
      ⟨.raw (if LOWREG rDest && LOWREG rSrc then .kThumbMovRR
          else if !LOWREG rDest && !LOWREG rSrc then .kThumbMovRR_H2H
          else if LOWREG rDest then .kThumbMovRR_H2L
          else .kThumbMovRR_L2H) [rDest, rSrc],
        decide (c.disableOpt &&& (1 <<< kSafeOptimizations) = 0 ∧ rDest = rSrc), .null⟩ := by
    simp only [opRegCopyNoInsert, hd, hs, rawLIR]
    by_cases h : c.disableOpt &&& (1 <<< kSafeOptimizations) = 0 ∧ rDest = rSrc
    · simp [h]
    · have h1 : ¬(c.disableOpt &&& (1 <<< kSafeOptimizations) = 0) ∨ ¬(rDest = rSrc) := by
        by_contra hc
        push_neg at hc
        exact h hc
      rcases h1 with h1 | h1 <;> simp [h1]
  rw [hnf]
  refine ⟨⟨_, rfl, ?_, ?_, ?_, ?_⟩, ?_, rfl, ?_⟩
  · intro h1 h2; simp [h1, h2]
  · intro h1 h2; simp [h1, h2]
  · intro h1 h2; simp [h1, h2]
  · intro h1 h2; simp [h1, h2]
  · simp only [decide_eq_true_eq, hb]
    exact and_comm
  · simp [opRegCopy, getUnit, oatAppendLIR, hnf]

theorem opRegCopyNoInsert_move_witness :
    (opRegCopyNoInsert witnessUnit 3 3).isNop = true ∧
      (opRegCopyNoInsert { witnessUnit with disableOpt := 128 } 3 3).isNop = false ∧
      opRegCopy 9 3 witnessUnit =
        some (witnessUnit.lir.length,
          { witnessUnit with lir := witnessUnit.lir ++ [opRegCopyNoInsert witnessUnit 9 3] }) :=
  ⟨(opRegCopyNoInsert_move witnessUnit 3 3 (by decide) (by decide)).2.1.2 (by decide),
    by decide,
    (opRegCopyNoInsert_move witnessUnit 9 3 (by decide) (by decide)).2.2.2⟩

/-! ## C25: the bounds check of an empty packed-switch table -/

/-- C25 (code defect): for a packed-switch table with no entry (`size` = 0)
and low key 10, the bounds check compares the index with `size - 1` = -1, that
is with 0xFFFFFFFF, which no index is above: for the switch value 11 the
displacement load is executed with index 1, and for the switch value 7 with
index 0xFFFFFFFD, and the indirect branch is taken with what was loaded from
behind the table. -/
theorem genPackedSwitch_empty_table_reads :
    codeUnit emptySwitchUnit 1 = 0 ∧
      packedDisp emptySwitchUnit 0 ⟨.kLocDalvikFrame, false, 0, -1, -1⟩ (switchMachine 11) =
        some (tableEntry (switchMachine 11) 0 1) ∧
      packedDisp emptySwitchUnit 0 ⟨.kLocDalvikFrame, false, 0, -1, -1⟩ (switchMachine 7) =
        some (tableEntry (switchMachine 7) 0 4294967293) := by
  decide

/-! ## C22: equality and the low words -/

/-- With the high words equal (both 0), the low words decide: for `==` the
fused compare goes to the taken label 1 on the low words 5 and 5, and does not
on the low words 5 and 7. -/
theorem genFusedLongCmpBranch_eq_reads_low :
    fusedBranch witnessUnit fusedBlock (fusedMir 0) (fusedMachine 0 5 0 5) = some 1 ∧
      fusedBranch witnessUnit fusedBlock (fusedMir 0) (fusedMachine 0 5 0 7) ≠ some 1 := by
  decide

/-- The fused compare for `==` and `!=`, run on registers that hold the
operands: when the high words differ the first branch decides, to the
not-taken label for `==` and to the taken label for `!=`; when they are equal
the low words decide. -/
theorem fusedCode_run_eq_ne (cond : ConditionCode) (h1 l1 h2 l2 tk ft : Int) (m : Machine)
    (aHi aLo bHi bLo : Int)
    (hcond : cond ∈ [ConditionCode.kCondEq, .kCondNe]) (hit : m.itstate = 0)
    (haH : -2147483648 ≤ aHi ∧ aHi < 2147483648) (haL : 0 ≤ aLo ∧ aLo < 4294967296)
    (hbH : -2147483648 ≤ bHi ∧ bHi < 2147483648) (hbL : 0 ≤ bLo ∧ bLo < 4294967296)
    (r1 : m.regs h1 = wrap32 aHi) (r2 : m.regs l1 = aLo)
    (r3 : m.regs h2 = wrap32 bHi) (r4 : m.regs l2 = bLo) :
    (aHi ≠ bHi →
      (run (fusedCode cond h1 l1 h2 l2 tk ft)
        ((fusedCode cond h1 l1 h2 l2 tk ft).length + 1) 0 m).block? =
        some (if cond = .kCondEq then ft else tk)) ∧
    (aHi = bHi →
      ((run (fusedCode cond h1 l1 h2 l2 tk ft)
        ((fusedCode cond h1 l1 h2 l2 tk ft).length + 1) 0 m).block? = some tk ↔
        if cond = .kCondEq then aLo = bLo else aLo ≠ bLo)) := by
  have w1 : wrap32 aLo = aLo := by unfold wrap32; omega
  have w2 : wrap32 bLo = bLo := by unfold wrap32; omega
  have w3 : wrap32 aHi = wrap32 bHi ↔ aHi = bHi := by unfold wrap32; omega
  simp only [List.mem_cons, List.mem_singleton, List.not_mem_nil, or_false] at hcond
  rcases hcond with h | h <;> subst h <;>
    simp (disch := first | decide | simp [hit]) only [fusedCode, lowWordCondition, List.cons_append,
      List.nil_append, run_succ_after, List.getElem?_cons_zero, List.getElem?_cons_succ,
      stepLIR_plain, execInsn_cmp, execInsn_condBranch, afterStep_ite, afterStep_next,
      afterStep_block, setFlags_regs, r1, r2, r3, r4,
      execCondBranch_cmp, condHolds, w1, w2, w3,
      decide_eq_true_eq, List.getElem?_nil, wrap32_wrap32,
      List.length_cons, List.length_nil, Nat.reduceAdd, if_true, if_false, reduceCtorEq, ne_eq] <;>
    constructor <;> intro hh <;>
    simp only [hh, not_true_eq_false, not_false_eq_true, if_true, if_false, Outcome.block?] <;>
    split_ifs <;>
    simp_all [Outcome.block?]

/-- The fused long compare returns, and running what it emitted is running the
compare-and-branch instructions on registers that hold the operands. -/
theorem genFusedLongCmpBranch_loaded (c : CompilationUnit) (bb tk ft : BasicBlock) (mir : MIR)
    (uses : List Int) (s1 s2 : Int) (cond : ConditionCode) (m : Machine)
    (aHi aLo bHi bLo : Int)
    (htk : bb.taken = some tk) (hft : bb.fallThrough = some ft)
    (huses : mir.ssaRep = some uses) (hu0 : uses[0]? = some s1) (hu2 : uses[2]? = some s2)
    (hcc : ConditionCode.ofInt mir.arg0 = some cond)
    (hcond : cond ∈ [ConditionCode.kCondEq, .kCondNe, .kCondLt, .kCondLe, .kCondGt, .kCondGe])
    (hv1 : wideValueAt m (c.regLocation s1) = (aLo, wrap32 aHi))
    (hv2 : wideValueAt m (c.regLocation s2) = (bLo, wrap32 bHi))
    (hn : c.regPool.temps.Nodup) (hf : 4 ≤ c.regPool.free.length)
    (hr1 : (c.regLocation s1).location = .kLocPhysReg →
      (c.regLocation s1).lowReg ∉ c.regPool.free ∧ (c.regLocation s1).highReg ∉ c.regPool.free)
    (hr2 : (c.regLocation s2).location = .kLocPhysReg →
      (c.regLocation s2).lowReg ∉ c.regPool.free ∧ (c.regLocation s2).highReg ∉ c.regPool.free)
    (hit : m.itstate = 0) :
    ∃ c1 h1 l1 h2 l2 m2, genFusedLongCmpBranch bb mir c = some ((), c1) ∧
      runEmitted c c1 m =
        run (fusedCode cond h1 l1 h2 l2 tk.id ft.id)
          ((fusedCode cond h1 l1 h2 l2 tk.id ft.id).length + 1) 0 m2 ∧
      m2.itstate = 0 ∧ m2.regs h1 = wrap32 aHi ∧ m2.regs l1 = aLo ∧
      m2.regs h2 = wrap32 bHi ∧ m2.regs l2 = bLo := by
  obtain ⟨loc1, loads1, use1, m1, e1, st1, it1, fr1, v1, k1, ⟨n1, hn1, f1⟩, nl1, nh1⟩ :=
    loadValueWide_run c (c.regLocation s1) .kCoreReg m hn (by omega) hit hr1
  have hf1 : 2 ≤ (RegisterPool.free ⟨c.regPool.temps, use1⟩).length := by
    rw [f1, List.length_drop]; omega
  have hr2a : (c.regLocation s2).location = .kLocPhysReg →
      (c.regLocation s2).lowReg ∉ RegisterPool.free ⟨c.regPool.temps, use1⟩ ∧
        (c.regLocation s2).highReg ∉ RegisterPool.free ⟨c.regPool.temps, use1⟩ := by
    intro hp
    rw [f1]
    exact ⟨fun h => (hr2 hp).1 (List.mem_of_mem_drop h),
      fun h => (hr2 hp).2 (List.mem_of_mem_drop h)⟩
  obtain ⟨loc2, loads2, use2, m2, e2, st2, it2, fr2, v2, k2, -, -, -⟩ :=
    loadValueWide_run { c with lir := c.lir ++ loads1, regPool := ⟨c.regPool.temps, use1⟩ }
      (c.regLocation s2) .kCoreReg m1 hn hf1 it1 hr2a
  obtain ⟨code, hcode, hshape⟩ := fusedHighBranches_emits cond tk.id ft.id hcond
  have hgen : genFusedLongCmpBranch bb mir c = some ((),
      { c with
        lir := c.lir ++ ((loads1 ++ loads2) ++
          fusedCode cond loc1.highReg loc1.lowReg loc2.highReg loc2.lowReg tk.id ft.id),
        regPool := ⟨c.regPool.temps, use2⟩ }) := by
    simp [genFusedLongCmpBranch, blockLabel, htk, hft, oatGetSrcWide, oatGetSrc, getUnit, huses,
      hu0, hu2, e1, e2, hcc, opRegReg, emit, oatAppendLIR, hcode, opCondBranch, hshape]
  have hrun := runEmitted_loads_core c
    { c with
      lir := c.lir ++ ((loads1 ++ loads2) ++
        fusedCode cond loc1.highReg loc1.lowReg loc2.highReg loc2.lowReg tk.id ft.id),
      regPool := ⟨c.regPool.temps, use2⟩ }
    (loads1 ++ loads2)
    (fusedCode cond loc1.highReg loc1.lowReg loc2.highReg loc2.lowReg tk.id ft.id) m m2 rfl
    (straight_append _ _ _ _ _ st1 st2) (fusedCode_targets _ _ _ _ _ _ _ _)
  rw [fusedCode_unshift] at hrun
  have hw : wideValueAt m1 (c.regLocation s2) = wideValueAt m (c.regLocation s2) := by
    unfold wideValueAt
    split
    · next hp => rw [k1 _ (hr2 hp).1, k1 _ (hr2 hp).2]
    · rw [fr1]
  rw [hv1] at v1
  rw [hw, hv2] at v2
  simp only [Prod.mk.injEq] at v1 v2
  have r1 : m2.regs loc1.highReg = wrap32 aHi := by rw [k2 _ nh1, v1.2]
  have r2 : m2.regs loc1.lowReg = aLo := by rw [k2 _ nl1, v1.1]
  exact ⟨_, _, _, _, _, m2, hgen, hrun, it2, r1, r2, v2.2, v2.1⟩

/-- C22, as the code has it: for the conditions `==` and `!=` the fused long
compare-and-branch resolves on the high-word comparison alone when the high
words differ, to the not-taken label for `==` and to the taken label for `!=`,
whatever the low words; when the high words are equal it is resolved by the
low words, and transfers to the taken label if and only if they are equal
(`==`) or differ (`!=`). -/
theorem genFusedLongCmpBranch_eq_ne (c : CompilationUnit) (bb tk ft : BasicBlock) (mir : MIR)
    (uses : List Int) (s1 s2 : Int) (cond : ConditionCode) (m : Machine)
    (aHi aLo bHi bLo : Int)
    (htk : bb.taken = some tk) (hft : bb.fallThrough = some ft)
    (huses : mir.ssaRep = some uses) (hu0 : uses[0]? = some s1) (hu2 : uses[2]? = some s2)
    (hcc : ConditionCode.ofInt mir.arg0 = some cond)
    (hcond : cond ∈ [ConditionCode.kCondEq, .kCondNe])
    (haH : -2147483648 ≤ aHi ∧ aHi < 2147483648) (haL : 0 ≤ aLo ∧ aLo < 4294967296)
    (hbH : -2147483648 ≤ bHi ∧ bHi < 2147483648) (hbL : 0 ≤ bLo ∧ bLo < 4294967296)
    (hv1 : wideValueAt m (c.regLocation s1) = (aLo, wrap32 aHi))
    (hv2 : wideValueAt m (c.regLocation s2) = (bLo, wrap32 bHi))
    (hn : c.regPool.temps.Nodup) (hf : 4 ≤ c.regPool.free.length)
    (hr1 : (c.regLocation s1).location = .kLocPhysReg →
      (c.regLocation s1).lowReg ∉ c.regPool.free ∧ (c.regLocation s1).highReg ∉ c.regPool.free)
    (hr2 : (c.regLocation s2).location = .kLocPhysReg →
      (c.regLocation s2).lowReg ∉ c.regPool.free ∧ (c.regLocation s2).highReg ∉ c.regPool.free)
    (hit : m.itstate = 0) :
    ∃ c1, genFusedLongCmpBranch bb mir c = some ((), c1) ∧
      (aHi ≠ bHi →
        (runEmitted c c1 m).block? = some (if cond = .kCondEq then ft.id else tk.id)) ∧
      (aHi = bHi →
        ((runEmitted c c1 m).block? = some tk.id ↔
          if cond = .kCondEq then aLo = bLo else aLo ≠ bLo)) := by
  have hcond6 : cond ∈ [ConditionCode.kCondEq, .kCondNe, .kCondLt, .kCondLe, .kCondGt,
      .kCondGe] := by
    simp only [List.mem_cons, List.mem_singleton, List.not_mem_nil, or_false] at hcond ⊢
    rcases hcond with h | h <;> simp [h]
  obtain ⟨c1, h1, l1, h2, l2, m2, hgen, hrun, it2, r1, r2, r3, r4⟩ :=
    genFusedLongCmpBranch_loaded c bb tk ft mir uses s1 s2 cond m aHi aLo bHi bLo htk hft huses
      hu0 hu2 hcc hcond6 hv1 hv2 hn hf hr1 hr2 hit
  have hcore := fusedCode_run_eq_ne cond h1 l1 h2 l2 tk.id ft.id m2 aHi aLo bHi bLo hcond it2
    haH haL hbH hbL r1 r2 r3 r4
  rw [← hrun] at hcore
  exact ⟨c1, hgen, hcore.1, hcore.2⟩

theorem genFusedLongCmpBranch_eq_ne_witness :
    ∃ c1, genFusedLongCmpBranch fusedBlock (fusedMir 1) witnessUnit = some ((), c1) ∧
      (runEmitted witnessUnit c1 (fusedMachine 3 5 4 5)).block? = some 1 :=
  match genFusedLongCmpBranch_eq_ne witnessUnit fusedBlock (.mk 1 none none none)
    (.mk 2 none none none) (fusedMir 1) [0, 1, 2, 3] 0 2 .kCondNe
    (fusedMachine 3 5 4 5) 3 5 4 5 rfl rfl rfl rfl rfl rfl (by decide)
    (by decide) (by decide) (by decide) (by decide) (by decide) (by decide) (by decide)
    (by decide) (by decide) (by decide) rfl with
  | ⟨c1, hg, hne, _⟩ => ⟨c1, hg, hne (by decide)⟩

/-! ## C21, C23: the switch-table record and the registers of the sparse switch -/

/-- The sparse switch, as emitted: the new record, and the instructions behind
the load of the switch value. `a` and `b` are the scratch registers the
allocator hands out for the key and the displacement. -/
theorem genSparseSwitch_emits (c : CompilationUnit) (tableOffset : Int) (rlSrc : RegLocation)
    (x1 x2 x3 x4 x5 : Int) (rest : List Int) (hn : c.regPool.temps.Nodup)
    (hfree : c.regPool.free = x1 :: x2 :: x3 :: x4 :: x5 :: rest) :
    ∃ loads src rBase a b rIdx,
      (rlSrc.location = .kLocPhysReg ∧ loads = [] ∧ src = rlSrc.lowReg ∧ rBase = x1 ∧ a = x2 ∧
          b = x3 ∧ rIdx = x4 ∨
        rlSrc.location ≠ .kLocPhysReg ∧
          loads = [⟨.loadValue x1 rlSrc.sRegLow, false, .null⟩] ∧ src = x1 ∧ rBase = x2 ∧
          a = x3 ∧ b = x4 ∧ rIdx = x5) ∧
      (genSparseSwitch tableOffset rlSrc c).map (fun r => (r.2.switchTables, r.2.lir)) =
        some (c.switchTables ++
            [⟨c.currentDalvikOffset + tableOffset, c.currentDalvikOffset,
              codeUnit c (c.currentDalvikOffset + tableOffset + 1),
              some (c.lir.length + loads.length + 6)⟩],
          c.lir ++ loads ++
            sparseSwitchCode c.switchTables.length
              (codeUnit c (c.currentDalvikOffset + tableOffset + 1)) rBase
              (if a > b then b else a) (if a > b then a else b) rIdx src
              (c.lir.length + loads.length + 2)) := by
  obtain ⟨a1, f1⟩ := RegisterPool.alloc_of_free c.regPool.temps c.regPool.inUse x1 _ hn hfree
  obtain ⟨a2, f2⟩ := RegisterPool.alloc_of_free c.regPool.temps _ x2 _ hn f1
  obtain ⟨a3, f3⟩ := RegisterPool.alloc_of_free c.regPool.temps _ x3 _ hn f2
  obtain ⟨a4, f4⟩ := RegisterPool.alloc_of_free c.regPool.temps _ x4 _ hn f3
  obtain ⟨a5, -⟩ := RegisterPool.alloc_of_free c.regPool.temps _ x5 _ hn f4
  by_cases hs : rlSrc.location = .kLocPhysReg
  · refine ⟨[], rlSrc.lowReg, x1, x2, x3, x4, Or.inl ⟨hs, rfl, rfl, rfl, rfl, rfl, rfl⟩, ?_⟩
    simp [-List.getElem?_eq_getElem, List.getElem?_cons_zero, genSparseSwitch, getUnit,
      oatInsertSwitchTable, loadValue, hs, oatAllocTemp, a1, a2, a3, a4, newLIR3, newLIR2,
      newLIR1, newLIR0, rawLIR, oatAppendLIR, loadConstant, opRegReg, emit, opCondBranch,
      opIT_eq_single, setAnchor, getElem?_append_add, set_append_add,
      getElem?_append_length, set_append_length, sparseSwitchCode]
  · refine ⟨[⟨.loadValue x1 rlSrc.sRegLow, false, .null⟩], x1, x2, x3, x4, x5,
      Or.inr ⟨hs, rfl, rfl, rfl, rfl, rfl, rfl⟩, ?_⟩
    simp [-List.getElem?_eq_getElem, List.getElem?_cons_zero, genSparseSwitch, getUnit,
      oatInsertSwitchTable, loadValue, hs, oatAllocTemp, a1, a2, a3, a4, a5, newLIR3, newLIR2,
      newLIR1, newLIR0, rawLIR, oatAppendLIR, loadConstant, opRegReg, emit, opCondBranch,
      opIT_eq_single, setAnchor, getElem?_append_add, set_append_add,
      getElem?_append_length, set_append_length, sparseSwitchCode]

/-- The packed switch, as emitted: the new record and the instruction its
anchor names. -/
theorem genPackedSwitch_record (c : CompilationUnit) (tableOffset : Int) (rlSrc : RegLocation)
    (x1 x2 x3 x4 : Int) (rest : List Int) (hn : c.regPool.temps.Nodup)
    (hfree : c.regPool.free = x1 :: x2 :: x3 :: x4 :: rest) :
    ∃ (a : Nat) (d : Int), c.lir.length ≤ a ∧
      (genPackedSwitch tableOffset rlSrc c).map (fun r => (r.2.switchTables, r.2.lir[a]?)) =
        some (c.switchTables ++
            [⟨c.currentDalvikOffset + tableOffset, c.currentDalvikOffset,
              codeUnit c (c.currentDalvikOffset + tableOffset + 1), some a⟩],
          some ⟨.raw .kThumb2AddPCR [d], false, .null⟩) := by
  obtain ⟨a1, f1⟩ := RegisterPool.alloc_of_free c.regPool.temps c.regPool.inUse x1 _ hn hfree
  obtain ⟨a2, f2⟩ := RegisterPool.alloc_of_free c.regPool.temps _ x2 _ hn f1
  obtain ⟨a3, f3⟩ := RegisterPool.alloc_of_free c.regPool.temps _ x3 _ hn f2
  obtain ⟨a4, -⟩ := RegisterPool.alloc_of_free c.regPool.temps _ x4 _ hn f3
  by_cases hs : rlSrc.location = .kLocPhysReg
  · by_cases hk : s4FromSwitchData c (c.currentDalvikOffset + tableOffset + 2) = 0
    · refine ⟨c.lir.length + 4, x2, by omega, ?_⟩
      simp [-List.getElem?_eq_getElem, List.getElem?_cons_zero, genPackedSwitch, getUnit,
        oatInsertSwitchTable, loadValue, hs, hk, oatAllocTemp, a1, a2, a3, a4, newLIR3,
        newLIR1, newLIR0, rawLIR, oatAppendLIR, opRegRegImm, opRegImm, emit, opCondBranch,
        loadBaseIndexed, setAnchor, setTarget, getElem?_append_add, set_append_add,
        getElem?_append_length, set_append_length]
    · refine ⟨c.lir.length + 5, x3, by omega, ?_⟩
      simp [-List.getElem?_eq_getElem, List.getElem?_cons_zero, genPackedSwitch, getUnit,
        oatInsertSwitchTable, loadValue, hs, hk, oatAllocTemp, a1, a2, a3, a4, newLIR3,
        newLIR1, newLIR0, rawLIR, oatAppendLIR, opRegRegImm, opRegImm, emit, opCondBranch,
        loadBaseIndexed, setAnchor, setTarget, getElem?_append_add, set_append_add,
        getElem?_append_length, set_append_length]
  · by_cases hk : s4FromSwitchData c (c.currentDalvikOffset + tableOffset + 2) = 0
    · refine ⟨c.lir.length + 5, x3, by omega, ?_⟩
      simp [-List.getElem?_eq_getElem, List.getElem?_cons_zero, genPackedSwitch, getUnit,
        oatInsertSwitchTable, loadValue, hs, hk, oatAllocTemp, a1, a2, a3, a4, newLIR3,
        newLIR1, newLIR0, rawLIR, oatAppendLIR, opRegRegImm, opRegImm, emit, opCondBranch,
        loadBaseIndexed, setAnchor, setTarget, getElem?_append_add, set_append_add,
        getElem?_append_length, set_append_length]
    · refine ⟨c.lir.length + 6, x4, by omega, ?_⟩
      simp [-List.getElem?_eq_getElem, List.getElem?_cons_zero, genPackedSwitch, getUnit,
        oatInsertSwitchTable, loadValue, hs, hk, oatAllocTemp, a1, a2, a3, a4, newLIR3,
        newLIR1, newLIR0, rawLIR, oatAppendLIR, opRegRegImm, opRegImm, emit, opCondBranch,
        loadBaseIndexed, setAnchor, setTarget, getElem?_append_add, set_append_add,
        getElem?_append_length, set_append_length]

/-- C21: `genPackedSwitch` and `genSparseSwitch` each append exactly one record
to the list of switch tables and leave the records already there as they are
and in order. The new record's table is the bytecode table at
`currentDalvikOffset + tableOffset`, its `vaddr` is `currentDalvikOffset`, its
targets array has `table[1]` entries, and its anchor is an instruction the
same call emits: the indirect branch `add pc, rDisp`. -/
theorem genSwitch_appends_record (c : CompilationUnit) (tableOffset : Int)
    (rlSrc : RegLocation) (x1 x2 x3 x4 x5 : Int) (rest : List Int)
    (hn : c.regPool.temps.Nodup)
    (hfree : c.regPool.free = x1 :: x2 :: x3 :: x4 :: x5 :: rest) :
    (∃ c1 a d, genPackedSwitch tableOffset rlSrc c = some ((), c1) ∧
      c1.switchTables = c.switchTables ++
        [⟨c.currentDalvikOffset + tableOffset, c.currentDalvikOffset,
          codeUnit c (c.currentDalvikOffset + tableOffset + 1), some a⟩] ∧
      c.lir.length ≤ a ∧
      c1.lir[a]? = some ⟨.raw .kThumb2AddPCR [d], false, .null⟩) ∧
    (∃ c1 a d, genSparseSwitch tableOffset rlSrc c = some ((), c1) ∧
      c1.switchTables = c.switchTables ++
        [⟨c.currentDalvikOffset + tableOffset, c.currentDalvikOffset,
          codeUnit c (c.currentDalvikOffset + tableOffset + 1), some a⟩] ∧
      c.lir.length ≤ a ∧
      c1.lir[a]? = some ⟨.raw .kThumb2AddPCR [d], false, .null⟩) := by
  constructor
  · obtain ⟨a, d, ha, he⟩ := genPackedSwitch_record c tableOffset rlSrc x1 x2 x3 x4 _ hn hfree
    cases hg : genPackedSwitch tableOffset rlSrc c with
    | none => rw [hg] at he; simp at he
    | some p =>
        obtain ⟨⟨⟩, c1⟩ := p
        rw [hg] at he
        simp only [Option.map_some', Option.some.injEq, Prod.mk.injEq] at he
        exact ⟨c1, a, d, rfl, he.1, ha, he.2⟩
  · obtain ⟨loads, src, rBase, a, b, rIdx, -, he⟩ :=
      genSparseSwitch_emits c tableOffset rlSrc x1 x2 x3 x4 x5 rest hn hfree
    cases hg : genSparseSwitch tableOffset rlSrc c with
    | none => rw [hg] at he; simp at he
    | some p =>
        obtain ⟨⟨⟩, c1⟩ := p
        rw [hg] at he
        simp only [Option.map_some', Option.some.injEq, Prod.mk.injEq] at he
        refine ⟨c1, c.lir.length + loads.length + 6, if a > b then a else b, rfl, he.1,
          by omega, ?_⟩
        rw [he.2, ← List.length_append, getElem?_append_add]
        rfl

theorem genSwitch_appends_record_witness :
    (∃ c1 a d, genPackedSwitch 0 ⟨.kLocDalvikFrame, false, 0, -1, -1⟩ switchUnit =
        some ((), c1) ∧
      c1.switchTables = switchUnit.switchTables ++
        [⟨switchUnit.currentDalvikOffset + 0, switchUnit.currentDalvikOffset,
          codeUnit switchUnit (switchUnit.currentDalvikOffset + 0 + 1), some a⟩] ∧
      switchUnit.lir.length ≤ a ∧
      c1.lir[a]? = some ⟨.raw .kThumb2AddPCR [d], false, .null⟩) ∧
    (∃ c1 a d, genSparseSwitch 0 ⟨.kLocDalvikFrame, false, 0, -1, -1⟩ switchUnit =
        some ((), c1) ∧
      c1.switchTables = switchUnit.switchTables ++
        [⟨switchUnit.currentDalvikOffset + 0, switchUnit.currentDalvikOffset,
          codeUnit switchUnit (switchUnit.currentDalvikOffset + 0 + 1), some a⟩] ∧
      switchUnit.lir.length ≤ a ∧
      c1.lir[a]? = some ⟨.raw .kThumb2AddPCR [d], false, .null⟩) :=
  genSwitch_appends_record switchUnit 0 ⟨.kLocDalvikFrame, false, 0, -1, -1⟩ 0 1 2 3 12 []
    (by decide) (by decide)

/-- C23: in `genSparseSwitch`, whatever pair of scratch registers `a`, `b` the
allocator returns for the key and the displacement, the register used as the
key has a number not greater than the register used as the displacement, and
strictly lower when the two differ; they are `a` and `b` in ascending order.
The register list of the pair load is `(1 << rKey) | (1 << rDisp)`, the
compare that follows it uses `rKey` and the indirect branch uses `rDisp`. -/
theorem genSparseSwitch_key_below_disp (c : CompilationUnit) (tableOffset : Int)
    (rlSrc : RegLocation) (x1 x2 x3 x4 x5 : Int) (rest : List Int)
    (hn : c.regPool.temps.Nodup)
    (hfree : c.regPool.free = x1 :: x2 :: x3 :: x4 :: x5 :: rest) :
    ∃ c1 a b rKey rDisp rBase src i,
      genSparseSwitch tableOffset rlSrc c = some ((), c1) ∧
      (a, b) = (if rlSrc.location = .kLocPhysReg then (x2, x3) else (x3, x4)) ∧
      (rKey = a ∧ rDisp = b ∨ rKey = b ∧ rDisp = a) ∧
      rKey ≤ rDisp ∧ (a ≠ b → rKey < rDisp) ∧
      c.lir.length ≤ i ∧
      c1.lir[i]? = some ⟨.raw .kThumb2LdmiaWB
          [rBase, (((1 <<< rKey.toNat) ||| (1 <<< rDisp.toNat) : Nat) : Int)], false, .null⟩ ∧
      c1.lir[i + 1]? = some ⟨.opRegReg .kOpCmp rKey src, false, .null⟩ ∧
      c1.lir[i + 3]? = some ⟨.raw .kThumb2AddPCR [rDisp], false, .null⟩ := by
  obtain ⟨loads, src, rBase, a, b, rIdx, hcase, he⟩ :=
    genSparseSwitch_emits c tableOffset rlSrc x1 x2 x3 x4 x5 rest hn hfree
  cases hg : genSparseSwitch tableOffset rlSrc c with
  | none => rw [hg] at he; simp at he
  | some p =>
      obtain ⟨⟨⟩, c1⟩ := p
      rw [hg] at he
      simp only [Option.map_some', Option.some.injEq, Prod.mk.injEq] at he
      refine ⟨c1, a, b, if a > b then b else a, if a > b then a else b, rBase, src,
        c.lir.length + loads.length + 3, rfl, ?_, ?_, ?_, ?_, by omega, ?_, ?_, ?_⟩
      · rcases hcase with ⟨hs, -, -, -, ra, rb, -⟩ | ⟨hs, -, -, -, ra, rb, -⟩
        · rw [if_pos hs, ra, rb]
        · rw [if_neg hs, ra, rb]
      · by_cases h : a > b
        · right; simp [h]
        · left; simp [h]
      · split_ifs <;> omega
      · intro hab
        split_ifs <;> omega
      · rw [he.2, ← List.length_append, getElem?_append_add]
        rfl
      · rw [he.2, ← List.length_append, Nat.add_assoc, getElem?_append_add]
        rfl
      · rw [he.2, ← List.length_append, Nat.add_assoc, getElem?_append_add]
        rfl

theorem genSparseSwitch_key_below_disp_witness :
    ∃ c1 a b rKey rDisp rBase src i,
      genSparseSwitch 0 ⟨.kLocDalvikFrame, false, 0, -1, -1⟩
          { switchUnit with regPool := ⟨[0, 1, 3, 2, 12], []⟩ } = some ((), c1) ∧
      (a, b) = ((3, 2) : Int × Int) ∧
      (rKey = a ∧ rDisp = b ∨ rKey = b ∧ rDisp = a) ∧
      rKey ≤ rDisp ∧ (a ≠ b → rKey < rDisp) ∧
      switchUnit.lir.length ≤ i ∧
      c1.lir[i]? = some ⟨.raw .kThumb2LdmiaWB
          [rBase, (((1 <<< rKey.toNat) ||| (1 <<< rDisp.toNat) : Nat) : Int)], false, .null⟩ ∧
      c1.lir[i + 1]? = some ⟨.opRegReg .kOpCmp rKey src, false, .null⟩ ∧
      c1.lir[i + 3]? = some ⟨.raw .kThumb2AddPCR [rDisp], false, .null⟩ :=
  genSparseSwitch_key_below_disp { switchUnit with regPool := ⟨[0, 1, 3, 2, 12], []⟩ } 0
    ⟨.kLocDalvikFrame, false, 0, -1, -1⟩ 0 1 3 2 12 [] (by decide) (by decide)

end Art
